import Mathlib

/-!
# Buffyboard: key event synthesis and terminal geometry negotiation

A shallow embedding of `main.c` (key event synthesis), `uinput_device.c` (the
output sink) and `terminal.c` (terminal resizing) together with the layout
catalog of `sq2lv_layouts.c`.

Conventions of the embedding:

* button indexes (`uint16_t btn_id`, the entries of `modifier_idxs` and
  `switcher_idxs`) are natural numbers; scancodes and the entries of
  `scancode_idxs` / `scancode_nums` are integers (the catalog uses `-1`);
* the keyboard widget is the pair of its active layer and the
  `LV_BUTTONMATRIX_CTRL_CHECKED` flag of every button;
* calls into the output sink are recorded in a log, and the answer of every
  `write(2)` is given by an oracle;
* `unsigned short` row counts are natural numbers: sums and the results of the
  float computations are reduced modulo `2 ^ 16`, differences wrap around
  below zero (`ushrt_sub`);
* the upward loop of `reset_terminal` need not end and runs on fuel; all other
  loops are total;
* the system calls of terminal.c are answered by a kernel and recorded, each
  with its answer; the `float` variable `height_factor` is represented by the
  two computations made with it, and for the factor `2.0f / 3.0f` of `main`
  the product is computed with binary32 rounding.
-/

namespace Buffyboard

/-! ## Layout catalog (sq2lv_layouts.h) -/

/-- Layer type `sq2lv_layer_t`. The key caps and the rendering attributes are
left out: no function of the embedding reads them. -/
structure sq2lv_layer_t where
  /-- Number of keys -/
  num_keys : Nat
  /-- Number of modifier keys -/
  num_modifiers : Nat
  /-- Button indexes of modifier keys -/
  modifier_idxs : List Nat
  /-- Number of buttons that trigger a layer switch -/
  num_switchers : Nat
  /-- Button indexes that trigger a layer switch -/
  switcher_idxs : List Nat
  /-- Indexes of layers to jump to when triggering layer switch buttons -/
  switcher_dests : List Nat
  /-- Total number of scancodes -/
  num_scancodes : Nat
  /-- Flat array of scancodes -/
  scancodes : List Int
  /-- Start index in scancodes array for key cap -/
  scancode_idxs : List Int
  /-- Number of scancodes for key cap -/
  scancode_nums : List Int
deriving DecidableEq, Repr

/-- Layout type `sq2lv_layout_t`. -/
structure sq2lv_layout_t where
  name : String
  short_name : String
  num_layers : Nat
  layers : List sq2lv_layer_t
deriving DecidableEq, Repr

/-- The layer without keys, used when a layer index is out of range. -/
def empty_layer : sq2lv_layer_t :=
  { num_keys := 0, num_modifiers := 0, modifier_idxs := [], num_switchers := 0,
    switcher_idxs := [], switcher_dests := [], num_scancodes := 0, scancodes := [],
    scancode_idxs := [], scancode_nums := [] }

/-! ## Keyboard widget state -/

/-- State of the keyboard widget as far as the synthesizer reads and writes it:
the active layer and, per button, the flag `LV_BUTTONMATRIX_CTRL_CHECKED`.
The meaning of the flag is inverted (main.c, lines 127-129): a modifier is
latched when its flag is NOT set. -/
structure Keyboard where
  layer : Nat
  checked : Nat → Bool

/-- Source expression `lv_buttonmatrix_has_button_ctrl(keyboard, btn, LV_BUTTONMATRIX_CTRL_CHECKED)`. -/
def lv_buttonmatrix_has_button_ctrl_checked (kb : Keyboard) (btn : Nat) : Bool :=
  kb.checked btn

/-- Source statement `lv_buttonmatrix_set_button_ctrl(keyboard, btn, LV_BUTTONMATRIX_CTRL_CHECKED)`. -/
def lv_buttonmatrix_set_button_ctrl_checked (kb : Keyboard) (btn : Nat) : Keyboard :=
  { kb with checked := fun j => if j = btn then true else kb.checked j }

/-- Source statement clearing the flag, `lv_buttonmatrix_clear_button_ctrl`. -/
def lv_buttonmatrix_clear_button_ctrl_checked (kb : Keyboard) (btn : Nat) : Keyboard :=
  { kb with checked := fun j => if j = btn then false else kb.checked j }

/-- The layer the keyboard currently shows. -/
def current_layer (layout : sq2lv_layout_t) (kb : Keyboard) : sq2lv_layer_t :=
  layout.layers.getD kb.layer empty_layer

/-- The modifier button indexes of a layer: the first `num_modifiers` entries
of `modifier_idxs`. -/
def layer_modifiers (l : sq2lv_layer_t) : List Nat :=
  l.modifier_idxs.take l.num_modifiers

/-- The switcher button indexes of a layer: the first `num_switchers` entries
of `switcher_idxs`. -/
def layer_switchers (l : sq2lv_layer_t) : List Nat :=
  l.switcher_idxs.take l.num_switchers

/-- Modelled from the spec: `sq2lv_is_modifier` (squeek2lvgl/sq2lv.c is not
among the sources). A key has the role Modifier when its button index is one
of the layer's "button indexes of modifier keys". -/
def sq2lv_is_modifier (layout : sq2lv_layout_t) (kb : Keyboard) (btn : Nat) : Bool :=
  decide (btn ∈ layer_modifiers (current_layer layout kb))

/-- Modelled from the spec: `sq2lv_get_modifier_indexes` (squeek2lvgl/sq2lv.c
is not among the sources): the modifier index array of the active layer
together with its length `num_modifiers`. -/
def sq2lv_get_modifier_indexes (layout : sq2lv_layout_t) (kb : Keyboard) : List Nat :=
  layer_modifiers (current_layer layout kb)

/-- Modelled from the spec: `sq2lv_is_layer_switcher` (squeek2lvgl/sq2lv.c is
not among the sources). A key has the role LayerSwitch when its button index
is one of the layer's "button indexes that trigger a layer switch". -/
def sq2lv_is_layer_switcher (layout : sq2lv_layout_t) (kb : Keyboard) (btn : Nat) : Bool :=
  decide (btn ∈ layer_switchers (current_layer layout kb))

/-- The destination of a layer switch key: the entry of `switcher_dests` at
the position where the button index stands in `switcher_idxs`. -/
def switcher_destination (l : sq2lv_layer_t) (btn : Nat) : Nat :=
  l.switcher_dests.getD ((layer_switchers l).indexOf btn) 0

/-- Modelled from the spec: `sq2lv_switch_layer` (squeek2lvgl/sq2lv.c is not
among the sources). "Then set active layer to the key's destination": the
active layer becomes the destination of the switch key; the flags of the
buttons are left as `pop_checked_modifier_keys` put them. -/
def sq2lv_switch_layer (layout : sq2lv_layout_t) (kb : Keyboard) (btn : Nat) : Keyboard :=
  { kb with layer := switcher_destination (current_layer layout kb) btn }

/-- Modelled from the spec: `sq2lv_get_scancodes` (squeek2lvgl/sq2lv.c is not
among the sources). The layer has "a flat scancode table giving, per key, zero
or more scancodes": the result is the scancode array seen from the key's start
index `scancode_idxs[btn]` and the key's count `scancode_nums[btn]`. -/
def sq2lv_get_scancodes (layout : sq2lv_layout_t) (kb : Keyboard) (btn : Nat) : List Int × Nat :=
  let l := current_layer layout kb
  (l.scancodes.drop (l.scancode_idxs.getD btn (-1)).toNat, (l.scancode_nums.getD btn 0).toNat)

/-- The scancodes `scancodes[0], ..., scancodes[num_scancodes - 1]` that
`emit_key_events` reads for a key, in array order. -/
def key_scancodes (layout : sq2lv_layout_t) (kb : Keyboard) (btn : Nat) : List Int :=
  (List.range (sq2lv_get_scancodes layout kb btn).2).map
    (fun i => (sq2lv_get_scancodes layout kb btn).1.getD i 0)

/-! ## Output sink (uinput_device.c) -/

/-- A call into the output sink: `bb_uinput_device_emit_key_down(code)` or
`bb_uinput_device_emit_key_up(code)`. -/
inductive KeyEvent where
  | down (code : Int)
  | up (code : Int)
deriving DecidableEq, Repr

/-- The record `struct input_event` as far as `uinput_device_emit` fills it. -/
structure input_event where
  type : Int
  code : Int
  value : Int
deriving DecidableEq, Repr

def EV_SYN : Int := 0
def EV_KEY : Int := 1
def SYN_REPORT : Int := 0

/-- What the output sink has seen: the calls of `bb_uinput_device_emit_key_down`
and `bb_uinput_device_emit_key_up` in order, the events handed to `write`, and
the number of `perror` lines. -/
structure SinkLog where
  calls : List KeyEvent
  writes : List input_event
  errors : Nat
deriving DecidableEq, Repr

/-- The empty log. -/
def SinkLog.empty : SinkLog := { calls := [], writes := [], errors := 0 }

/-- The device behind the sink: given the events written so far and the event
being written, whether `write` transfers the whole event. -/
abbrev WriteOracle := List input_event → input_event → Bool

/-- Source function `uinput_device_emit`. -/
def uinput_device_emit (w : WriteOracle) (log : SinkLog) (type code value : Int) : Bool × SinkLog :=
  let event : input_event := { type := type, code := code, value := value }
  if w log.writes event then
    (true, { log with writes := log.writes ++ [event] })
  else
    (false, { log with writes := log.writes ++ [event], errors := log.errors + 1 })

/-- Source function `uinput_device_synchronise`. -/
def uinput_device_synchronise (w : WriteOracle) (log : SinkLog) : Bool × SinkLog :=
  uinput_device_emit w log EV_SYN SYN_REPORT 0

/-- Source function `bb_uinput_device_emit_key_down`. -/
def bb_uinput_device_emit_key_down (w : WriteOracle) (log : SinkLog) (scancode : Int) : Bool × SinkLog :=
  let log0 := { log with calls := log.calls ++ [KeyEvent.down scancode] }
  let r := uinput_device_emit w log0 EV_KEY scancode 1
  if r.1 then uinput_device_synchronise w r.2 else (false, r.2)

/-- Source function `bb_uinput_device_emit_key_up`. -/
def bb_uinput_device_emit_key_up (w : WriteOracle) (log : SinkLog) (scancode : Int) : Bool × SinkLog :=
  let log0 := { log with calls := log.calls ++ [KeyEvent.up scancode] }
  let r := uinput_device_emit w log0 EV_KEY scancode 0
  if r.1 then uinput_device_synchronise w r.2 else (false, r.2)

/-! ## Key event synthesis (main.c) -/

/-- Source function `emit_key_events`: key down events in forward order, then
key up events in backward order; the results of the sink are not looked at. -/
def emit_key_events (w : WriteOracle) (layout : sq2lv_layout_t) (kb : Keyboard)
    (log : SinkLog) (btn_id : Nat) (key_down key_up : Bool) : SinkLog :=
  let scancodes := (sq2lv_get_scancodes layout kb btn_id).1
  let num_scancodes := (sq2lv_get_scancodes layout kb btn_id).2
  let log1 :=
    if key_down then
      (List.range num_scancodes).foldl
        (fun l i => (bb_uinput_device_emit_key_down w l (scancodes.getD i 0)).2) log
    else log
  if key_up then
    (List.range num_scancodes).reverse.foldl
      (fun l i => (bb_uinput_device_emit_key_up w l (scancodes.getD i 0)).2) log1
  else log1

/-- One round of the loop of `pop_checked_modifier_keys`. -/
def pop_step (w : WriteOracle) (layout : sq2lv_layout_t) (s : Keyboard × SinkLog) (idx : Nat) :
    Keyboard × SinkLog :=
  if !lv_buttonmatrix_has_button_ctrl_checked s.1 idx then
    (lv_buttonmatrix_set_button_ctrl_checked s.1 idx,
      emit_key_events w layout s.1 s.2 idx false true)
  else s

/-- Source function `pop_checked_modifier_keys`. -/
def pop_checked_modifier_keys (w : WriteOracle) (layout : sq2lv_layout_t) (kb : Keyboard)
    (log : SinkLog) : Keyboard × SinkLog :=
  (sq2lv_get_modifier_indexes layout kb).foldl (pop_step w layout) (kb, log)

/-- Source function `keyboard_value_changed_cb`. The selected button is `none`
for `LV_BUTTONMATRIX_BUTTON_NONE`. -/
def keyboard_value_changed_cb (w : WriteOracle) (layout : sq2lv_layout_t) (kb : Keyboard)
    (log : SinkLog) (selected : Option Nat) : Keyboard × SinkLog :=
  match selected with
  | none => (kb, log)
  | some btn_id =>
    if sq2lv_is_layer_switcher layout kb btn_id then
      let r := pop_checked_modifier_keys w layout kb log
      (sq2lv_switch_layer layout r.1 btn_id, r.2)
    else
      let is_modifier := sq2lv_is_modifier layout kb btn_id
      let is_checked := !lv_buttonmatrix_has_button_ctrl_checked kb btn_id
      let log1 := emit_key_events w layout kb log btn_id true (!is_modifier || !is_checked)
      if !is_modifier then pop_checked_modifier_keys w layout kb log1 else (kb, log1)

/-- Modelled from the spec: the widget's part of a button press (LVGL is not
among the sources). "Modifier key: toggle its latch": before the value-changed
event is delivered, the flag of a pressed Modifier key is toggled; rule 1 has
priority, so a layer switch key is not toggled. -/
def toggle_latch (layout : sq2lv_layout_t) (kb : Keyboard) (btn : Nat) : Keyboard :=
  if !sq2lv_is_layer_switcher layout kb btn && sq2lv_is_modifier layout kb btn then
    (if kb.checked btn then lv_buttonmatrix_clear_button_ctrl_checked kb btn
     else lv_buttonmatrix_set_button_ctrl_checked kb btn)
  else kb

/-- The operation `on_button_press(layer, button_index)` of the spec: the
widget toggles the latch of a Modifier key and then runs the callback. -/
def on_button_press (w : WriteOracle) (layout : sq2lv_layout_t) (kb : Keyboard)
    (log : SinkLog) (btn : Nat) : Keyboard × SinkLog :=
  keyboard_value_changed_cb w layout (toggle_latch layout kb btn) log (some btn)

/-! ## Key codes (linux/input-event-codes.h) -/

def KEY_LEFTCTRL : Int := 29
def KEY_LEFTALT : Int := 56
def KEY_UP : Int := 103
def KEY_DOWN : Int := 108
def KEY_LEFT : Int := 105
def KEY_RIGHT : Int := 106
def KEY_Q : Int := 16
def KEY_W : Int := 17
def KEY_E : Int := 18
def KEY_R : Int := 19
def KEY_T : Int := 20
def KEY_Y : Int := 21
def KEY_U : Int := 22
def KEY_I : Int := 23
def KEY_O : Int := 24
def KEY_P : Int := 25
def KEY_A : Int := 30
def KEY_S : Int := 31
def KEY_D : Int := 32
def KEY_F : Int := 33
def KEY_G : Int := 34
def KEY_H : Int := 35
def KEY_J : Int := 36
def KEY_K : Int := 37
def KEY_L : Int := 38
def KEY_Z : Int := 44
def KEY_X : Int := 45
def KEY_C : Int := 46
def KEY_V : Int := 47
def KEY_B : Int := 48
def KEY_N : Int := 49
def KEY_M : Int := 50
def KEY_BACKSPACE : Int := 14
def KEY_SPACE : Int := 57
def KEY_ENTER : Int := 28
def KEY_PAGEUP : Int := 104
def KEY_PAGEDOWN : Int := 109
def KEY_HOME : Int := 102
def KEY_END : Int := 107
def KEY_LEFTSHIFT : Int := 42
def KEY_1 : Int := 2
def KEY_2 : Int := 3
def KEY_3 : Int := 4
def KEY_4 : Int := 5
def KEY_5 : Int := 6
def KEY_6 : Int := 7
def KEY_7 : Int := 8
def KEY_8 : Int := 9
def KEY_9 : Int := 10
def KEY_0 : Int := 11
def KEY_SLASH : Int := 53
def KEY_MINUS : Int := 12
def KEY_EQUAL : Int := 13
def KEY_COMMA : Int := 51
def KEY_APOSTROPHE : Int := 40
def KEY_SEMICOLON : Int := 39
def KEY_DOT : Int := 52
def KEY_GRAVE : Int := 41
def KEY_BACKSLASH : Int := 43
def KEY_LEFTBRACE : Int := 26
def KEY_RIGHTBRACE : Int := 27
def KEY_F1 : Int := 59
def KEY_F2 : Int := 60
def KEY_F3 : Int := 61
def KEY_F4 : Int := 62
def KEY_F5 : Int := 63
def KEY_F6 : Int := 64
def KEY_F7 : Int := 65
def KEY_F8 : Int := 66
def KEY_F9 : Int := 67
def KEY_F10 : Int := 68
def KEY_F11 : Int := 87
def KEY_F12 : Int := 88
def KEY_ESC : Int := 1
def KEY_TAB : Int := 15
def KEY_PAUSE : Int := 119
def KEY_INSERT : Int := 110
def KEY_DELETE : Int := 111
def KEY_COMPOSE : Int := 127
def KEY_BREAK : Int := 411

/-! ## The layout US English (Terminal) (sq2lv_layouts.c) -/

/-- Layer: Lowercase letters. -/
def layer_lower_terminal_us : sq2lv_layer_t :=
  { num_keys := 38,
    num_modifiers := 2,
    modifier_idxs := [0, 1],
    num_switchers := 3,
    switcher_idxs := [25, 34, 36],
    switcher_dests := [1, 2, 4],
    num_scancodes := 5,
    scancodes := [
      KEY_LEFTCTRL, KEY_LEFTALT, KEY_UP, KEY_DOWN, KEY_LEFT, KEY_RIGHT,
      KEY_Q, KEY_W, KEY_E, KEY_R, KEY_T, KEY_Y, KEY_U, KEY_I, KEY_O, KEY_P,
      KEY_A, KEY_S, KEY_D, KEY_F, KEY_G, KEY_H, KEY_J, KEY_K, KEY_L,
      KEY_Z, KEY_X, KEY_C, KEY_V, KEY_B, KEY_N, KEY_M, KEY_BACKSPACE,
      KEY_SPACE, KEY_ENTER
    ],
    scancode_idxs := [
      0, 1, 2, 3, 4, 5,
      6, 7, 8, 9, 10, 11, 12, 13, 14, 15,
      16, 17, 18, 19, 20, 21, 22, 23, 24,
      -1, 25, 26, 27, 28, 29, 30, 31, 32,
      -1, 33, -1, 34
    ],
    scancode_nums := [
      1, 1, 1, 1, 1, 1,
      1, 1, 1, 1, 1, 1, 1, 1, 1, 1,
      1, 1, 1, 1, 1, 1, 1, 1, 1,
      0, 1, 1, 1, 1, 1, 1, 1, 1,
      0, 1, 0, 1
    ] }

/-- Layer: Uppercase letters. -/
def layer_upper_terminal_us : sq2lv_layer_t :=
  { num_keys := 38,
    num_modifiers := 2,
    modifier_idxs := [0, 1],
    num_switchers := 3,
    switcher_idxs := [25, 34, 36],
    switcher_dests := [0, 2, 4],
    num_scancodes := 5,
    scancodes := [
      KEY_LEFTCTRL, KEY_LEFTALT, KEY_PAGEUP, KEY_PAGEDOWN, KEY_HOME, KEY_END,
      KEY_LEFTSHIFT, KEY_Q, KEY_LEFTSHIFT, KEY_W, KEY_LEFTSHIFT, KEY_E, KEY_LEFTSHIFT, KEY_R, KEY_LEFTSHIFT, KEY_T, KEY_LEFTSHIFT, KEY_Y, KEY_LEFTSHIFT, KEY_U, KEY_LEFTSHIFT, KEY_I, KEY_LEFTSHIFT, KEY_O, KEY_LEFTSHIFT, KEY_P,
      KEY_LEFTSHIFT, KEY_A, KEY_LEFTSHIFT, KEY_S, KEY_LEFTSHIFT, KEY_D, KEY_LEFTSHIFT, KEY_F, KEY_LEFTSHIFT, KEY_G, KEY_LEFTSHIFT, KEY_H, KEY_LEFTSHIFT, KEY_J, KEY_LEFTSHIFT, KEY_K, KEY_LEFTSHIFT, KEY_L,
      KEY_LEFTSHIFT, KEY_Z, KEY_LEFTSHIFT, KEY_X, KEY_LEFTSHIFT, KEY_C, KEY_LEFTSHIFT, KEY_V, KEY_LEFTSHIFT, KEY_B, KEY_LEFTSHIFT, KEY_N, KEY_LEFTSHIFT, KEY_M, KEY_BACKSPACE,
      KEY_SPACE, KEY_ENTER
    ],
    scancode_idxs := [
      0, 1, 2, 3, 4, 5,
      6, 8, 10, 12, 14, 16, 18, 20, 22, 24,
      26, 28, 30, 32, 34, 36, 38, 40, 42,
      -1, 44, 46, 48, 50, 52, 54, 56, 58,
      -1, 59, -1, 60
    ],
    scancode_nums := [
      1, 1, 1, 1, 1, 1,
      2, 2, 2, 2, 2, 2, 2, 2, 2, 2,
      2, 2, 2, 2, 2, 2, 2, 2, 2,
      0, 2, 2, 2, 2, 2, 2, 2, 1,
      0, 1, 0, 1
    ] }

/-- Layer: Numbers / symbols. -/
def layer_numbers_terminal_us : sq2lv_layer_t :=
  { num_keys := 39,
    num_modifiers := 2,
    modifier_idxs := [0, 1],
    num_switchers := 2,
    switcher_idxs := [26, 35],
    switcher_dests := [3, 0],
    num_scancodes := 5,
    scancodes := [
      KEY_LEFTCTRL, KEY_LEFTALT, KEY_UP, KEY_DOWN, KEY_LEFT, KEY_RIGHT,
      KEY_1, KEY_2, KEY_3, KEY_4, KEY_5, KEY_6, KEY_7, KEY_8, KEY_9, KEY_0,
      KEY_LEFTSHIFT, KEY_8, KEY_LEFTSHIFT, KEY_3, KEY_LEFTSHIFT, KEY_4, KEY_SLASH, KEY_LEFTSHIFT, KEY_7, KEY_MINUS, KEY_LEFTSHIFT, KEY_MINUS, KEY_LEFTSHIFT, KEY_EQUAL, KEY_LEFTSHIFT, KEY_9, KEY_LEFTSHIFT, KEY_0,
      KEY_COMMA, KEY_LEFTSHIFT, KEY_APOSTROPHE, KEY_APOSTROPHE, KEY_LEFTSHIFT, KEY_SEMICOLON, KEY_SEMICOLON, KEY_LEFTSHIFT, KEY_1, KEY_LEFTSHIFT, KEY_SLASH, KEY_BACKSPACE,
      KEY_SPACE, KEY_DOT, KEY_ENTER
    ],
    scancode_idxs := [
      0, 1, 2, 3, 4, 5,
      6, 7, 8, 9, 10, 11, 12, 13, 14, 15,
      16, 18, 20, 22, 23, 25, 26, 28, 30, 32,
      -1, 34, 35, 37, 38, 40, 41, 43, 45,
      -1, 46, 47, 48
    ],
    scancode_nums := [
      1, 1, 1, 1, 1, 1,
      1, 1, 1, 1, 1, 1, 1, 1, 1, 1,
      2, 2, 2, 1, 2, 1, 2, 2, 2, 2,
      0, 1, 2, 1, 2, 1, 2, 2, 1,
      0, 1, 1, 1
    ] }

/-- Layer: Symbols. -/
def layer_symbols_terminal_us : sq2lv_layer_t :=
  { num_keys := 39,
    num_modifiers := 2,
    modifier_idxs := [0, 1],
    num_switchers := 2,
    switcher_idxs := [26, 35],
    switcher_dests := [2, 0],
    num_scancodes := 5,
    scancodes := [
      KEY_LEFTCTRL, KEY_LEFTALT, KEY_UP, KEY_DOWN, KEY_LEFT, KEY_RIGHT,
      KEY_LEFTSHIFT, KEY_GRAVE, KEY_GRAVE, KEY_LEFTSHIFT, KEY_BACKSLASH,
      KEY_LEFTSHIFT, KEY_6, KEY_LEFTSHIFT, KEY_2, KEY_LEFTSHIFT, KEY_LEFTBRACE, KEY_LEFTSHIFT, KEY_RIGHTBRACE,
      KEY_BACKSLASH, KEY_LEFTSHIFT, KEY_5, KEY_LEFTSHIFT, KEY_COMMA, KEY_LEFTSHIFT, KEY_DOT, KEY_EQUAL, KEY_LEFTBRACE, KEY_RIGHTBRACE, KEY_BACKSPACE,
      KEY_SPACE, KEY_DOT, KEY_ENTER
    ],
    scancode_idxs := [
      0, 1, 2, 3, 4, 5,
      6, 8, 9, -1, -1, -1, -1, -1, -1, -1,
      -1, -1, -1, -1, -1, 11, -1, 13, 15, 17,
      -1, 19, 20, 22, 24, 26, 27, 28, 29,
      -1, 30, 31, 32
    ],
    scancode_nums := [
      1, 1, 1, 1, 1, 1,
      2, 1, 2, 0, 0, 0, 0, 0, 0, 0,
      0, 0, 0, 0, 0, 2, 0, 2, 2, 2,
      0, 1, 2, 2, 2, 1, 1, 1, 1,
      0, 1, 1, 1
    ] }

/-- Layer: Actions. -/
def layer_actions_terminal_us : sq2lv_layer_t :=
  { num_keys := 30,
    num_modifiers := 2,
    modifier_idxs := [0, 1],
    num_switchers := 1,
    switcher_idxs := [24],
    switcher_dests := [0],
    num_scancodes := 5,
    scancodes := [
      KEY_LEFTCTRL, KEY_LEFTALT, KEY_PAGEUP, KEY_PAGEDOWN, KEY_HOME, KEY_END,
      KEY_F1, KEY_F2, KEY_F3, KEY_F4, KEY_F5, KEY_F6,
      KEY_F7, KEY_F8, KEY_F9, KEY_F10, KEY_F11, KEY_F12,
      KEY_ESC, KEY_TAB, KEY_PAUSE, KEY_INSERT, KEY_UP, KEY_DELETE,
      KEY_COMPOSE, KEY_BREAK, KEY_LEFT, KEY_DOWN, KEY_RIGHT
    ],
    scancode_idxs := [
      0, 1, 2, 3, 4, 5,
      6, 7, 8, 9, 10, 11,
      12, 13, 14, 15, 16, 17,
      18, 19, 20, 21, 22, 23,
      -1, 24, 25, 26, 27, 28
    ],
    scancode_nums := [
      1, 1, 1, 1, 1, 1,
      1, 1, 1, 1, 1, 1,
      1, 1, 1, 1, 1, 1,
      1, 1, 1, 1, 1, 1,
      0, 1, 1, 1, 1, 1
    ] }

def num_layers_terminal_us : Nat := 5

def layers_terminal_us : List sq2lv_layer_t :=
  [layer_lower_terminal_us, layer_upper_terminal_us, layer_numbers_terminal_us, layer_symbols_terminal_us, layer_actions_terminal_us]

def sq2lv_num_layouts : Nat := 1

/-- The layout `sq2lv_layouts[SQ2LV_LAYOUT_TERMINAL_US]`. -/
def layout_terminal_us : sq2lv_layout_t :=
  { name := "US English (Terminal)", short_name := "terminal/us",
    num_layers := num_layers_terminal_us, layers := layers_terminal_us }

def sq2lv_layouts : List sq2lv_layout_t := [layout_terminal_us]

def sq2lv_num_unique_scancodes : Nat := 80

def sq2lv_unique_scancodes : List Int := [
  KEY_LEFTCTRL, KEY_LEFTALT, KEY_UP, KEY_DOWN, KEY_LEFT, KEY_RIGHT, KEY_Q, KEY_W, KEY_E, KEY_R,
  KEY_T, KEY_Y, KEY_U, KEY_I, KEY_O, KEY_P, KEY_A, KEY_S, KEY_D, KEY_F,
  KEY_G, KEY_H, KEY_J, KEY_K, KEY_L, KEY_Z, KEY_X, KEY_C, KEY_V, KEY_B,
  KEY_N, KEY_M, KEY_BACKSPACE, KEY_SPACE, KEY_ENTER, KEY_PAGEUP, KEY_PAGEDOWN, KEY_HOME, KEY_END, KEY_LEFTSHIFT,
  KEY_1, KEY_2, KEY_3, KEY_4, KEY_5, KEY_6, KEY_7, KEY_8, KEY_9, KEY_0,
  KEY_SLASH, KEY_MINUS, KEY_EQUAL, KEY_COMMA, KEY_APOSTROPHE, KEY_SEMICOLON, KEY_DOT, KEY_GRAVE, KEY_BACKSLASH, KEY_LEFTBRACE,
  KEY_RIGHTBRACE, KEY_F1, KEY_F2, KEY_F3, KEY_F4, KEY_F5, KEY_F6, KEY_F7, KEY_F8, KEY_F9,
  KEY_F10, KEY_F11, KEY_F12, KEY_ESC, KEY_TAB, KEY_PAUSE, KEY_INSERT, KEY_DELETE, KEY_COMPOSE, KEY_BREAK
]

/-! ## Terminal geometry (terminal.c) -/

/-- The record `struct winsize`. -/
structure winsize where
  ws_row : Nat
  ws_col : Nat
  ws_xpixel : Nat
  ws_ypixel : Nat
deriving DecidableEq, Repr

/-- The values of `errno` that terminal.c tells apart: `EINVAL` ("value out of
range") and any other error. -/
inductive Errno where
  | EINVAL
  | EOTHER
deriving DecidableEq, Repr

/-- A terminal device with states `τ`: the answers of the two control calls.
`TIOCGWINSZ` yields the size or fails; `TIOCSWINSZ` succeeds (`none`) or fails
with an error. Both may change the state of the device. -/
structure Tty (τ : Type) where
  tiocgwinsz : τ → Except Errno winsize × τ
  tiocswinsz : τ → winsize → Option Errno × τ

/-- What the functions of terminal.c thread through: the state of the device
behind `fd`, the variable `errno` (`none` while no call has failed), the
number of get-size calls and the sizes requested by set-size calls, in order. -/
structure TermState (τ : Type) where
  dev : τ
  errno : Option Errno
  gets : Nat
  sets : List winsize

/-- The static variable `height_factor`. Float arithmetic is outside the
embedding, so the variable is represented by the two computations made with it:
`div_floor rows` is the value of `floor((float)rows / height_factor)` and
`mul_floor rows` the value of `floor((float)rows * height_factor)`. -/
structure HeightFactor where
  div_floor : Nat → Nat
  mul_floor : Nat → Nat

/-- Number of values of an `unsigned short`. -/
def USHRT : Nat := 65536

/-- The statement `ws_row -= k` on an `unsigned short` holding `row`: the
difference, wrapped around below zero. -/
def ushrt_sub (row k : Nat) : Nat :=
  if k ≤ row then row - k else row + USHRT - k

/-- Source function `get_terminal_size`; `size` is written on success only. -/
def get_terminal_size {τ : Type} (tty : Tty τ) (s : TermState τ) (size : winsize) :
    Bool × winsize × TermState τ :=
  match tty.tiocgwinsz s.dev with
  | (Except.ok sz, d) => (true, sz, { s with dev := d, gets := s.gets + 1 })
  | (Except.error e, d) => (false, size, { s with dev := d, errno := some e, gets := s.gets + 1 })

/-- Source function `set_terminal_size`; `errno` is written on failure only. -/
def set_terminal_size {τ : Type} (tty : Tty τ) (s : TermState τ) (size : winsize) :
    Bool × TermState τ :=
  match tty.tiocswinsz s.dev size with
  | (none, d) => (true, { s with dev := d, sets := s.sets ++ [size] })
  | (some e, d) => (false, { s with dev := d, errno := some e, sets := s.sets ++ [size] })

/-- The loop `do { size->ws_row -= 1; } while (size->ws_row > 0 &&
!set_terminal_size(fd, size) && errno == EINVAL)` of `reset_terminal`, entered
right after a decrement: the first argument is the value of `ws_row` that the
decrement produced. -/
def reset_down_loop {τ : Type} (tty : Tty τ) : Nat → winsize → TermState τ → winsize × TermState τ
  | 0, size, s => ({ size with ws_row := 0 }, s)
  | k + 1, size, s =>
    let size1 := { size with ws_row := k + 1 }
    let r := set_terminal_size tty s size1
    if r.1 then (size1, r.2)
    else if r.2.errno = some Errno.EINVAL then reset_down_loop tty k size1 r.2
    else (size1, r.2)

/-- The loop `do { size->ws_row += 1; } while (set_terminal_size(fd, size))` of
`reset_terminal`. The loop need not end, so it runs on fuel: `none` means that
the fuel ran out. -/
def reset_up_loop {τ : Type} (tty : Tty τ) : Nat → winsize → TermState τ →
    Option (winsize × TermState τ)
  | 0, _, _ => none
  | fuel + 1, size, s =>
    let size1 := { size with ws_row := (size.ws_row + 1) % USHRT }
    let r := set_terminal_size tty s size1
    if r.1 then reset_up_loop tty fuel size1 r.2 else some (size1, r.2)

/-- Source function `reset_terminal` (Maximize). The result is `none` when the
fuel of the upward loop ran out, else the returned flag, the record `*size`
and the state. -/
def reset_terminal {τ : Type} (tty : Tty τ) (hf : HeightFactor) (fuel : Nat)
    (s : TermState τ) (size : winsize) : Option (Bool × winsize × TermState τ) :=
  match get_terminal_size tty s size with
  | (false, size0, s0) => some (false, size0, s0)
  | (true, size0, s0) =>
    /- Test-resize by two rows. -/
    let size1 := { size0 with ws_row := (size0.ws_row + 2) % USHRT }
    match set_terminal_size tty s0 size1 with
    | (false, s1) =>
      let is_max := decide (s1.errno = some Errno.EINVAL)
      some (is_max, { size1 with ws_row := ushrt_sub size1.ws_row 2 }, s1)
    | (true, s1) =>
      let size2 := { size1 with ws_row := hf.div_floor size1.ws_row % USHRT }
      match set_terminal_size tty s1 size2 with
      | (false, s2) =>
        if s2.errno ≠ some Errno.EINVAL then some (false, size2, s2)
        else
          /- Size too large. Reduce by one row until it fits. -/
          let d := reset_down_loop tty (ushrt_sub size2.ws_row 1) size2 s2
          if d.2.errno ≠ some Errno.EINVAL ∨ d.1.ws_row = 0 then some (false, d.1, d.2)
          else some (true, d.1, d.2)
      | (true, s2) =>
        /- Size fits but may not max out available space. Increase by one row
        until it doesn't fit anymore. -/
        match reset_up_loop tty fuel size2 s2 with
        | none => none
        | some (size3, s3) =>
          if s3.errno ≠ some Errno.EINVAL then some (false, size3, s3)
          else some (true, { size3 with ws_row := ushrt_sub size3.ws_row 1 }, s3)

/-- A terminal whose set-size call accepts a row count exactly when it is at
most `R` and rejects larger ones as out of range; its state is its size, and
its get-size call succeeds. -/
def bounded_tty (R : Nat) : Tty winsize :=
  { tiocgwinsz := fun d => (Except.ok d, d),
    tiocswinsz := fun d sz => if sz.ws_row ≤ R then (none, sz) else (some Errno.EINVAL, d) }

/-- The state in which an operation starts on a terminal of size `d`. -/
def TermState.start (d : winsize) : TermState winsize :=
  { dev := d, errno := none, gets := 0, sets := [] }

/-- A height factor `p / q` computed exactly. -/
def HeightFactor.exact (p q : Nat) : HeightFactor :=
  { div_floor := fun rows => rows * q / p, mul_floor := fun rows => rows * p / q }

/-! ## Specification vocabulary for the synthesizer -/

/-- The key-down events of a scancode list, in forward order. -/
def downs (L : List Int) : List KeyEvent := L.map KeyEvent.down

/-- The key-up events of a scancode list, in reverse order. -/
def ups (L : List Int) : List KeyEvent := L.reverse.map KeyEvent.up

/-- A modifier is latched when its flag `LV_BUTTONMATRIX_CTRL_CHECKED` is not
set (inverted logic of main.c). -/
def is_latched (kb : Keyboard) (btn : Nat) : Bool := !kb.checked btn

/-- The entries of a list without repetitions, each at its first position. -/
def first_occurrences : List Nat → List Nat
  | [] => []
  | m :: ms => m :: (first_occurrences ms).filter (fun x => decide (x ≠ m))

/-- The key-up events that release the latched modifiers of the active layer:
for each latched modifier, in the order of `modifier_idxs`, the key-ups of its
scancodes in reverse order. -/
def modifier_releases (layout : sq2lv_layout_t) (kb : Keyboard) : List KeyEvent :=
  (((first_occurrences (sq2lv_get_modifier_indexes layout kb)).filter (is_latched kb)).map
    (fun m => ups (key_scancodes layout kb m))).flatten

/-- In a sequence of events no key-down comes after a key-up. -/
def downs_before_ups (evs : List KeyEvent) : Prop :=
  evs.Pairwise (fun a b => (∃ c, a = KeyEvent.up c) → (∃ c, b = KeyEvent.up c))

/-- The releases of a list of modifier indexes against the flags of `kb`. -/
def releases_of (layout : sq2lv_layout_t) (kb : Keyboard) (mods : List Nat) : List KeyEvent :=
  (((first_occurrences mods).filter (is_latched kb)).map
    (fun m => ups (key_scancodes layout kb m))).flatten

/-- The keyboard showing a layer with every flag set: no modifier is latched. -/
def Keyboard.unlatched (layer : Nat) : Keyboard :=
  { layer := layer, checked := fun _ => true }

/-- The keyboard showing a layer on which exactly the button `m` has its flag
cleared: when `m` is a modifier, it is the one latched modifier. -/
def Keyboard.latched_one (layer : Nat) (m : Nat) : Keyboard :=
  { layer := layer, checked := fun j => decide (j ≠ m) }

/-- A sink device on which every `write` succeeds. -/
def write_ok : WriteOracle := fun _ _ => true

/-! ## Terminal bookkeeping (terminal.c) -/

/-- Number of virtual consoles, the constant `MAX_NR_CONSOLES` of linux/vt.h. -/
def MAX_NR_CONSOLES : Nat := 63

/-- Equality of answers of a call is decidable. -/
instance decEqExcept {ε α : Type} [DecidableEq ε] [DecidableEq α] : DecidableEq (Except ε α) :=
  fun a b =>
    match a, b with
    | Except.ok x, Except.ok y =>
      if h : x = y then isTrue (by rw [h]) else isFalse (fun e => h (by cases e; rfl))
    | Except.error x, Except.error y =>
      if h : x = y then isTrue (by rw [h]) else isFalse (fun e => h (by cases e; rfl))
    | Except.ok _, Except.error _ => isFalse (fun e => by cases e)
    | Except.error _, Except.ok _ => isFalse (fun e => by cases e)

/-- A call of terminal.c into the kernel together with its answer:
`open("/dev/tty<n>")` with the descriptor it returned (`none` when it failed),
`close`, and the control calls `VT_GETSTATE`, `TIOCGWINSZ` and `TIOCSWINSZ` on a
descriptor. -/
inductive Syscall where
  | open_tty (n : Nat) (fd : Option Nat)
  | close (fd : Int)
  | vt_getstate (fd : Int) (v_active : Option Nat)
  | tiocgwinsz (fd : Int) (answer : Except Errno winsize)
  | tiocswinsz (fd : Int) (size : winsize) (answer : Option Errno)
deriving DecidableEq, Repr

/-- The kernel as terminal.c sees it, with states `ε`: every call may answer
with success or failure and may change the state. -/
structure Kernel (ε : Type) where
  open_tty : ε → Nat → Option Nat × ε
  close : ε → Int → ε
  vt_getstate : ε → Int → Option Nat × ε
  tiocgwinsz : ε → Int → Except Errno winsize × ε
  tiocswinsz : ε → Int → winsize → Option Errno × ε

/-- The state of the kernel together with the calls made so far, in order. -/
structure Sys (ε : Type) where
  env : ε
  calls : List Syscall

/-- The terminal device behind the descriptor `fd`: the two size calls of the
kernel on `fd`, each recorded with its answer. -/
def Kernel.tty {ε : Type} (k : Kernel ε) (fd : Int) : Tty (Sys ε) :=
  { tiocgwinsz := fun w =>
      ((k.tiocgwinsz w.env fd).1,
        { env := (k.tiocgwinsz w.env fd).2,
          calls := w.calls ++ [Syscall.tiocgwinsz fd (k.tiocgwinsz w.env fd).1] }),
    tiocswinsz := fun w size =>
      ((k.tiocswinsz w.env fd size).1,
        { env := (k.tiocswinsz w.env fd size).2,
          calls := w.calls ++ [Syscall.tiocswinsz fd size (k.tiocswinsz w.env fd size).1] }) }

/-- The static variables of terminal.c (`current_fd`, `current_vt`,
`resized_vts`, `height_factor`) and the state threaded through its functions.
`resized_vts` maps an index to its cell; the array has the cells with index
below `MAX_NR_CONSOLES`. -/
structure Negotiator (ε : Type) where
  current_fd : Int
  current_vt : Int
  resized_vts : Nat → Bool
  height_factor : HeightFactor
  st : TermState (Sys ε)

/-- The static variables as initialised at program start, on a kernel in
state `e`. -/
def Negotiator.initial {ε : Type} (e : ε) : Negotiator ε :=
  { current_fd := -1, current_vt := -1, resized_vts := fun _ => false,
    height_factor := HeightFactor.exact 1 1,
    st := { dev := { env := e, calls := [] }, errno := none, gets := 0, sets := [] } }

/-- How a run of a function of terminal.c ends: it returns, or the fuel of an
upward loop of `reset_terminal` runs out, or it accesses `resized_vts` at an
index outside the array (undefined behaviour). -/
inductive Run (α : Type) where
  | done (a : α)
  | no_fuel
  | fault (index : Int)

/-- The expression `resized_vts[i]` read: `none` when the index is outside the
array. -/
def resized_read (a : Nat → Bool) (i : Int) : Option Bool :=
  if 0 ≤ i ∧ i < MAX_NR_CONSOLES then some (a i.toNat) else none

/-- The statement `resized_vts[i] = true`: `none` when the index is outside
the array. -/
def resized_write (a : Nat → Bool) (i : Int) : Option (Nat → Bool) :=
  if 0 ≤ i ∧ i < MAX_NR_CONSOLES then some (fun j => if j = i.toNat then true else a j) else none

/-- The call `open("/dev/tty<n>", O_RDWR | O_NOCTTY)`: the descriptor, or `-1`
with `errno` written (its value is never read before the next failing call). -/
def sys_open {ε : Type} (k : Kernel ε) (s : TermState (Sys ε)) (n : Nat) :
    Int × TermState (Sys ε) :=
  match k.open_tty s.dev.env n with
  | (some fd, e) =>
    ((fd : Int), { s with dev := { env := e, calls := s.dev.calls ++ [Syscall.open_tty n (some fd)] } })
  | (none, e) =>
    (-1, { s with dev := { env := e, calls := s.dev.calls ++ [Syscall.open_tty n none] },
                  errno := some Errno.EOTHER })

/-- Source function `close_current_terminal`. -/
def close_current_terminal {ε : Type} (k : Kernel ε) (n : Negotiator ε) : Negotiator ε :=
  if n.current_fd < 0 then n
  else
    { n with
      st := { n.st with dev := { env := k.close n.st.dev.env n.current_fd,
                                 calls := n.st.dev.calls ++ [Syscall.close n.current_fd] } },
      current_fd := -1 }

/-- Source function `reopen_current_terminal`. -/
def reopen_current_terminal {ε : Type} (k : Kernel ε) (n : Negotiator ε) :
    Bool × Negotiator ε :=
  let n1 := close_current_terminal k n
  let o := sys_open k n1.st 0
  let n2 : Negotiator ε := { n1 with current_fd := o.1, st := o.2 }
  if n2.current_fd < 0 then (false, n2) else (true, n2)

/-- Source function `get_active_terminal`: the number of the active VT, or
`-1` when `VT_GETSTATE` fails. -/
def get_active_terminal {ε : Type} (k : Kernel ε) (n : Negotiator ε) : Int × Negotiator ε :=
  match k.vt_getstate n.st.dev.env n.current_fd with
  | (some v, e) =>
    ((v : Int), { n with st := { n.st with dev :=
      { env := e, calls := n.st.dev.calls ++ [Syscall.vt_getstate n.current_fd (some v)] } } })
  | (none, e) =>
    (-1, { n with st := { n.st with
      dev := { env := e, calls := n.st.dev.calls ++ [Syscall.vt_getstate n.current_fd none] },
      errno := some Errno.EOTHER } })

/-- Source function `shrink_terminal` (Shrink of one terminal): Maximize, then
the request of `floor(rows * height_factor)` rows. `none` when the fuel ran
out. -/
def shrink_terminal {τ : Type} (tty : Tty τ) (hf : HeightFactor) (fuel : Nat)
    (s : TermState τ) : Option (Bool × TermState τ) :=
  match reset_terminal tty hf fuel s { ws_row := 0, ws_col := 0, ws_xpixel := 0, ws_ypixel := 0 } with
  | none => none
  | some (false, _, s1) => some (false, s1)
  | some (true, size, s1) =>
    match set_terminal_size tty s1 { size with ws_row := hf.mul_floor size.ws_row % USHRT } with
    | (false, s2) => some (false, s2)
    | (true, s2) => some (true, s2)

/-- Source function `bb_terminal_init`. -/
def bb_terminal_init {ε : Type} (k : Kernel ε) (factor : HeightFactor) (n : Negotiator ε) :
    Bool × Negotiator ε :=
  match reopen_current_terminal k n with
  | (false, n1) => (false, n1)
  | (true, n1) =>
    let g := get_active_terminal k n1
    let n2 : Negotiator ε := { g.2 with current_vt := g.1 }
    if n2.current_vt < 0 then (false, n2)
    else (true, { n2 with height_factor := factor })

/-- The `return` statement by which `bb_terminal_shrink_current` ends. -/
inductive ShrinkExit where
  | query_failed
  | index_rejected
  | already_resized
  | reopen_failed
  | shrink_failed
  | resized
deriving DecidableEq, Repr

/-- Source function `bb_terminal_shrink_current` (Shrink). The function
returns nothing; the result tells which `return` was taken. -/
def bb_terminal_shrink_current {ε : Type} (k : Kernel ε) (fuel : Nat) (n : Negotiator ε) :
    Run (ShrinkExit × Negotiator ε) :=
  let g := get_active_terminal k n
  let active_vt := g.1
  if active_vt < 0 then Run.done (ShrinkExit.query_failed, g.2)
  else if active_vt < 0 ∨ active_vt > (MAX_NR_CONSOLES : Int) - 1 then
    Run.done (ShrinkExit.index_rejected, g.2)
  else
    match resized_read g.2.resized_vts (active_vt - 1) with
    | none => Run.fault (active_vt - 1)
    | some true => Run.done (ShrinkExit.already_resized, g.2)
    | some false =>
      let r : Bool × Negotiator ε :=
        if active_vt ≠ g.2.current_vt then
          match reopen_current_terminal k g.2 with
          | (false, n1) => (false, n1)
          | (true, n1) => (true, { n1 with current_vt := active_vt })
        else (true, g.2)
      if !r.1 then Run.done (ShrinkExit.reopen_failed, r.2)
      else
        match shrink_terminal (k.tty r.2.current_fd) r.2.height_factor fuel r.2.st with
        | none => Run.no_fuel
        | some (false, s1) => Run.done (ShrinkExit.shrink_failed, { r.2 with st := s1 })
        | some (true, s1) =>
          match resized_write r.2.resized_vts (r.2.current_vt - 1) with
          | none => Run.fault (r.2.current_vt - 1)
          | some a => Run.done (ShrinkExit.resized, { r.2 with st := s1, resized_vts := a })

/-- The loop of `bb_terminal_reset_all` over the indexes `i` still to visit;
the record `size` is shared by all rounds. -/
def reset_all_loop {ε : Type} (k : Kernel ε) (fuel : Nat) :
    List Nat → Negotiator ε → winsize → Option (Negotiator ε × winsize)
  | [], n, size => some (n, size)
  | i :: rest, n, size =>
    if !n.resized_vts i then reset_all_loop k fuel rest n size
    else
      let o := sys_open k n.st (i + 1)
      if o.1 < 0 then reset_all_loop k fuel rest { n with st := o.2 } size
      else
        match reset_terminal (k.tty o.1) n.height_factor fuel o.2 size with
        | none => none
        | some (_, size1, s1) => reset_all_loop k fuel rest { n with st := s1 } size1

/-- Source function `bb_terminal_reset_all` (RestoreAll). `none` when the fuel
of a Maximize ran out. -/
def bb_terminal_reset_all {ε : Type} (k : Kernel ε) (fuel : Nat) (n : Negotiator ε) :
    Option (Negotiator ε) :=
  (reset_all_loop k fuel (List.range MAX_NR_CONSOLES) n
    { ws_row := 0, ws_col := 0, ws_xpixel := 0, ws_ypixel := 0 }).map (fun r => r.1)

/-! ## A kernel with bounded terminals -/

/-- The state of a kernel with virtual terminals: the active terminal, the
size of every terminal, and per descriptor (in the order of opening) the
terminal behind it, `none` once closed. -/
structure VtWorld where
  active : Nat
  size : Nat → winsize
  fds : List (Option Nat)

/-- The terminal behind a descriptor, if the descriptor is open. -/
def VtWorld.lookup (w : VtWorld) (fd : Int) : Option Nat :=
  if fd < 0 then none else (w.fds.getD fd.toNat none)

/-- A kernel on which every open succeeds (`/dev/tty0` is the active
terminal), the calls on an open descriptor succeed, and the set-size call of
every terminal accepts a row count exactly when it is at most `R`, rejecting
larger ones as out of range. -/
def bounded_kernel (R : Nat) : Kernel VtWorld :=
  { open_tty := fun w n =>
      (some w.fds.length, { w with fds := w.fds ++ [some (if n = 0 then w.active else n)] }),
    close := fun w fd =>
      if fd < 0 then w else { w with fds := w.fds.set fd.toNat none },
    vt_getstate := fun w fd =>
      match w.lookup fd with
      | some _ => (some w.active, w)
      | none => (none, w),
    tiocgwinsz := fun w fd =>
      match w.lookup fd with
      | some vt => (Except.ok (w.size vt), w)
      | none => (Except.error Errno.EOTHER, w),
    tiocswinsz := fun w fd sz =>
      match w.lookup fd with
      | some vt =>
        if sz.ws_row ≤ R then (none, { w with size := fun v => if v = vt then sz else w.size v })
        else (some Errno.EINVAL, w)
      | none => (some Errno.EOTHER, w) }

/-- A world in which terminal `vt` is active and every terminal has `rows`
rows and 80 columns. -/
def VtWorld.start (vt rows : Nat) : VtWorld :=
  { active := vt, size := fun _ => { ws_row := rows, ws_col := 80, ws_xpixel := 0, ws_ypixel := 0 },
    fds := [] }

/-! ## Set-up of the uinput device (uinput_device.c) -/

/-- The answers of the kernel to the calls made by `bb_uinput_device_init`:
whether `open` and each `ioctl` succeed (`UI_SET_KEYBIT` per scancode). -/
structure UinputAnswers where
  open_ok : Bool
  set_evbit_key_ok : Bool
  set_evbit_syn_ok : Bool
  set_keybit_ok : Int → Bool
  dev_setup_ok : Bool
  dev_create_ok : Bool

/-- The loop `for (i = 0; i < num_scancodes; ++i)` of `bb_uinput_device_init`
over the indexes still to visit: `UI_SET_KEYBIT` for `scancodes[i]`, leaving
at the first failure; the result lists the registered key bits. -/
def set_keybits (a : UinputAnswers) (scancodes : List Int) : List Nat → List Int → Bool × List Int
  | [], registered => (true, registered)
  | i :: rest, registered =>
    if a.set_keybit_ok (scancodes.getD i 0) then
      set_keybits a scancodes rest (registered ++ [scancodes.getD i 0])
    else (false, registered)

/-- Source function `bb_uinput_device_init`: the returned flag and the key
bits registered on the device. -/
def bb_uinput_device_init (a : UinputAnswers) (scancodes : List Int) (num_scancodes : Nat) :
    Bool × List Int :=
  if !a.open_ok then (false, [])
  else if !a.set_evbit_key_ok then (false, [])
  else if !a.set_evbit_syn_ok then (false, [])
  else
    let r := set_keybits a scancodes (List.range num_scancodes) []
    if !r.1 then (false, r.2)
    else if !a.dev_setup_ok then (false, r.2)
    else if !a.dev_create_ok then (false, r.2)
    else (true, r.2)

/-- A kernel on which every call of `bb_uinput_device_init` succeeds. -/
def uinput_all_ok : UinputAnswers :=
  { open_ok := true, set_evbit_key_ok := true, set_evbit_syn_ok := true,
    set_keybit_ok := fun _ => true, dev_setup_ok := true, dev_create_ok := true }

/-! ## Specification vocabulary for the terminal bookkeeping -/

/-- The negotiator `n1` is what `bb_terminal_shrink_current` hands to
`shrink_terminal` after the query answered `g`: `g.2` itself when the active
terminal is the current one, else the result of a successful
`reopen_current_terminal` with `current_vt` set to the active terminal. -/
def shrink_prepared {ε : Type} (k : Kernel ε) (g : Int × Negotiator ε) (n1 : Negotiator ε) :
    Prop :=
  (g.1 = g.2.current_vt ∧ n1 = g.2) ∨
  (g.1 ≠ g.2.current_vt ∧ ∃ n0, reopen_current_terminal k g.2 = (true, n0) ∧
    n1 = { n0 with current_vt := g.1 })

/-- The size record that `shrink_terminal` and `bb_terminal_reset_all` start
with, `{ 0, 0, 0, 0 }`. -/
def winsize.zero : winsize := { ws_row := 0, ws_col := 0, ws_xpixel := 0, ws_ypixel := 0 }

/-- The value a run returned, or `d` when it did not return. -/
def Run.value {α : Type} (r : Run α) (d : α) : α :=
  match r with
  | Run.done a => a
  | Run.no_fuel => d
  | Run.fault _ => d

/-- The negotiator after `bb_terminal_init` with the factor `p / q` on the
kernel with bounded terminals, terminal 1 active and all terminals at `rows`
rows. -/
def demo_init (R rows p q : Nat) : Negotiator VtWorld :=
  (bb_terminal_init (bounded_kernel R) (HeightFactor.exact p q)
    (Negotiator.initial (VtWorld.start 1 rows))).2

/-- The negotiator after `bb_terminal_init` and one
`bb_terminal_shrink_current` on the kernel with bounded terminals. -/
def demo_shrunk (R rows p q : Nat) : Negotiator VtWorld :=
  ((bb_terminal_shrink_current (bounded_kernel R) USHRT (demo_init R rows p q)).value
    (ShrinkExit.query_failed, demo_init R rows p q)).2

/-- The whole shrink of the active terminal succeeds and leaves the state
`s2`: the query answers a terminal between 1 and 62 whose flag is not set, the
terminal is prepared (reopened if it is not the current one), Maximize returns
success and the final set-size call succeeds. -/
def shrink_succeeded {ε : Type} (k : Kernel ε) (fuel : Nat) (n : Negotiator ε)
    (s2 : TermState (Sys ε)) : Prop :=
  1 ≤ (get_active_terminal k n).1 ∧ (get_active_terminal k n).1 ≤ 62 ∧
  n.resized_vts ((get_active_terminal k n).1 - 1).toNat = false ∧
  ∃ (n1 : Negotiator ε) (M : winsize) (s1 : TermState (Sys ε)),
    shrink_prepared k (get_active_terminal k n) n1 ∧
    reset_terminal (k.tty n1.current_fd) n1.height_factor fuel n1.st winsize.zero
      = some (true, M, s1) ∧
    set_terminal_size (k.tty n1.current_fd) s1
      { M with ws_row := n1.height_factor.mul_floor M.ws_row % USHRT } = (true, s2)

/-- A terminal whose set-size call accepts every size; its state is its size. -/
def accepting_tty : Tty winsize :=
  { tiocgwinsz := fun d => (Except.ok d, d),
    tiocswinsz := fun _ sz => (none, sz) }

/-- A terminal like `bounded_tty R` whose set-size call fails with an error
other than `EINVAL` when `bad` rows are requested. -/
def failing_tty (R bad : Nat) : Tty winsize :=
  { tiocgwinsz := fun d => (Except.ok d, d),
    tiocswinsz := fun d sz =>
      if sz.ws_row = bad then (some Errno.EOTHER, d)
      else if sz.ws_row ≤ R then (none, sz) else (some Errno.EINVAL, d) }

/-- The call is a set-size call on the descriptor `fd`. -/
def is_set_call (fd : Int) (c : Syscall) : Prop :=
  ∃ (size : winsize) (answer : Option Errno), c = Syscall.tiocswinsz fd size answer

/-- The call is a get-size or set-size call on `fd` that failed, and `err` is
the error it wrote to `errno`. -/
def failing_call (fd : Int) (c : Syscall) (err : Option Errno) : Prop :=
  (∃ e, c = Syscall.tiocgwinsz fd (Except.error e) ∧ err = some e) ∨
  (∃ size e, c = Syscall.tiocswinsz fd size (some e) ∧ err = some e)

/-- The calls that `bb_terminal_reset_all` makes for one flagged terminal
`vt`: the open of `/dev/tty<vt>` alone when it fails, else the open followed
by one Maximize on the returned descriptor, which is one get-size call
followed by set-size calls only. -/
def restore_segment (vt : Nat) (seg : List Syscall) : Prop :=
  seg = [Syscall.open_tty vt none] ∨
  ∃ (fd : Nat) (answer : Except Errno winsize) (sets : List Syscall),
    seg = Syscall.open_tty vt (some fd) :: Syscall.tiocgwinsz (fd : Int) answer :: sets ∧
    ∀ c ∈ sets, is_set_call (fd : Int) c

/-- The negotiator at program start on a kernel with terminal 1 active and
all terminals at `rows` rows, with the flags of the terminals 1 and 3 set. -/
def demo_flagged (rows : Nat) : Negotiator VtWorld :=
  { Negotiator.initial (VtWorld.start 1 rows) with
    resized_vts := fun i => decide (i = 0 ∨ i = 2) }

/-! ## Specification vocabulary for the catalog and for press sequences -/

/-- The sum of the scancode counts of the keys before key `k`: where the
slice of key `k` starts when the slices follow each other in key order. -/
def slice_start (l : sq2lv_layer_t) (k : Nat) : Int :=
  (l.scancode_nums.take k).sum

/-- The layers that a layer switch key of layer `a` leads to. -/
def switch_targets (layout : sq2lv_layout_t) (a : Nat) : List Nat :=
  (layer_switchers (layout.layers.getD a empty_layer)).map
    (switcher_destination (layout.layers.getD a empty_layer))

/-- A sequence of button presses, each handled by `on_button_press` in the
state the previous one left. -/
def press_sequence (w : WriteOracle) (layout : sq2lv_layout_t) (s : Keyboard × SinkLog)
    (presses : List Nat) : Keyboard × SinkLog :=
  presses.foldl (fun t b => on_button_press w layout t.1 t.2 b) s

/-- Every press of the sequence is valid: its button index is below the
number of keys of the layer active when the press is made. -/
def valid_presses (w : WriteOracle) (layout : sq2lv_layout_t) :
    Keyboard × SinkLog → List Nat → Prop
  | _, [] => True
  | s, b :: rest =>
    b < (current_layer layout s.1).num_keys ∧
      valid_presses w layout (on_button_press w layout s.1 s.2 b) rest

/-- The effect of one call into the output sink on whether the scancode `c`
is held: a key-down of `c` holds it, a key-up of `c` releases it, a call for
another scancode leaves it as it is. -/
def key_state (c : Int) (h : Bool) (e : KeyEvent) : Bool :=
  match e with
  | KeyEvent.down x => if x = c then true else h
  | KeyEvent.up x => if x = c then false else h

/-- A scancode is held at the output sink after a sequence of calls: the most
recent call for it is a key-down. -/
def held (calls : List KeyEvent) (c : Int) : Bool :=
  calls.foldl (key_state c) false

/-- The negotiator after `bb_terminal_init`, one `bb_terminal_shrink_current`
and one `bb_terminal_reset_all` on the kernel with bounded terminals. -/
def demo_restored (R rows p q : Nat) : Negotiator VtWorld :=
  (bb_terminal_reset_all (bounded_kernel R) USHRT (demo_shrunk R rows p q)).getD
    (demo_shrunk R rows p q)

/-- A well-behaved terminal with at most `R` rows, as the spec describes it:
in the states satisfying `inv`, whose size is `view`, the get-size call
reports the size, and the set-size call accepts a size exactly when its row
count is at most `R`, the terminal then having that size, and rejects larger
row counts as out of range, the size staying as it is. -/
structure BoundedTerminal {τ : Type} (tty : Tty τ) (R : Nat) (inv : τ → Prop)
    (view : τ → winsize) : Prop where
  get_ok : ∀ d, inv d →
    (tty.tiocgwinsz d).1 = Except.ok (view d) ∧ inv (tty.tiocgwinsz d).2 ∧
      view (tty.tiocgwinsz d).2 = view d
  set_accept : ∀ d sz, inv d → sz.ws_row ≤ R →
    (tty.tiocswinsz d sz).1 = none ∧ inv (tty.tiocswinsz d sz).2 ∧
      view (tty.tiocswinsz d sz).2 = sz
  set_reject : ∀ d sz, inv d → R < sz.ws_row →
    (tty.tiocswinsz d sz).1 = some Errno.EINVAL ∧ inv (tty.tiocswinsz d sz).2 ∧
      view (tty.tiocswinsz d sz).2 = view d

/-- The `n` set-size calls on `fd` that request the row counts `m`, `m - 1`,
..., `m - n + 1`, in this order, with the other fields of `size`, each
rejected as out of range. -/
def rejected_down (fd : Int) (size : winsize) (m n : Nat) : List Syscall :=
  (List.range n).map
    (fun j => Syscall.tiocswinsz fd { size with ws_row := m - j } (some Errno.EINVAL))

/-- The `n` set-size calls on `fd` that request the row counts `c + 1`,
`c + 2`, ..., `c + n` (as unsigned shorts), in this order, with the other
fields of `size`, each accepted. -/
def accepted_up (fd : Int) (size : winsize) (c n : Nat) : List Syscall :=
  (List.range n).map
    (fun j => Syscall.tiocswinsz fd { size with ws_row := (c + 1 + j) % USHRT } none)

/-- The terminal behind `fd` reports the size it was last set to: after an
accepted set-size call the get-size call reports the size requested, and a
failed set-size call does not change what the get-size call reports. -/
def remembers_size {ε : Type} (k : Kernel ε) (fd : Int) : Prop :=
  (∀ e sz, (k.tiocswinsz e fd sz).1 = none →
    (k.tiocgwinsz (k.tiocswinsz e fd sz).2 fd).1 = Except.ok sz) ∧
  (∀ e sz err, (k.tiocswinsz e fd sz).1 = some err →
    (k.tiocgwinsz (k.tiocswinsz e fd sz).2 fd).1 = (k.tiocgwinsz e fd).1)

/-! ## The deployed height factor (main.c) -/

/-- The number of binary digits of `n`, for `n` below `2 ^ fuel`. -/
def bit_length : Nat → Nat → Nat
  | 0, _ => 0
  | fuel + 1, n => if n = 0 then 0 else bit_length fuel (n / 2) + 1

/-- Rounding to `float` (IEEE 754 binary32: 24 significant bits, round to
nearest, ties to even) of a value given as a numerator `n` over a power of
two, the result having the same denominator. The numerators that occur are
below `2 ^ 64` and the values are far from the ends of the exponent range. -/
def f32_round (n : Nat) : Nat :=
  if bit_length 64 n ≤ 24 then n
  else
    let s := bit_length 64 n - 24
    let q := n / 2 ^ s
    let r := n % 2 ^ s
    if 2 ^ (s - 1) < r ∨ (r = 2 ^ (s - 1) ∧ q % 2 = 1) then (q + 1) * 2 ^ s else q * 2 ^ s

/-- The `float` constant `2.0f / 3.0f` that `main` passes to
`bb_terminal_init`, as a numerator over `2 ^ 24`: the `float` nearest to 2/3
is `11184811 / 2 ^ 24`. -/
def f32_two_thirds : Nat := 11184811

/-- The variable `height_factor` after `bb_terminal_init(2.0f / 3.0f)`.
`mul_floor rows` is `floor((float)rows * height_factor)` computed in `float`:
the row count is a `float` exactly, the product is rounded to `float`, and
`floor` takes its integer part. The quotient `(float)rows / height_factor` is
not modelled: `div` stands for whatever `floor` of it yields. -/
def deployed_factor (div : Nat → Nat) : HeightFactor :=
  { div_floor := div, mul_floor := fun rows => f32_round (rows * f32_two_thirds) / 2 ^ 24 }

/-- The negotiator at program start on the kernel with bounded terminals,
terminal `v` active and all terminals at `rows` rows, after
`bb_terminal_init` with the factor `hf`. -/
def started (R v rows : Nat) (hf : HeightFactor) : Negotiator VtWorld :=
  (bb_terminal_init (bounded_kernel R) hf (Negotiator.initial (VtWorld.start v rows))).2

/-- The invariant of the synthesizer on terminal/us behind the held keys: the
active layer is one of the five layers, only the buttons 0 and 1 (the
modifier keys of every layer) may have their flag cleared, and a scancode is
held exactly when it is the one of the left control key with button 0
latched, or the one of the left alt key with button 1 latched. -/
def held_invariant (s : Keyboard × SinkLog) : Prop :=
  s.1.layer < 5 ∧ (∀ j, j ≠ 0 → j ≠ 1 → s.1.checked j = true) ∧
  ∀ c, held s.2.calls c
    = ((decide (c = KEY_LEFTCTRL) && !s.1.checked 0) || (decide (c = KEY_LEFTALT) && !s.1.checked 1))

/-! ## Lemmas on the synthesizer -/

theorem emit_key_down_calls (w : WriteOracle) (log : SinkLog) (c : Int) :
    (bb_uinput_device_emit_key_down w log c).2.calls = log.calls ++ [KeyEvent.down c] := by
  unfold bb_uinput_device_emit_key_down uinput_device_synchronise uinput_device_emit
  dsimp only
  split_ifs <;> rfl

theorem emit_key_up_calls (w : WriteOracle) (log : SinkLog) (c : Int) :
    (bb_uinput_device_emit_key_up w log c).2.calls = log.calls ++ [KeyEvent.up c] := by
  unfold bb_uinput_device_emit_key_up uinput_device_synchronise uinput_device_emit
  dsimp only
  split_ifs <;> rfl

theorem foldl_down_calls (w : WriteOracle) (sc : List Int) (idxs : List Nat) (log : SinkLog) :
    (idxs.foldl (fun l i => (bb_uinput_device_emit_key_down w l (sc.getD i 0)).2) log).calls
      = log.calls ++ idxs.map (fun i => KeyEvent.down (sc.getD i 0)) := by
  induction idxs generalizing log with
  | nil => simp
  | cons i rest ih =>
    rw [List.foldl_cons, ih, emit_key_down_calls]
    simp

theorem foldl_up_calls (w : WriteOracle) (sc : List Int) (idxs : List Nat) (log : SinkLog) :
    (idxs.foldl (fun l i => (bb_uinput_device_emit_key_up w l (sc.getD i 0)).2) log).calls
      = log.calls ++ idxs.map (fun i => KeyEvent.up (sc.getD i 0)) := by
  induction idxs generalizing log with
  | nil => simp
  | cons i rest ih =>
    rw [List.foldl_cons, ih, emit_key_up_calls]
    simp

/-- The calls made by `emit_key_events`, in closed form. -/
theorem emit_key_events_calls (w : WriteOracle) (layout : sq2lv_layout_t) (kb : Keyboard)
    (log : SinkLog) (btn : Nat) (key_down key_up : Bool) :
    (emit_key_events w layout kb log btn key_down key_up).calls
      = log.calls ++ ((if key_down then downs (key_scancodes layout kb btn) else [])
          ++ (if key_up then ups (key_scancodes layout kb btn) else [])) := by
  unfold emit_key_events downs ups key_scancodes
  cases key_down <;> cases key_up <;>
    simp only [↓reduceIte, Bool.false_eq_true, foldl_down_calls, foldl_up_calls, List.map_reverse,
      List.map_map, List.append_nil, List.nil_append, List.append_assoc, Function.comp_def]

theorem key_scancodes_of_layer (layout : sq2lv_layout_t) (kb kb2 : Keyboard) (btn : Nat)
    (h : kb2.layer = kb.layer) : key_scancodes layout kb2 btn = key_scancodes layout kb btn := by
  unfold key_scancodes sq2lv_get_scancodes current_layer
  rw [h]

theorem pop_foldl_closed (w : WriteOracle) (layout : sq2lv_layout_t) (mods : List Nat) :
    ∀ (kb : Keyboard) (log : SinkLog),
      (mods.foldl (pop_step w layout) (kb, log)).1.layer = kb.layer ∧
      (mods.foldl (pop_step w layout) (kb, log)).1.checked
        = (fun j => decide (j ∈ mods) || kb.checked j) ∧
      (mods.foldl (pop_step w layout) (kb, log)).2.calls
        = log.calls ++ releases_of layout kb mods := by
  induction mods with
  | nil =>
    intro kb log
    simp [releases_of, first_occurrences]
  | cons m ms ih =>
    intro kb log
    rw [List.foldl_cons]
    cases hm : kb.checked m with
    | true =>
      have hstep : pop_step w layout (kb, log) m = (kb, log) := by
        simp [pop_step, lv_buttonmatrix_has_button_ctrl_checked, hm]
      rw [hstep]
      obtain ⟨h1, h2, h3⟩ := ih kb log
      refine ⟨h1, ?_, ?_⟩
      · rw [h2]
        funext j
        by_cases hj : j = m
        · subst hj; simp [hm]
        · simp [hj]
      · rw [h3]
        congr 1
        unfold releases_of
        have hf : (first_occurrences (m :: ms)).filter (is_latched kb)
            = (first_occurrences ms).filter (is_latched kb) := by
          simp only [first_occurrences]
          rw [List.filter_cons_of_neg (by simp [is_latched, hm]), List.filter_filter]
          apply List.filter_congr
          intro x _
          by_cases hx : x = m
          · subst hx; simp [is_latched, hm]
          · simp [hx]
        rw [hf]
    | false =>
      have hstep : pop_step w layout (kb, log) m
          = (lv_buttonmatrix_set_button_ctrl_checked kb m,
              emit_key_events w layout kb log m false true) := by
        simp [pop_step, lv_buttonmatrix_has_button_ctrl_checked, hm]
      rw [hstep]
      obtain ⟨h1, h2, h3⟩ := ih (lv_buttonmatrix_set_button_ctrl_checked kb m)
        (emit_key_events w layout kb log m false true)
      refine ⟨h1, ?_, ?_⟩
      · rw [h2]
        funext j
        by_cases hj : j = m
        · subst hj; simp [lv_buttonmatrix_set_button_ctrl_checked]
        · simp [hj, lv_buttonmatrix_set_button_ctrl_checked]
      · rw [h3, emit_key_events_calls]
        simp only [Bool.false_eq_true, ↓reduceIte, List.nil_append, List.append_assoc]
        congr 1
        unfold releases_of
        have hf : (first_occurrences (m :: ms)).filter (is_latched kb)
            = m :: (first_occurrences ms).filter
                (is_latched (lv_buttonmatrix_set_button_ctrl_checked kb m)) := by
          simp only [first_occurrences]
          rw [List.filter_cons_of_pos (by simp [is_latched, hm]), List.filter_filter]
          congr 1
          apply List.filter_congr
          intro x _
          by_cases hx : x = m
          · subst hx; simp [is_latched, lv_buttonmatrix_set_button_ctrl_checked]
          · simp [hx, is_latched, lv_buttonmatrix_set_button_ctrl_checked]
        rw [hf, List.map_cons, List.flatten_cons]
        rfl

/-- The effect of `pop_checked_modifier_keys`, in closed form: the layer is
kept, the flag of every modifier of the layer is set, and the calls are the
releases of the modifiers that were latched. -/
theorem pop_checked_closed (w : WriteOracle) (layout : sq2lv_layout_t) (kb : Keyboard)
    (log : SinkLog) :
    (pop_checked_modifier_keys w layout kb log).1.layer = kb.layer ∧
    (pop_checked_modifier_keys w layout kb log).1.checked
      = (fun j => decide (j ∈ sq2lv_get_modifier_indexes layout kb) || kb.checked j) ∧
    (pop_checked_modifier_keys w layout kb log).2.calls
      = log.calls ++ modifier_releases layout kb :=
  pop_foldl_closed w layout (sq2lv_get_modifier_indexes layout kb) kb log

/-- A press of a layer switch key, in closed form. -/
theorem press_switcher (w : WriteOracle) (layout : sq2lv_layout_t) (kb : Keyboard)
    (log : SinkLog) (btn : Nat) (hs : sq2lv_is_layer_switcher layout kb btn = true) :
    (on_button_press w layout kb log btn).1.layer
      = switcher_destination (current_layer layout kb) btn ∧
    (on_button_press w layout kb log btn).1.checked
      = (fun j => decide (j ∈ sq2lv_get_modifier_indexes layout kb) || kb.checked j) ∧
    (on_button_press w layout kb log btn).2.calls
      = log.calls ++ modifier_releases layout kb := by
  obtain ⟨h1, h2, h3⟩ := pop_checked_closed w layout kb log
  have ht : toggle_latch layout kb btn = kb := by simp [toggle_latch, hs]
  have hcl : current_layer layout (pop_checked_modifier_keys w layout kb log).1
      = current_layer layout kb := by
    unfold current_layer
    rw [h1]
  unfold on_button_press keyboard_value_changed_cb
  rw [ht]
  simp only [hs, ↓reduceIte]
  refine ⟨?_, h2, h3⟩
  simp only [sq2lv_switch_layer, hcl]

/-- A press of a modifier key (that is no layer switch key), in closed form. -/
theorem press_modifier (w : WriteOracle) (layout : sq2lv_layout_t) (kb : Keyboard)
    (log : SinkLog) (btn : Nat) (hs : sq2lv_is_layer_switcher layout kb btn = false)
    (hm : sq2lv_is_modifier layout kb btn = true) :
    (on_button_press w layout kb log btn).1.layer = kb.layer ∧
    (on_button_press w layout kb log btn).1.checked
      = (fun j => if j = btn then !kb.checked btn else kb.checked j) ∧
    (on_button_press w layout kb log btn).2.calls
      = log.calls ++ (downs (key_scancodes layout kb btn)
          ++ (if kb.checked btn then [] else ups (key_scancodes layout kb btn))) := by
  have hl : (toggle_latch layout kb btn).layer = kb.layer := by
    unfold toggle_latch lv_buttonmatrix_clear_button_ctrl_checked
      lv_buttonmatrix_set_button_ctrl_checked
    split_ifs <;> rfl
  have hc : (toggle_latch layout kb btn).checked
      = (fun j => if j = btn then !kb.checked btn else kb.checked j) := by
    unfold toggle_latch lv_buttonmatrix_clear_button_ctrl_checked
      lv_buttonmatrix_set_button_ctrl_checked
    simp only [hs, hm, Bool.not_false, Bool.and_self, ↓reduceIte]
    cases hb : kb.checked btn <;> simp
  have hs2 : sq2lv_is_layer_switcher layout (toggle_latch layout kb btn) btn = false := by
    unfold sq2lv_is_layer_switcher current_layer at hs ⊢
    rw [hl]; exact hs
  have hm2 : sq2lv_is_modifier layout (toggle_latch layout kb btn) btn = true := by
    unfold sq2lv_is_modifier current_layer at hm ⊢
    rw [hl]; exact hm
  unfold on_button_press keyboard_value_changed_cb
  simp only [hs2, hm2, Bool.false_eq_true, ↓reduceIte, Bool.not_true, Bool.false_or]
  refine ⟨hl, hc, ?_⟩
  rw [emit_key_events_calls, key_scancodes_of_layer layout kb _ btn hl]
  simp only [lv_buttonmatrix_has_button_ctrl_checked, hc, ↓reduceIte]
  cases kb.checked btn <;> simp

/-- A press of a character key (neither modifier nor layer switch key), in
closed form. -/
theorem press_character (w : WriteOracle) (layout : sq2lv_layout_t) (kb : Keyboard)
    (log : SinkLog) (btn : Nat) (hs : sq2lv_is_layer_switcher layout kb btn = false)
    (hm : sq2lv_is_modifier layout kb btn = false) :
    (on_button_press w layout kb log btn).1.layer = kb.layer ∧
    (on_button_press w layout kb log btn).1.checked
      = (fun j => decide (j ∈ sq2lv_get_modifier_indexes layout kb) || kb.checked j) ∧
    (on_button_press w layout kb log btn).2.calls
      = log.calls ++ (downs (key_scancodes layout kb btn)
          ++ (ups (key_scancodes layout kb btn) ++ modifier_releases layout kb)) := by
  have ht : toggle_latch layout kb btn = kb := by simp [toggle_latch, hs, hm]
  unfold on_button_press keyboard_value_changed_cb
  rw [ht]
  simp only [hs, hm, Bool.false_eq_true, ↓reduceIte, Bool.not_false, Bool.true_or]
  obtain ⟨h1, h2, h3⟩ := pop_checked_closed w layout kb
    (emit_key_events w layout kb log btn true true)
  refine ⟨h1, h2, ?_⟩
  rw [h3, emit_key_events_calls]
  simp only [↓reduceIte, List.append_assoc]

theorem mem_first_occurrences (l : List Nat) (x : Nat) :
    x ∈ first_occurrences l ↔ x ∈ l := by
  induction l with
  | nil => simp [first_occurrences]
  | cons m ms ih =>
    simp only [first_occurrences, List.mem_cons, List.mem_filter, ih, decide_eq_true_eq]
    by_cases hx : x = m
    · simp [hx]
    · simp [hx]

theorem nodup_first_occurrences (l : List Nat) : (first_occurrences l).Nodup := by
  induction l with
  | nil => simp [first_occurrences]
  | cons m ms ih =>
    simp only [first_occurrences, List.nodup_cons, List.mem_filter, decide_eq_true_eq]
    exact ⟨fun h => h.2 rfl, ih.filter _⟩

theorem first_occurrences_of_nodup (l : List Nat) (h : l.Nodup) : first_occurrences l = l := by
  induction l with
  | nil => rfl
  | cons m ms ih =>
    rw [List.nodup_cons] at h
    simp only [first_occurrences, ih h.2]
    congr 1
    rw [List.filter_eq_self]
    intro x hx
    simp only [decide_eq_true_eq]
    intro hxm
    exact h.1 (hxm ▸ hx)

theorem filter_single_of_nodup (l : List Nat) (p : Nat → Bool) (m : Nat) (hn : l.Nodup)
    (hm : m ∈ l) (hpm : p m = true) (hp : ∀ x ∈ l, x ≠ m → p x = false) :
    l.filter p = [m] := by
  induction l with
  | nil => simp at hm
  | cons a as ih =>
    rw [List.nodup_cons] at hn
    by_cases ha : a = m
    · subst ha
      rw [List.filter_cons_of_pos hpm]
      congr 1
      rw [List.filter_eq_nil_iff]
      intro x hx
      have hxa : x ≠ a := fun h => hn.1 (h ▸ hx)
      simp [hp x (List.mem_cons_of_mem _ hx) hxa]
    · have hpa : p a = false := hp a (List.mem_cons_self _ _) ha
      rw [List.filter_cons_of_neg (by simp [hpa])]
      have hm2 : m ∈ as := by
        rcases List.mem_cons.1 hm with h | h
        · exact absurd h.symm ha
        · exact h
      exact ih hn.2 hm2 (fun x hx => hp x (List.mem_cons_of_mem _ hx))

/-- With no modifier latched there is nothing to release. -/
theorem modifier_releases_none (layout : sq2lv_layout_t) (kb : Keyboard)
    (h : ∀ m ∈ sq2lv_get_modifier_indexes layout kb, is_latched kb m = false) :
    modifier_releases layout kb = [] := by
  unfold modifier_releases
  have hf : (first_occurrences (sq2lv_get_modifier_indexes layout kb)).filter (is_latched kb)
      = [] := by
    rw [List.filter_eq_nil_iff]
    intro x hx
    simp [h x ((mem_first_occurrences _ x).1 hx)]
  rw [hf]
  rfl

/-- With exactly one modifier latched the releases are the key-ups of its
scancodes in reverse order. -/
theorem modifier_releases_single (layout : sq2lv_layout_t) (kb : Keyboard) (m : Nat)
    (hm : m ∈ sq2lv_get_modifier_indexes layout kb) (hl : is_latched kb m = true)
    (ho : ∀ j ∈ sq2lv_get_modifier_indexes layout kb, j ≠ m → is_latched kb j = false) :
    modifier_releases layout kb = ups (key_scancodes layout kb m) := by
  unfold modifier_releases
  rw [filter_single_of_nodup _ (is_latched kb) m (nodup_first_occurrences _)
    ((mem_first_occurrences _ m).2 hm) hl
    (fun x hx hxm => ho x ((mem_first_occurrences _ x).1 hx) hxm)]
  simp

/-- Every release is a key-up event. -/
theorem modifier_releases_all_up (layout : sq2lv_layout_t) (kb : Keyboard) :
    ∀ e ∈ modifier_releases layout kb, ∃ c, e = KeyEvent.up c := by
  intro e he
  unfold modifier_releases at he
  rw [List.mem_flatten] at he
  obtain ⟨l, hl, hel⟩ := he
  rw [List.mem_map] at hl
  obtain ⟨m, _, rfl⟩ := hl
  unfold ups at hel
  rw [List.mem_map] at hel
  obtain ⟨c, _, rfl⟩ := hel
  exact ⟨c, rfl⟩

/-- Key-downs, then key-ups: no key-down after a key-up. -/
theorem downs_before_ups_append (D U : List KeyEvent)
    (hD : ∀ e ∈ D, ∃ c, e = KeyEvent.down c) (hU : ∀ e ∈ U, ∃ c, e = KeyEvent.up c) :
    downs_before_ups (D ++ U) := by
  unfold downs_before_ups
  rw [List.pairwise_append]
  refine ⟨?_, ?_, ?_⟩
  · rw [List.pairwise_iff_forall_sublist]
    intro a b hab ha
    obtain ⟨c, hc⟩ := ha
    obtain ⟨c2, hc2⟩ := hD a (hab.subset (List.mem_cons_self _ _))
    rw [hc] at hc2
    cases hc2
  · rw [List.pairwise_iff_forall_sublist]
    intro a b hab _
    exact hU b (hab.subset (List.mem_cons_of_mem _ (List.mem_cons_self _ _)))
  · intro a _ b hb _
    exact hU b hb

theorem Keyboard.eq_of (a b : Keyboard) (h1 : a.layer = b.layer) (h2 : a.checked = b.checked) :
    a = b := by
  cases a; cases b
  simp only [Keyboard.mk.injEq]
  exact ⟨h1, h2⟩

/-! ## Claims on the key event synthesizer -/

/-- C1: a Character key (neither modifier nor layer switcher) with scancode
list `L`, pressed while no modifier is latched, makes the sink calls key-down
for each element of `L` in forward order, then key-up for each element of `L`
in reverse order, and nothing else; for `L = [S1, S2]` the calls are
down(S1), down(S2), up(S2), up(S1). -/
theorem C1_character_key_events (w : WriteOracle) (layout : sq2lv_layout_t) (kb : Keyboard)
    (log : SinkLog) (btn : Nat) (L : List Int)
    (hs : sq2lv_is_layer_switcher layout kb btn = false)
    (hm : sq2lv_is_modifier layout kb btn = false)
    (hnl : ∀ m ∈ sq2lv_get_modifier_indexes layout kb, is_latched kb m = false)
    (hL : key_scancodes layout kb btn = L) :
    (on_button_press w layout kb log btn).2.calls
      = log.calls ++ (L.map KeyEvent.down ++ L.reverse.map KeyEvent.up) ∧
    (∀ S1 S2 : Int, L = [S1, S2] →
      (on_button_press w layout kb log btn).2.calls
        = log.calls ++ [KeyEvent.down S1, KeyEvent.down S2, KeyEvent.up S2, KeyEvent.up S1]) := by
  have h := (press_character w layout kb log btn hs hm).2.2
  rw [modifier_releases_none layout kb hnl, hL, List.append_nil] at h
  refine ⟨h, ?_⟩
  intro S1 S2 hS
  rw [h, hS]
  rfl

/-- C1 at the key "Q" of the uppercase layer (Shift + Q) with no modifier
latched. -/
theorem C1_character_key_events_witness :
    (on_button_press write_ok layout_terminal_us (Keyboard.unlatched 1) SinkLog.empty 6).2.calls
      = [KeyEvent.down KEY_LEFTSHIFT, KeyEvent.down KEY_Q, KeyEvent.up KEY_Q,
          KeyEvent.up KEY_LEFTSHIFT] :=
  (C1_character_key_events write_ok layout_terminal_us (Keyboard.unlatched 1) SinkLog.empty 6
    [KEY_LEFTSHIFT, KEY_Q] (by decide) (by decide) (by decide) (by decide)).2
    KEY_LEFTSHIFT KEY_Q rfl

/-- C2: a Modifier key with the single scancode `M`. Pressed while unlatched
it makes exactly the call down(M) and is latched afterwards; pressed while
latched it makes exactly the calls down(M), up(M) and is unlatched afterwards;
so two presses in a row from the unlatched state give down(M), then
down(M), up(M), and restore the flags. In both cases the flag of every other
button and the active layer are unchanged. -/
theorem C2_modifier_latch_toggle (w : WriteOracle) (layout : sq2lv_layout_t) (kb : Keyboard)
    (log : SinkLog) (btn : Nat) (M : Int)
    (hs : sq2lv_is_layer_switcher layout kb btn = false)
    (hm : sq2lv_is_modifier layout kb btn = true)
    (hL : key_scancodes layout kb btn = [M]) :
    (is_latched kb btn = false →
      (on_button_press w layout kb log btn).2.calls = log.calls ++ [KeyEvent.down M] ∧
      is_latched (on_button_press w layout kb log btn).1 btn = true) ∧
    (is_latched kb btn = true →
      (on_button_press w layout kb log btn).2.calls
        = log.calls ++ [KeyEvent.down M, KeyEvent.up M] ∧
      is_latched (on_button_press w layout kb log btn).1 btn = false) ∧
    (∀ j, j ≠ btn → (on_button_press w layout kb log btn).1.checked j = kb.checked j) ∧
    (on_button_press w layout kb log btn).1.layer = kb.layer ∧
    (is_latched kb btn = false →
      (on_button_press w layout (on_button_press w layout kb log btn).1
          (on_button_press w layout kb log btn).2 btn).2.calls
        = log.calls ++ [KeyEvent.down M] ++ [KeyEvent.down M, KeyEvent.up M] ∧
      (on_button_press w layout (on_button_press w layout kb log btn).1
          (on_button_press w layout kb log btn).2 btn).1 = kb) := by
  obtain ⟨h1, h2, h3⟩ := press_modifier w layout kb log btn hs hm
  rw [hL] at h3
  have hA : is_latched kb btn = false →
      (on_button_press w layout kb log btn).2.calls = log.calls ++ [KeyEvent.down M] ∧
      is_latched (on_button_press w layout kb log btn).1 btn = true := by
    intro hu
    have hc : kb.checked btn = true := by simpa [is_latched] using hu
    constructor
    · rw [h3, hc]; rfl
    · simp [is_latched, h2, hc]
  refine ⟨hA, ?_, ?_, h1, ?_⟩
  · intro hu
    have hc : kb.checked btn = false := by simpa [is_latched] using hu
    constructor
    · rw [h3, hc]; rfl
    · simp [is_latched, h2, hc]
  · intro j hj
    rw [h2]
    simp [hj]
  · intro hu
    have hc : kb.checked btn = true := by simpa [is_latched] using hu
    have hs2 : sq2lv_is_layer_switcher layout (on_button_press w layout kb log btn).1 btn
        = false := by
      unfold sq2lv_is_layer_switcher current_layer at hs ⊢
      rw [h1]; exact hs
    have hm2 : sq2lv_is_modifier layout (on_button_press w layout kb log btn).1 btn = true := by
      unfold sq2lv_is_modifier current_layer at hm ⊢
      rw [h1]; exact hm
    obtain ⟨g1, g2, g3⟩ := press_modifier w layout (on_button_press w layout kb log btn).1
      (on_button_press w layout kb log btn).2 btn hs2 hm2
    rw [key_scancodes_of_layer layout kb _ btn h1, hL] at g3
    have hc2 : (on_button_press w layout kb log btn).1.checked btn = false := by
      simp [h2, hc]
    constructor
    · rw [g3, hc2, (hA hu).1]; rfl
    · apply Keyboard.eq_of
      · rw [g1, h1]
      · rw [g2, hc2]
        funext j
        by_cases hj : j = btn
        · subst hj; simp [hc]
        · simp [hj, h2]

/-- C2 at the key "Ctrl" of the lowercase layer. -/
theorem C2_modifier_latch_toggle_witness :
    (on_button_press write_ok layout_terminal_us (Keyboard.unlatched 0) SinkLog.empty 0).2.calls
      = [KeyEvent.down KEY_LEFTCTRL] ∧
    (on_button_press write_ok layout_terminal_us
        (on_button_press write_ok layout_terminal_us (Keyboard.unlatched 0) SinkLog.empty 0).1
        (on_button_press write_ok layout_terminal_us (Keyboard.unlatched 0) SinkLog.empty 0).2
        0).2.calls
      = [KeyEvent.down KEY_LEFTCTRL, KeyEvent.down KEY_LEFTCTRL, KeyEvent.up KEY_LEFTCTRL] :=
  have h := C2_modifier_latch_toggle write_ok layout_terminal_us (Keyboard.unlatched 0)
    SinkLog.empty 0 KEY_LEFTCTRL (by decide) (by decide) (by decide)
  ⟨(h.1 (by decide)).1, (h.2.2.2.2 (by decide)).1⟩

/-- C3: with exactly one Modifier `m` (scancode `M`) latched, pressing a
Character key with the single scancode `K` makes exactly the calls down(K),
up(K), up(M) and clears the latch; a Character key pressed right afterwards
makes only the calls of its own scancodes (downs forward, ups in reverse) and
no further up(M). -/
theorem C3_sticky_release (w : WriteOracle) (layout : sq2lv_layout_t) (kb : Keyboard)
    (log : SinkLog) (m btn btn2 : Nat) (M K : Int) (L2 : List Int)
    (hmod : m ∈ sq2lv_get_modifier_indexes layout kb)
    (hlat : is_latched kb m = true)
    (hoth : ∀ j ∈ sq2lv_get_modifier_indexes layout kb, j ≠ m → is_latched kb j = false)
    (hM : key_scancodes layout kb m = [M])
    (hs : sq2lv_is_layer_switcher layout kb btn = false)
    (hm : sq2lv_is_modifier layout kb btn = false)
    (hK : key_scancodes layout kb btn = [K])
    (hs2 : sq2lv_is_layer_switcher layout kb btn2 = false)
    (hm2 : sq2lv_is_modifier layout kb btn2 = false)
    (hL2 : key_scancodes layout kb btn2 = L2) :
    (on_button_press w layout kb log btn).2.calls
      = log.calls ++ [KeyEvent.down K, KeyEvent.up K, KeyEvent.up M] ∧
    (∀ j ∈ sq2lv_get_modifier_indexes layout kb,
      is_latched (on_button_press w layout kb log btn).1 j = false) ∧
    (on_button_press w layout (on_button_press w layout kb log btn).1
        (on_button_press w layout kb log btn).2 btn2).2.calls
      = (on_button_press w layout kb log btn).2.calls
          ++ (L2.map KeyEvent.down ++ L2.reverse.map KeyEvent.up) := by
  obtain ⟨h1, h2, h3⟩ := press_character w layout kb log btn hs hm
  rw [modifier_releases_single layout kb m hmod hlat hoth, hM, hK] at h3
  have hcl : current_layer layout (on_button_press w layout kb log btn).1
      = current_layer layout kb := by
    unfold current_layer; rw [h1]
  have hclear : ∀ j ∈ sq2lv_get_modifier_indexes layout kb,
      is_latched (on_button_press w layout kb log btn).1 j = false := by
    intro j hj
    simp [is_latched, h2, hj]
  refine ⟨by rw [h3]; rfl, hclear, ?_⟩
  have hs2b : sq2lv_is_layer_switcher layout (on_button_press w layout kb log btn).1 btn2
      = false := by
    unfold sq2lv_is_layer_switcher; rw [hcl]; exact hs2
  have hm2b : sq2lv_is_modifier layout (on_button_press w layout kb log btn).1 btn2 = false := by
    unfold sq2lv_is_modifier; rw [hcl]; exact hm2
  have g := (press_character w layout (on_button_press w layout kb log btn).1
    (on_button_press w layout kb log btn).2 btn2 hs2b hm2b).2.2
  rw [modifier_releases_none, key_scancodes_of_layer layout kb _ btn2 h1, hL2,
    List.append_nil] at g
  · exact g
  · intro j hj
    apply hclear
    unfold sq2lv_get_modifier_indexes at hj ⊢
    rw [hcl] at hj
    exact hj

/-- C3 on the lowercase layer: "Ctrl" latched, then "c", then "d". -/
theorem C3_sticky_release_witness :
    (on_button_press write_ok layout_terminal_us (Keyboard.latched_one 0 0) SinkLog.empty
        28).2.calls
      = [KeyEvent.down KEY_C, KeyEvent.up KEY_C, KeyEvent.up KEY_LEFTCTRL] ∧
    (on_button_press write_ok layout_terminal_us
        (on_button_press write_ok layout_terminal_us (Keyboard.latched_one 0 0) SinkLog.empty
          28).1
        (on_button_press write_ok layout_terminal_us (Keyboard.latched_one 0 0) SinkLog.empty
          28).2 18).2.calls
      = (on_button_press write_ok layout_terminal_us (Keyboard.latched_one 0 0) SinkLog.empty
          28).2.calls ++ [KeyEvent.down KEY_D, KeyEvent.up KEY_D] :=
  have h := C3_sticky_release write_ok layout_terminal_us (Keyboard.latched_one 0 0)
    SinkLog.empty 0 28 18 KEY_LEFTCTRL KEY_C [KEY_D] (by decide) (by decide) (by decide)
    (by decide) (by decide) (by decide) (by decide) (by decide) (by decide) (by decide)
  ⟨h.1, h.2.2⟩

/-- C4: pressing a LayerSwitch key releases the latched modifiers and switches
the layer. With exactly one Modifier `m` latched the calls are exactly the
key-ups of the scancodes of `m` in reverse order, none for the switch key;
afterwards no modifier of the layer is latched and the active layer is the
destination of the switch key. With no modifier latched there is no call and
only the active layer changes. -/
theorem C4_switch_clears_latches (w : WriteOracle) (layout : sq2lv_layout_t) (kb : Keyboard)
    (log : SinkLog) (btn : Nat)
    (hs : sq2lv_is_layer_switcher layout kb btn = true) :
    (∀ (m : Nat) (Lm : List Int), m ∈ sq2lv_get_modifier_indexes layout kb →
      is_latched kb m = true →
      (∀ j ∈ sq2lv_get_modifier_indexes layout kb, j ≠ m → is_latched kb j = false) →
      key_scancodes layout kb m = Lm →
      (on_button_press w layout kb log btn).2.calls
        = log.calls ++ Lm.reverse.map KeyEvent.up) ∧
    (∀ j ∈ sq2lv_get_modifier_indexes layout kb,
      is_latched (on_button_press w layout kb log btn).1 j = false) ∧
    (on_button_press w layout kb log btn).1.layer
      = switcher_destination (current_layer layout kb) btn ∧
    ((∀ m ∈ sq2lv_get_modifier_indexes layout kb, is_latched kb m = false) →
      (on_button_press w layout kb log btn).2.calls = log.calls ∧
      (on_button_press w layout kb log btn).1
        = { kb with layer := switcher_destination (current_layer layout kb) btn }) := by
  obtain ⟨h1, h2, h3⟩ := press_switcher w layout kb log btn hs
  refine ⟨?_, ?_, h1, ?_⟩
  · intro m Lm hmod hlat hoth hLm
    rw [h3, modifier_releases_single layout kb m hmod hlat hoth, hLm]
    rfl
  · intro j hj
    simp [is_latched, h2, hj]
  · intro hnl
    constructor
    · rw [h3, modifier_releases_none layout kb hnl, List.append_nil]
    · apply Keyboard.eq_of
      · exact h1
      · rw [h2]
        funext j
        by_cases hj : j ∈ sq2lv_get_modifier_indexes layout kb
        · have := hnl j hj
          simp only [is_latched, Bool.not_eq_false'] at this
          simp [hj, this]
        · simp [hj]

/-- C4 on the lowercase layer: "Alt" latched, then the key "123" (to the
numbers layer). -/
theorem C4_switch_clears_latches_witness :
    (on_button_press write_ok layout_terminal_us (Keyboard.latched_one 0 1) SinkLog.empty
        34).2.calls = [KeyEvent.up KEY_LEFTALT] ∧
    (on_button_press write_ok layout_terminal_us (Keyboard.latched_one 0 1) SinkLog.empty
        34).1.layer = 2 ∧
    (on_button_press write_ok layout_terminal_us (Keyboard.unlatched 0) SinkLog.empty
        34).2.calls = [] :=
  have h := C4_switch_clears_latches write_ok layout_terminal_us (Keyboard.latched_one 0 1)
    SinkLog.empty 34 (by decide)
  have h0 := C4_switch_clears_latches write_ok layout_terminal_us (Keyboard.unlatched 0)
    SinkLog.empty 34 (by decide)
  ⟨h.1 1 [KEY_LEFTALT] (by decide) (by decide) (by decide) (by decide), h.2.2.1,
    (h0.2.2.2 (by decide)).1⟩

/-- C5: for every state and every button, the calls of one press are the
pressed key's own events followed by the releases of latched modifiers (own
events: none for a layer switch key, else the key-downs of its scancodes and,
unless the key is a modifier that becomes latched, the key-ups in reverse
order; releases: only for a layer switch key or a non-modifier key), and in
this sequence no key-down comes after a key-up. -/
theorem C5_downs_before_ups (w : WriteOracle) (layout : sq2lv_layout_t) (kb : Keyboard)
    (log : SinkLog) (btn : Nat) :
    ∃ own rel : List KeyEvent,
      (on_button_press w layout kb log btn).2.calls = log.calls ++ (own ++ rel) ∧
      own = (if sq2lv_is_layer_switcher layout kb btn then []
        else (key_scancodes layout kb btn).map KeyEvent.down ++
          (if sq2lv_is_modifier layout kb btn && !is_latched kb btn then []
           else (key_scancodes layout kb btn).reverse.map KeyEvent.up)) ∧
      rel = (if sq2lv_is_layer_switcher layout kb btn || !sq2lv_is_modifier layout kb btn
        then modifier_releases layout kb else []) ∧
      downs_before_ups (own ++ rel) := by
  have hD : ∀ e ∈ (key_scancodes layout kb btn).map KeyEvent.down,
      ∃ c, e = KeyEvent.down c := by
    intro e he
    rw [List.mem_map] at he
    obtain ⟨c, _, rfl⟩ := he
    exact ⟨c, rfl⟩
  have hU : ∀ e ∈ (key_scancodes layout kb btn).reverse.map KeyEvent.up,
      ∃ c, e = KeyEvent.up c := by
    intro e he
    rw [List.mem_map] at he
    obtain ⟨c, _, rfl⟩ := he
    exact ⟨c, rfl⟩
  refine ⟨_, _, ?_, rfl, rfl, ?_⟩
  · cases hs : sq2lv_is_layer_switcher layout kb btn with
    | true =>
      rw [(press_switcher w layout kb log btn hs).2.2]
      simp
    | false =>
      cases hm : sq2lv_is_modifier layout kb btn with
      | true =>
        rw [(press_modifier w layout kb log btn hs hm).2.2]
        cases hc : kb.checked btn <;> simp [is_latched, hc, downs, ups]
      | false =>
        rw [(press_character w layout kb log btn hs hm).2.2]
        simp [downs, ups]
  · cases hs : sq2lv_is_layer_switcher layout kb btn with
    | true =>
      simp only [↓reduceIte, Bool.true_or, List.nil_append]
      exact downs_before_ups_append [] _ (by simp) (modifier_releases_all_up layout kb)
    | false =>
      cases hm : sq2lv_is_modifier layout kb btn with
      | true =>
        simp only [Bool.false_eq_true, ↓reduceIte, Bool.true_and, Bool.not_true, Bool.or_self,
          List.append_nil]
        apply downs_before_ups_append _ _ hD
        intro e he
        split_ifs at he
        · simp at he
        · exact hU e he
      | false =>
        simp only [Bool.false_eq_true, ↓reduceIte, Bool.false_and, Bool.not_false, Bool.or_true,
          List.append_assoc]
        apply downs_before_ups_append _ _ hD
        intro e he
        rcases List.mem_append.1 he with h | h
        · exact hU e h
        · exact modifier_releases_all_up layout kb e h

/-- C6: after a press of a non-modifier key (layer switch key or Character
key), in every state, no modifier of the layer is latched, and the calls of
the press are the key's own events followed by, for each modifier that was
latched before the press (each once, in the order of `modifier_idxs`), one
key-up per scancode in reverse scancode order. -/
theorem C6_latched_modifiers_released (w : WriteOracle) (layout : sq2lv_layout_t)
    (kb : Keyboard) (log : SinkLog) (btn : Nat)
    (hnm : sq2lv_is_layer_switcher layout kb btn = true ∨
      sq2lv_is_modifier layout kb btn = false) :
    (∀ j ∈ sq2lv_get_modifier_indexes layout kb,
      is_latched (on_button_press w layout kb log btn).1 j = false) ∧
    (on_button_press w layout kb log btn).2.calls
      = log.calls ++
        ((if sq2lv_is_layer_switcher layout kb btn then []
          else (key_scancodes layout kb btn).map KeyEvent.down ++
            (key_scancodes layout kb btn).reverse.map KeyEvent.up) ++
        (((first_occurrences (sq2lv_get_modifier_indexes layout kb)).filter (is_latched kb)).map
          (fun m => (key_scancodes layout kb m).reverse.map KeyEvent.up)).flatten) ∧
    (first_occurrences (sq2lv_get_modifier_indexes layout kb)).Nodup ∧
    (∀ m, m ∈ first_occurrences (sq2lv_get_modifier_indexes layout kb)
      ↔ m ∈ sq2lv_get_modifier_indexes layout kb) := by
  refine ⟨?_, ?_, nodup_first_occurrences _, mem_first_occurrences _⟩
  · cases hs : sq2lv_is_layer_switcher layout kb btn with
    | true =>
      intro j hj
      simp [is_latched, (press_switcher w layout kb log btn hs).2.1, hj]
    | false =>
      have hm : sq2lv_is_modifier layout kb btn = false := by
        rcases hnm with h | h
        · rw [hs] at h; cases h
        · exact h
      intro j hj
      simp [is_latched, (press_character w layout kb log btn hs hm).2.1, hj]
  · cases hs : sq2lv_is_layer_switcher layout kb btn with
    | true =>
      rw [(press_switcher w layout kb log btn hs).2.2]
      rfl
    | false =>
      have hm : sq2lv_is_modifier layout kb btn = false := by
        rcases hnm with h | h
        · rw [hs] at h; cases h
        · exact h
      rw [(press_character w layout kb log btn hs hm).2.2]
      simp only [Bool.false_eq_true, ↓reduceIte, List.append_assoc]
      rfl

/-- C6 on the lowercase layer with "Ctrl" and "Alt" both latched: the key "c"
releases both. -/
theorem C6_latched_modifiers_released_witness :
    (∀ j ∈ sq2lv_get_modifier_indexes layout_terminal_us
        { layer := 0, checked := fun j => decide (2 ≤ j) },
      is_latched (on_button_press write_ok layout_terminal_us
        { layer := 0, checked := fun j => decide (2 ≤ j) } SinkLog.empty 28).1 j = false) ∧
    (on_button_press write_ok layout_terminal_us
        { layer := 0, checked := fun j => decide (2 ≤ j) } SinkLog.empty 28).2.calls
      = [KeyEvent.down KEY_C, KeyEvent.up KEY_C, KeyEvent.up KEY_LEFTCTRL,
          KeyEvent.up KEY_LEFTALT] :=
  have h := C6_latched_modifiers_released write_ok layout_terminal_us
    { layer := 0, checked := fun j => decide (2 ≤ j) } SinkLog.empty 28 (Or.inr (by decide))
  ⟨h.1, h.2.1.trans (by decide)⟩

/-- C7 as stated fails: on the symbols layer with "Ctrl" latched, the key
with index 9 has zero scancodes, yet pressing it calls the sink with
up(KEY_LEFTCTRL). -/
theorem C7_zero_scancode_key_counterexample :
    (sq2lv_get_scancodes layout_terminal_us (Keyboard.latched_one 3 0) 9).2 = 0 ∧
    (on_button_press write_ok layout_terminal_us (Keyboard.latched_one 3 0) SinkLog.empty
        9).2.calls = [KeyEvent.up KEY_LEFTCTRL] ∧
    (on_button_press write_ok layout_terminal_us (Keyboard.latched_one 3 0) SinkLog.empty
        9).2.calls ≠ SinkLog.empty.calls := by
  decide

/-- C7, amended: a key with zero scancodes emits no event of its own. For
every state and every key whose scancode count is 0, the calls of a press are
exactly the releases of the modifiers latched at the press when the key is a
layer switch key or a non-modifier key, and none when it is a Modifier; all of
them are key-ups, and with no modifier latched the press makes no call. -/
theorem C7_zero_scancode_key_own_events (w : WriteOracle) (layout : sq2lv_layout_t)
    (kb : Keyboard) (log : SinkLog) (btn : Nat)
    (h0 : (sq2lv_get_scancodes layout kb btn).2 = 0) :
    (on_button_press w layout kb log btn).2.calls
      = log.calls ++
        (if sq2lv_is_layer_switcher layout kb btn || !sq2lv_is_modifier layout kb btn
          then modifier_releases layout kb else []) ∧
    (∀ e ∈ modifier_releases layout kb, ∃ c, e = KeyEvent.up c) ∧
    ((∀ m ∈ sq2lv_get_modifier_indexes layout kb, is_latched kb m = false) →
      (on_button_press w layout kb log btn).2.calls = log.calls) := by
  have hL : key_scancodes layout kb btn = [] := by
    unfold key_scancodes
    rw [h0]
    rfl
  have hcalls : (on_button_press w layout kb log btn).2.calls
      = log.calls ++
        (if sq2lv_is_layer_switcher layout kb btn || !sq2lv_is_modifier layout kb btn
          then modifier_releases layout kb else []) := by
    cases hs : sq2lv_is_layer_switcher layout kb btn with
    | true =>
      rw [(press_switcher w layout kb log btn hs).2.2]
      simp
    | false =>
      cases hm : sq2lv_is_modifier layout kb btn with
      | true =>
        rw [(press_modifier w layout kb log btn hs hm).2.2, hL]
        simp [downs, ups]
      | false =>
        rw [(press_character w layout kb log btn hs hm).2.2, hL]
        simp [downs, ups]
  refine ⟨hcalls, modifier_releases_all_up layout kb, ?_⟩
  intro hnl
  rw [hcalls, modifier_releases_none layout kb hnl]
  simp

/-- C7, amended, on the symbols layer: the zero-scancode key with index 9
makes no call when nothing is latched, and only releases "Ctrl" when it is
latched. -/
theorem C7_zero_scancode_key_own_events_witness :
    (on_button_press write_ok layout_terminal_us (Keyboard.unlatched 3) SinkLog.empty
        9).2.calls = [] ∧
    (on_button_press write_ok layout_terminal_us (Keyboard.latched_one 3 0) SinkLog.empty
        9).2.calls = modifier_releases layout_terminal_us (Keyboard.latched_one 3 0) :=
  ⟨(C7_zero_scancode_key_own_events write_ok layout_terminal_us (Keyboard.unlatched 3)
      SinkLog.empty 9 (by decide)).2.2 (by decide),
    (C7_zero_scancode_key_own_events write_ok layout_terminal_us (Keyboard.latched_one 3 0)
      SinkLog.empty 9 (by decide)).1.trans (by decide)⟩

/-- C8: the calls made into the sink by a press, and the keyboard state after
it (latch flags and active layer), do not depend on the answers of the sink:
two runs from the same state with the same button on devices answering
differently make the same calls and end in the same state. -/
theorem C8_sink_answers_ignored (w1 w2 : WriteOracle) (layout : sq2lv_layout_t)
    (kb : Keyboard) (log : SinkLog) (btn : Nat) :
    (on_button_press w1 layout kb log btn).2.calls
      = (on_button_press w2 layout kb log btn).2.calls ∧
    (on_button_press w1 layout kb log btn).1 = (on_button_press w2 layout kb log btn).1 := by
  cases hs : sq2lv_is_layer_switcher layout kb btn with
  | true =>
    obtain ⟨a1, a2, a3⟩ := press_switcher w1 layout kb log btn hs
    obtain ⟨b1, b2, b3⟩ := press_switcher w2 layout kb log btn hs
    exact ⟨by rw [a3, b3], Keyboard.eq_of _ _ (by rw [a1, b1]) (by rw [a2, b2])⟩
  | false =>
    cases hm : sq2lv_is_modifier layout kb btn with
    | true =>
      obtain ⟨a1, a2, a3⟩ := press_modifier w1 layout kb log btn hs hm
      obtain ⟨b1, b2, b3⟩ := press_modifier w2 layout kb log btn hs hm
      exact ⟨by rw [a3, b3], Keyboard.eq_of _ _ (by rw [a1, b1]) (by rw [a2, b2])⟩
    | false =>
      obtain ⟨a1, a2, a3⟩ := press_character w1 layout kb log btn hs hm
      obtain ⟨b1, b2, b3⟩ := press_character w2 layout kb log btn hs hm
      exact ⟨by rw [a3, b3], Keyboard.eq_of _ _ (by rw [a1, b1]) (by rw [a2, b2])⟩

/-! ## Lemmas on Maximize: the branches of `reset_terminal` -/

/-- Branch of `reset_terminal`: the get-size call fails. -/
theorem reset_terminal_get_failed {τ : Type} (tty : Tty τ) (hf : HeightFactor) (fuel : Nat)
    (s s0 : TermState τ) (size size0 : winsize)
    (hget : get_terminal_size tty s size = (false, size0, s0)) :
    reset_terminal tty hf fuel s size = some (false, size0, s0) := by
  unfold reset_terminal
  rw [hget]

/-- Branch of `reset_terminal`: the probe of two more rows fails. -/
theorem reset_terminal_probe_failed {τ : Type} (tty : Tty τ) (hf : HeightFactor) (fuel : Nat)
    (s s0 s1 : TermState τ) (size size0 : winsize)
    (hget : get_terminal_size tty s size = (true, size0, s0))
    (hprobe : set_terminal_size tty s0 { size0 with ws_row := (size0.ws_row + 2) % USHRT }
      = (false, s1)) :
    reset_terminal tty hf fuel s size
      = some (decide (s1.errno = some Errno.EINVAL),
          { size0 with ws_row := ushrt_sub ((size0.ws_row + 2) % USHRT) 2 }, s1) := by
  unfold reset_terminal
  rw [hget]
  simp only
  rw [hprobe]

/-- Branch of `reset_terminal`: the probe succeeds and the candidate fails
with an error other than `EINVAL`. -/
theorem reset_terminal_candidate_failed {τ : Type} (tty : Tty τ) (hf : HeightFactor)
    (fuel : Nat) (s s0 s1 s2 : TermState τ) (size size0 : winsize)
    (hget : get_terminal_size tty s size = (true, size0, s0))
    (hprobe : set_terminal_size tty s0 { size0 with ws_row := (size0.ws_row + 2) % USHRT }
      = (true, s1))
    (hcand : set_terminal_size tty s1
      { size0 with ws_row := hf.div_floor ((size0.ws_row + 2) % USHRT) % USHRT } = (false, s2))
    (herr : s2.errno ≠ some Errno.EINVAL) :
    reset_terminal tty hf fuel s size
      = some (false,
          { size0 with ws_row := hf.div_floor ((size0.ws_row + 2) % USHRT) % USHRT }, s2) := by
  unfold reset_terminal
  rw [hget]
  simp only
  rw [hprobe]
  simp only
  rw [hcand]
  simp only [herr, ne_eq, not_false_eq_true, ↓reduceIte]

/-- Branch of `reset_terminal`: the probe succeeds and the candidate is
rejected as out of range: the downward loop decides. -/
theorem reset_terminal_downward {τ : Type} (tty : Tty τ) (hf : HeightFactor)
    (fuel : Nat) (s s0 s1 s2 : TermState τ) (size size0 : winsize)
    (hget : get_terminal_size tty s size = (true, size0, s0))
    (hprobe : set_terminal_size tty s0 { size0 with ws_row := (size0.ws_row + 2) % USHRT }
      = (true, s1))
    (hcand : set_terminal_size tty s1
      { size0 with ws_row := hf.div_floor ((size0.ws_row + 2) % USHRT) % USHRT } = (false, s2))
    (herr : s2.errno = some Errno.EINVAL) (d : winsize × TermState τ)
    (hd : reset_down_loop tty
      (ushrt_sub (hf.div_floor ((size0.ws_row + 2) % USHRT) % USHRT) 1)
      { size0 with ws_row := hf.div_floor ((size0.ws_row + 2) % USHRT) % USHRT } s2 = d) :
    reset_terminal tty hf fuel s size
      = (if d.2.errno ≠ some Errno.EINVAL ∨ d.1.ws_row = 0 then some (false, d.1, d.2)
         else some (true, d.1, d.2)) := by
  unfold reset_terminal
  rw [hget]
  simp only
  rw [hprobe]
  simp only
  rw [hcand]
  simp only [herr, ne_eq, not_true_eq_false, ↓reduceIte]
  rw [hd]

/-- Branch of `reset_terminal`: the probe and the candidate succeed and the
upward loop ends. -/
theorem reset_terminal_upward {τ : Type} (tty : Tty τ) (hf : HeightFactor)
    (fuel : Nat) (s s0 s1 s2 s3 : TermState τ) (size size0 size3 : winsize)
    (hget : get_terminal_size tty s size = (true, size0, s0))
    (hprobe : set_terminal_size tty s0 { size0 with ws_row := (size0.ws_row + 2) % USHRT }
      = (true, s1))
    (hcand : set_terminal_size tty s1
      { size0 with ws_row := hf.div_floor ((size0.ws_row + 2) % USHRT) % USHRT } = (true, s2))
    (hu : reset_up_loop tty fuel
      { size0 with ws_row := hf.div_floor ((size0.ws_row + 2) % USHRT) % USHRT } s2
      = some (size3, s3)) :
    reset_terminal tty hf fuel s size
      = (if s3.errno ≠ some Errno.EINVAL then some (false, size3, s3)
         else some (true, { size3 with ws_row := ushrt_sub size3.ws_row 1 }, s3)) := by
  unfold reset_terminal
  rw [hget]
  simp only
  rw [hprobe]
  simp only
  rw [hcand]
  simp only
  rw [hu]

/-- Branch of `reset_terminal`: the probe and the candidate succeed and the
upward loop runs out of fuel. -/
theorem reset_terminal_upward_none {τ : Type} (tty : Tty τ) (hf : HeightFactor)
    (fuel : Nat) (s s0 s1 s2 : TermState τ) (size size0 : winsize)
    (hget : get_terminal_size tty s size = (true, size0, s0))
    (hprobe : set_terminal_size tty s0 { size0 with ws_row := (size0.ws_row + 2) % USHRT }
      = (true, s1))
    (hcand : set_terminal_size tty s1
      { size0 with ws_row := hf.div_floor ((size0.ws_row + 2) % USHRT) % USHRT } = (true, s2))
    (hu : reset_up_loop tty fuel
      { size0 with ws_row := hf.div_floor ((size0.ws_row + 2) % USHRT) % USHRT } s2 = none) :
    reset_terminal tty hf fuel s size = none := by
  unfold reset_terminal
  rw [hget]
  simp only
  rw [hprobe]
  simp only
  rw [hcand]
  simp only
  rw [hu]

/-! ## Lemmas on Maximize over a bounded terminal -/

theorem set_bounded_accept (R : Nat) (s : TermState winsize) (size : winsize)
    (h : size.ws_row ≤ R) :
    set_terminal_size (bounded_tty R) s size
      = (true, { s with dev := size, sets := s.sets ++ [size] }) := by
  simp [set_terminal_size, bounded_tty, h]

theorem set_bounded_reject (R : Nat) (s : TermState winsize) (size : winsize)
    (h : R < size.ws_row) :
    set_terminal_size (bounded_tty R) s size
      = (false, { s with errno := some Errno.EINVAL, sets := s.sets ++ [size] }) := by
  simp [set_terminal_size, bounded_tty, Nat.not_le.2 h]

theorem get_bounded (R : Nat) (s : TermState winsize) (size : winsize) :
    get_terminal_size (bounded_tty R) s size = (true, s.dev, { s with gets := s.gets + 1 }) := by
  simp [get_terminal_size, bounded_tty]

/-- The downward loop on a bounded terminal stops at the bound. -/
theorem reset_down_loop_bounded (R : Nat) (hR : 1 ≤ R) :
    ∀ (k : Nat) (size : winsize) (s : TermState winsize), R ≤ k →
      s.errno = some Errno.EINVAL →
      (reset_down_loop (bounded_tty R) k size s).1 = { size with ws_row := R } ∧
      (reset_down_loop (bounded_tty R) k size s).2.dev = { size with ws_row := R } ∧
      (reset_down_loop (bounded_tty R) k size s).2.errno = some Errno.EINVAL := by
  intro k
  induction k with
  | zero => intro size s hk; omega
  | succ k ih =>
    intro size s hk he
    unfold reset_down_loop
    by_cases hle : k + 1 ≤ R
    · have hkR : k + 1 = R := by omega
      simp only [set_bounded_accept R s { size with ws_row := k + 1 } hle, ↓reduceIte]
      rw [hkR]
      exact ⟨rfl, rfl, he⟩
    · have hlt : R < k + 1 := by omega
      simp only [set_bounded_reject R s { size with ws_row := k + 1 } hlt, Bool.false_eq_true,
        ↓reduceIte]
      exact ih { size with ws_row := k + 1 } _ (by omega) rfl

/-- The upward loop on a bounded terminal stops at the first row count above
the bound, with the terminal at the bound. -/
theorem reset_up_loop_bounded (R : Nat) (hR : R < 65535) :
    ∀ (fuel : Nat) (size : winsize) (s : TermState winsize), size.ws_row ≤ R →
      s.dev = size → R + 1 - size.ws_row ≤ fuel →
      ∃ s2, reset_up_loop (bounded_tty R) fuel size s = some ({ size with ws_row := R + 1 }, s2) ∧
        s2.dev = { size with ws_row := R } ∧ s2.errno = some Errno.EINVAL := by
  intro fuel
  induction fuel with
  | zero => intro size s hle _ hf; omega
  | succ fuel ih =>
    intro size s hle hdev hf
    unfold reset_up_loop
    have hmod : (size.ws_row + 1) % USHRT = size.ws_row + 1 := by
      unfold USHRT
      omega
    rw [hmod]
    by_cases hacc : size.ws_row + 1 ≤ R
    · simp only [set_bounded_accept R s { size with ws_row := size.ws_row + 1 } hacc, ↓reduceIte]
      obtain ⟨s2, h1, h2, h3⟩ := ih { size with ws_row := size.ws_row + 1 }
        { s with dev := { size with ws_row := size.ws_row + 1 },
                 sets := s.sets ++ [{ size with ws_row := size.ws_row + 1 }] }
        hacc rfl (by simp only; omega)
      exact ⟨s2, h1, h2, h3⟩
    · have hrow : size.ws_row = R := by omega
      have hlt : R < ({ size with ws_row := size.ws_row + 1 } : winsize).ws_row := by
        simp only; omega
      simp only [set_bounded_reject R s { size with ws_row := size.ws_row + 1 } hlt,
        Bool.false_eq_true, ↓reduceIte]
      refine ⟨{ s with errno := some Errno.EINVAL,
                       sets := s.sets ++ [{ size with ws_row := size.ws_row + 1 }] }, ?_, ?_, rfl⟩
      · rw [hrow]
      · simp only
        rw [hdev, ← hrow]

/-- Maximize on a bounded terminal, in closed form: when the probe of two more
rows is rejected the size is returned as it is, else the terminal ends at the
bound, which is returned. -/
theorem reset_terminal_bounded (hf : HeightFactor) (R : Nat) (hR1 : 1 ≤ R) (hR : R < 65535)
    (fuel : Nat) (hfuel : 65536 ≤ fuel) (s : TermState winsize) (size : winsize)
    (hrow : s.dev.ws_row < 65536) :
    ∃ s2, reset_terminal (bounded_tty R) hf fuel s size
        = some (true,
            (if (s.dev.ws_row + 2) % USHRT ≤ R then { s.dev with ws_row := R } else s.dev), s2) ∧
      s2.dev = (if (s.dev.ws_row + 2) % USHRT ≤ R then { s.dev with ws_row := R } else s.dev) := by
  have hget := get_bounded R s size
  by_cases hp : (s.dev.ws_row + 2) % USHRT ≤ R
  · have hprobe := set_bounded_accept R { s with gets := s.gets + 1 }
      { s.dev with ws_row := (s.dev.ws_row + 2) % USHRT } hp
    simp only [hp, ↓reduceIte]
    by_cases hc : hf.div_floor ((s.dev.ws_row + 2) % USHRT) % USHRT ≤ R
    · have hcand := set_bounded_accept R
        { s with dev := { s.dev with ws_row := (s.dev.ws_row + 2) % USHRT },
                 gets := s.gets + 1,
                 sets := s.sets ++ [{ s.dev with ws_row := (s.dev.ws_row + 2) % USHRT }] }
        { s.dev with ws_row := hf.div_floor ((s.dev.ws_row + 2) % USHRT) % USHRT } hc
      obtain ⟨s3, h1, h2, h3⟩ := reset_up_loop_bounded R hR fuel
        { s.dev with ws_row := hf.div_floor ((s.dev.ws_row + 2) % USHRT) % USHRT }
        { dev := { s.dev with ws_row := hf.div_floor ((s.dev.ws_row + 2) % USHRT) % USHRT },
          errno := s.errno, gets := s.gets + 1,
          sets := (s.sets ++ [{ s.dev with ws_row := (s.dev.ws_row + 2) % USHRT }]) ++
            [{ s.dev with ws_row := hf.div_floor ((s.dev.ws_row + 2) % USHRT) % USHRT }] }
        hc rfl (by simp only; omega)
      rw [reset_terminal_upward _ hf fuel s _ _ _ s3 size s.dev _ hget hprobe hcand h1]
      simp only [h3, ne_eq, not_true_eq_false, ↓reduceIte]
      refine ⟨s3, ?_, h2⟩
      have : ushrt_sub (R + 1) 1 = R := by simp [ushrt_sub]
      rw [this]
    · have hc2 : R < ({ s.dev with
          ws_row := hf.div_floor ((s.dev.ws_row + 2) % USHRT) % USHRT } : winsize).ws_row := by
        simp only; omega
      have hcand := set_bounded_reject R
        { s with dev := { s.dev with ws_row := (s.dev.ws_row + 2) % USHRT },
                 gets := s.gets + 1,
                 sets := s.sets ++ [{ s.dev with ws_row := (s.dev.ws_row + 2) % USHRT }] }
        { s.dev with ws_row := hf.div_floor ((s.dev.ws_row + 2) % USHRT) % USHRT } hc2
      have hk : R ≤ ushrt_sub (hf.div_floor ((s.dev.ws_row + 2) % USHRT) % USHRT) 1 := by
        simp only at hc2
        unfold ushrt_sub
        split_ifs <;> omega
      obtain ⟨h1, h2, h3⟩ := reset_down_loop_bounded R hR1
        (ushrt_sub (hf.div_floor ((s.dev.ws_row + 2) % USHRT) % USHRT) 1)
        { s.dev with ws_row := hf.div_floor ((s.dev.ws_row + 2) % USHRT) % USHRT }
        { dev := { s.dev with ws_row := (s.dev.ws_row + 2) % USHRT },
          errno := some Errno.EINVAL, gets := s.gets + 1,
          sets := (s.sets ++ [{ s.dev with ws_row := (s.dev.ws_row + 2) % USHRT }]) ++
            [{ s.dev with ws_row := hf.div_floor ((s.dev.ws_row + 2) % USHRT) % USHRT }] }
        hk rfl
      rw [reset_terminal_downward _ hf fuel s _ _ _ size s.dev hget hprobe hcand rfl _ rfl]
      have hne : ¬ R = 0 := by omega
      simp only [h1, h3, ne_eq, not_true_eq_false, false_or, hne, ↓reduceIte]
      exact ⟨_, rfl, h2⟩
  · simp only [hp, ↓reduceIte]
    have hp2 : R < ({ s.dev with ws_row := (s.dev.ws_row + 2) % USHRT } : winsize).ws_row := by
      simp only; omega
    have hprobe := set_bounded_reject R { s with gets := s.gets + 1 }
      { s.dev with ws_row := (s.dev.ws_row + 2) % USHRT } hp2
    rw [reset_terminal_probe_failed _ hf fuel s _ _ size s.dev hget hprobe]
    have : ushrt_sub ((s.dev.ws_row + 2) % USHRT) 2 = s.dev.ws_row := by
      unfold ushrt_sub USHRT
      split_ifs <;> omega
    simp only [decide_True, this]
    exact ⟨_, rfl, rfl⟩

/-! ## Claims on Maximize -/

/-- C9 fails on the code one row below the maximum: on a terminal that
accepts exactly the row counts up to 30 and has 29 rows, `reset_terminal`
requests 31 rows once, is rejected, and returns success with 29 rows, the
terminal staying at 29 rows and not at the largest accepted count 30. -/
theorem C9_maximize_one_below_maximum :
    (reset_terminal (bounded_tty 30) (HeightFactor.exact 2 3) 65536
        (TermState.start { ws_row := 29, ws_col := 80, ws_xpixel := 0, ws_ypixel := 0 })
        { ws_row := 0, ws_col := 0, ws_xpixel := 0, ws_ypixel := 0 }).map
        (fun r => (r.1, r.2.1, r.2.2.dev, r.2.2.sets))
      = some (true, { ws_row := 29, ws_col := 80, ws_xpixel := 0, ws_ypixel := 0 },
          { ws_row := 29, ws_col := 80, ws_xpixel := 0, ws_ypixel := 0 },
          [{ ws_row := 31, ws_col := 80, ws_xpixel := 0, ws_ypixel := 0 }]) := by
  decide

/-- C10: Maximize is idempotent on an unchanged terminal. On a terminal that
accepts exactly the row counts up to `R` (with `1 ≤ R` and `R + 1` still an
unsigned short), for every starting size with an unsigned short row count and
every height factor, two successive calls of `reset_terminal` with enough
fuel both return success with the same row count, the first returns the size
the terminal then has, and the second leaves the terminal at that size. -/
theorem C10_maximize_idempotent (hf : HeightFactor) (R : Nat) (hR1 : 1 ≤ R) (hR : R < 65535)
    (fuel : Nat) (hfuel : 65536 ≤ fuel) (d size size2 : winsize) (hd : d.ws_row < 65536) :
    ∃ (r1 : winsize) (s1 : TermState winsize) (r2 : winsize) (s2 : TermState winsize),
      reset_terminal (bounded_tty R) hf fuel (TermState.start d) size = some (true, r1, s1) ∧
      reset_terminal (bounded_tty R) hf fuel s1 size2 = some (true, r2, s2) ∧
      r2.ws_row = r1.ws_row ∧ r1 = s1.dev ∧ s2.dev = s1.dev := by
  obtain ⟨s1, e1, d1⟩ := reset_terminal_bounded hf R hR1 hR fuel hfuel (TermState.start d) size hd
  have hstart : (TermState.start d).dev = d := rfl
  rw [hstart] at e1 d1
  have hrow1 : s1.dev.ws_row < 65536 := by
    rw [d1]
    split_ifs
    · simp only; omega
    · exact hd
  obtain ⟨s2, e2, d2⟩ := reset_terminal_bounded hf R hR1 hR fuel hfuel s1 size2 hrow1
  have hfix : (if (s1.dev.ws_row + 2) % USHRT ≤ R then { s1.dev with ws_row := R } else s1.dev)
      = s1.dev := by
    by_cases hp : (d.ws_row + 2) % USHRT ≤ R
    · have hs1 : s1.dev = { d with ws_row := R } := by rw [d1]; simp only [hp, ↓reduceIte]
      rw [hs1]
      split_ifs <;> rfl
    · have hs1 : s1.dev = d := by rw [d1]; simp only [hp, ↓reduceIte]
      rw [hs1]
      simp only [hp, ↓reduceIte]
  rw [hfix] at e2 d2
  exact ⟨_, s1, _, s2, e1, e2, by rw [d1], d1.symm, d2⟩

/-- C10 on a terminal with at most 30 rows that has 20 rows, factor 2/3. -/
theorem C10_maximize_idempotent_witness :
    ∃ (r1 : winsize) (s1 : TermState winsize) (r2 : winsize) (s2 : TermState winsize),
      reset_terminal (bounded_tty 30) (HeightFactor.exact 2 3) 65536
        (TermState.start { ws_row := 20, ws_col := 80, ws_xpixel := 0, ws_ypixel := 0 })
        { ws_row := 0, ws_col := 0, ws_xpixel := 0, ws_ypixel := 0 } = some (true, r1, s1) ∧
      reset_terminal (bounded_tty 30) (HeightFactor.exact 2 3) 65536 s1
        { ws_row := 0, ws_col := 0, ws_xpixel := 0, ws_ypixel := 0 } = some (true, r2, s2) ∧
      r2.ws_row = r1.ws_row ∧ r1 = s1.dev ∧ s2.dev = s1.dev :=
  C10_maximize_idempotent (HeightFactor.exact 2 3) 30 (by decide) (by decide) 65536 (by decide)
    { ws_row := 20, ws_col := 80, ws_xpixel := 0, ws_ypixel := 0 }
    { ws_row := 0, ws_col := 0, ws_xpixel := 0, ws_ypixel := 0 }
    { ws_row := 0, ws_col := 0, ws_xpixel := 0, ws_ypixel := 0 } (by decide)

/-! ## Claims on the layout catalog -/

theorem set_keybits_registered (a : UinputAnswers) (scancodes : List Int) (idxs : List Nat) :
    ∀ (reg out : List Int), set_keybits a scancodes idxs reg = (true, out) →
      out = reg ++ idxs.map (fun i => scancodes.getD i 0) := by
  induction idxs with
  | nil =>
    intro reg out h
    simp only [set_keybits, Prod.mk.injEq, true_and] at h
    simp [h]
  | cons i rest ih =>
    intro reg out h
    unfold set_keybits at h
    split_ifs at h with hk
    · rw [ih _ _ h]
      simp
    · simp at h

/-- A successful `bb_uinput_device_init` has registered the first
`num_scancodes` entries of `scancodes`. -/
theorem uinput_init_registered (a : UinputAnswers) (scancodes : List Int) (num : Nat)
    (reg : List Int) (h : bb_uinput_device_init a scancodes num = (true, reg)) :
    reg = (List.range num).map (fun i => scancodes.getD i 0) := by
  unfold bb_uinput_device_init at h
  simp only at h
  split_ifs at h with h1 h2 h3 h4 h5 h6
  all_goals try (simp only [Prod.mk.injEq, Bool.false_eq_true, false_and] at h)
  have hr : set_keybits a scancodes (List.range num) []
      = (true, (set_keybits a scancodes (List.range num) []).2) := by
    simp only [Bool.not_eq_true, Bool.not_eq_false'] at h4
    exact Prod.ext h4 rfl
  have := set_keybits_registered a scancodes (List.range num) [] _ hr
  rw [← h.2, this]
  simp

/-- Every scancode that `emit_key_events` can read on the terminal/us layout,
on any layer and for any button, is one of `sq2lv_unique_scancodes`. -/
theorem key_scancodes_in_unique (kb : Keyboard) (btn : Nat) :
    ∀ c ∈ key_scancodes layout_terminal_us kb btn, c ∈ sq2lv_unique_scancodes := by
  have hfin : ∀ li < 5, ∀ b < 39,
      ∀ c ∈ key_scancodes layout_terminal_us (Keyboard.unlatched li) b,
        c ∈ sq2lv_unique_scancodes := by
    decide
  have hlen : ∀ li < 5, (layout_terminal_us.layers.getD li empty_layer).scancode_nums.length ≤ 39 := by
    decide
  have hkb : key_scancodes layout_terminal_us kb btn
      = key_scancodes layout_terminal_us (Keyboard.unlatched kb.layer) btn :=
    (key_scancodes_of_layer layout_terminal_us (Keyboard.unlatched kb.layer) kb btn rfl).symm
  rw [hkb]
  by_cases hl : kb.layer < 5
  · by_cases hb : btn < 39
    · exact hfin kb.layer hl btn hb
    · have hnum : (sq2lv_get_scancodes layout_terminal_us (Keyboard.unlatched kb.layer) btn).2
          = 0 := by
        have h1 := hlen kb.layer hl
        simp only [sq2lv_get_scancodes, current_layer, Keyboard.unlatched]
        rw [List.getD_eq_default _ _ (by omega)]
        rfl
      intro c hc
      unfold key_scancodes at hc
      rw [hnum] at hc
      simp at hc
  · have hnum : (sq2lv_get_scancodes layout_terminal_us (Keyboard.unlatched kb.layer) btn).2
        = 0 := by
      have h5 : layout_terminal_us.layers.length ≤ kb.layer := by
        have : layout_terminal_us.layers.length = 5 := by decide
        omega
      simp only [sq2lv_get_scancodes, current_layer, Keyboard.unlatched]
      rw [List.getD_eq_default _ _ h5]
      rfl
    intro c hc
    unfold key_scancodes at hc
    rw [hnum] at hc
    simp at hc

/-- C18: `sq2lv_unique_scancodes` is the deduplicated union of the scancodes
of all layers of all layouts: it has no value twice, its length is
`sq2lv_num_unique_scancodes`, which is 80, every scancode of a layer's flat
table occurs in it and each of its values occurs in some layer's table; and
after a successful `bb_uinput_device_init (sq2lv_unique_scancodes,
sq2lv_num_unique_scancodes)` every scancode the synthesizer reads for a key
of the layout is a registered key bit. -/
theorem C18_unique_scancodes :
    sq2lv_unique_scancodes.Nodup ∧
    sq2lv_unique_scancodes.length = sq2lv_num_unique_scancodes ∧
    sq2lv_num_unique_scancodes = 80 ∧
    (∀ layout ∈ sq2lv_layouts, ∀ l ∈ layout.layers, ∀ c ∈ l.scancodes,
      c ∈ sq2lv_unique_scancodes) ∧
    (∀ c ∈ sq2lv_unique_scancodes, ∃ layout ∈ sq2lv_layouts, ∃ l ∈ layout.layers,
      c ∈ l.scancodes) ∧
    (∀ (a : UinputAnswers) (registered : List Int),
      bb_uinput_device_init a sq2lv_unique_scancodes sq2lv_num_unique_scancodes
        = (true, registered) →
      ∀ (kb : Keyboard) (btn : Nat), ∀ c ∈ key_scancodes layout_terminal_us kb btn,
        c ∈ registered) := by
  refine ⟨by decide, by decide, rfl, by decide, by decide, ?_⟩
  intro a registered h kb btn c hc
  have hreg := uinput_init_registered a _ _ registered h
  have hall : (List.range sq2lv_num_unique_scancodes).map
      (fun i => sq2lv_unique_scancodes.getD i 0) = sq2lv_unique_scancodes := by
    decide
  rw [hreg, hall]
  exact key_scancodes_in_unique kb btn c hc

/-- C18 on a kernel where the set-up succeeds: the scancodes of the key "Q" of
the uppercase layer are registered. -/
theorem C18_unique_scancodes_witness :
    ∀ c ∈ key_scancodes layout_terminal_us (Keyboard.unlatched 1) 6,
      c ∈ (bb_uinput_device_init uinput_all_ok sq2lv_unique_scancodes
        sq2lv_num_unique_scancodes).2 :=
  C18_unique_scancodes.2.2.2.2.2 uinput_all_ok
    (bb_uinput_device_init uinput_all_ok sq2lv_unique_scancodes sq2lv_num_unique_scancodes).2
    (by decide) (Keyboard.unlatched 1) 6

/-- C19 fails on the catalog: every layer of terminal/us has `num_scancodes`
5, while its flat scancodes array has 35, 61, 49, 33 and 29 entries, which is
also the sum of its `scancode_nums`. -/
theorem C19_num_scancodes_mismatch :
    layers_terminal_us.map
        (fun l => (l.num_scancodes, l.scancodes.length, (l.scancode_nums.map Int.toNat).sum))
      = [(5, 35, 35), (5, 61, 61), (5, 49, 49), (5, 33, 33), (5, 29, 29)] := by
  decide

/-- C20: in every layer of the catalog the modifier index list and the
switcher index list have no duplicates and are disjoint, every index in them
is below `num_keys`, and every layer switch key has zero scancodes, so that it
emits no scancode of its own. -/
theorem C20_one_role_per_key :
    ∀ layout ∈ sq2lv_layouts, ∀ l ∈ layout.layers,
      (layer_modifiers l).Nodup ∧ (layer_switchers l).Nodup ∧
      (∀ i ∈ layer_modifiers l, i ∉ layer_switchers l) ∧
      (∀ i ∈ layer_modifiers l, i < l.num_keys) ∧
      (∀ i ∈ layer_switchers l, i < l.num_keys) ∧
      (∀ i ∈ layer_switchers l, l.scancode_nums.getD i 0 = 0) ∧
      l.modifier_idxs.length = l.num_modifiers ∧
      l.switcher_idxs.length = l.num_switchers ∧
      l.switcher_dests.length = l.num_switchers := by
  decide

/-- C20 on the layer "lower" of terminal/us, which has the modifier keys 0
and 1 and the switcher keys 25, 34 and 36. -/
theorem C20_one_role_per_key_witness :
    layout_terminal_us ∈ sq2lv_layouts ∧
    layer_lower_terminal_us ∈ layout_terminal_us.layers ∧
    (layer_modifiers layer_lower_terminal_us).Nodup ∧
    (layer_switchers layer_lower_terminal_us).Nodup ∧
    (∀ i ∈ layer_modifiers layer_lower_terminal_us, i ∉ layer_switchers layer_lower_terminal_us) ∧
    (∀ i ∈ layer_modifiers layer_lower_terminal_us, i < layer_lower_terminal_us.num_keys) ∧
    (∀ i ∈ layer_switchers layer_lower_terminal_us, i < layer_lower_terminal_us.num_keys) ∧
    (∀ i ∈ layer_switchers layer_lower_terminal_us,
      layer_lower_terminal_us.scancode_nums.getD i 0 = 0) ∧
    layer_lower_terminal_us.modifier_idxs.length = layer_lower_terminal_us.num_modifiers ∧
    layer_lower_terminal_us.switcher_idxs.length = layer_lower_terminal_us.num_switchers ∧
    layer_lower_terminal_us.switcher_dests.length = layer_lower_terminal_us.num_switchers :=
  ⟨by decide, by decide,
    C20_one_role_per_key layout_terminal_us (by decide) layer_lower_terminal_us (by decide)⟩

/-! ## Lemmas on `bb_terminal_shrink_current`: its branches -/

theorem get_active_terminal_vars {ε : Type} (k : Kernel ε) (n : Negotiator ε) :
    (get_active_terminal k n).2.current_fd = n.current_fd ∧
    (get_active_terminal k n).2.current_vt = n.current_vt ∧
    (get_active_terminal k n).2.resized_vts = n.resized_vts ∧
    (get_active_terminal k n).2.height_factor = n.height_factor ∧
    (get_active_terminal k n).2.st.sets = n.st.sets ∧
    (get_active_terminal k n).2.st.gets = n.st.gets := by
  unfold get_active_terminal
  split <;> exact ⟨rfl, rfl, rfl, rfl, rfl, rfl⟩

theorem reopen_current_terminal_vars {ε : Type} (k : Kernel ε) (n : Negotiator ε) :
    (reopen_current_terminal k n).2.current_vt = n.current_vt ∧
    (reopen_current_terminal k n).2.resized_vts = n.resized_vts ∧
    (reopen_current_terminal k n).2.height_factor = n.height_factor ∧
    (reopen_current_terminal k n).2.st.sets = n.st.sets ∧
    (reopen_current_terminal k n).2.st.gets = n.st.gets := by
  unfold reopen_current_terminal close_current_terminal sys_open
  simp only
  split_ifs <;> split <;> exact ⟨rfl, rfl, rfl, rfl, rfl⟩

/-- What `shrink_prepared` keeps of the negotiator. -/
theorem shrink_prepared_vars {ε : Type} (k : Kernel ε) (g : Int × Negotiator ε)
    (n1 : Negotiator ε) (h : shrink_prepared k g n1) :
    n1.current_vt = g.1 ∧ n1.resized_vts = g.2.resized_vts ∧
    n1.height_factor = g.2.height_factor ∧ n1.st.sets = g.2.st.sets ∧
    n1.st.gets = g.2.st.gets := by
  rcases h with ⟨h1, h2⟩ | ⟨_, n0, h2, h3⟩
  · rw [h2]
    exact ⟨h1.symm, rfl, rfl, rfl, rfl⟩
  · have hv := reopen_current_terminal_vars k g.2
    rw [h2] at hv
    rw [h3]
    exact ⟨rfl, hv.2.1, hv.2.2.1, hv.2.2.2.1, hv.2.2.2.2⟩

/-- Branch of `bb_terminal_shrink_current`: the query of the active terminal
fails. -/
theorem shrink_current_query_failed {ε : Type} (k : Kernel ε) (fuel : Nat) (n : Negotiator ε)
    (h : (get_active_terminal k n).1 < 0) :
    bb_terminal_shrink_current k fuel n
      = Run.done (ShrinkExit.query_failed, (get_active_terminal k n).2) := by
  unfold bb_terminal_shrink_current
  simp only [h, ↓reduceIte]

/-- Branch of `bb_terminal_shrink_current`: the number of the active terminal
is rejected. -/
theorem shrink_current_index_rejected {ε : Type} (k : Kernel ε) (fuel : Nat)
    (n : Negotiator ε) (h : (get_active_terminal k n).1 > 62) :
    bb_terminal_shrink_current k fuel n
      = Run.done (ShrinkExit.index_rejected, (get_active_terminal k n).2) := by
  unfold bb_terminal_shrink_current MAX_NR_CONSOLES
  have h1 : ¬ (get_active_terminal k n).1 < 0 := by omega
  have h2 : (get_active_terminal k n).1 > ((63 : Nat) : Int) - 1 := by omega
  simp only [h1, ↓reduceIte, h2, or_true]

/-- Branch of `bb_terminal_shrink_current`: the active terminal has number 0
and the flag is read at index -1. -/
theorem shrink_current_fault {ε : Type} (k : Kernel ε) (fuel : Nat) (n : Negotiator ε)
    (h : (get_active_terminal k n).1 = 0) :
    bb_terminal_shrink_current k fuel n = Run.fault (-1) := by
  unfold bb_terminal_shrink_current MAX_NR_CONSOLES resized_read
  simp [h]

/-- Branch of `bb_terminal_shrink_current`: the flag of the active terminal is
set. -/
theorem shrink_current_already {ε : Type} (k : Kernel ε) (fuel : Nat) (n : Negotiator ε)
    (h1 : 1 ≤ (get_active_terminal k n).1) (h2 : (get_active_terminal k n).1 ≤ 62)
    (hflag : n.resized_vts ((get_active_terminal k n).1 - 1).toNat = true) :
    bb_terminal_shrink_current k fuel n
      = Run.done (ShrinkExit.already_resized, (get_active_terminal k n).2) := by
  have hr : resized_read (get_active_terminal k n).2.resized_vts
      ((get_active_terminal k n).1 - 1) = some true := by
    unfold resized_read MAX_NR_CONSOLES
    rw [(get_active_terminal_vars k n).2.2.1, if_pos (by omega), hflag]
  have ha : ¬ (get_active_terminal k n).1 < 0 := by omega
  have hb : ¬ (get_active_terminal k n).1 > ((MAX_NR_CONSOLES : Nat) : Int) - 1 := by
    unfold MAX_NR_CONSOLES; omega
  unfold bb_terminal_shrink_current
  simp only [ha, hb, or_self, ↓reduceIte, hr]

/-- Branch of `bb_terminal_shrink_current`: the flag is not set, the active
terminal is not the current one and the reopen fails. -/
theorem shrink_current_reopen_failed {ε : Type} (k : Kernel ε) (fuel : Nat)
    (n n1 : Negotiator ε)
    (h1 : 1 ≤ (get_active_terminal k n).1) (h2 : (get_active_terminal k n).1 ≤ 62)
    (hflag : n.resized_vts ((get_active_terminal k n).1 - 1).toNat = false)
    (hne : (get_active_terminal k n).1 ≠ (get_active_terminal k n).2.current_vt)
    (hre : reopen_current_terminal k (get_active_terminal k n).2 = (false, n1)) :
    bb_terminal_shrink_current k fuel n = Run.done (ShrinkExit.reopen_failed, n1) := by
  have hr : resized_read (get_active_terminal k n).2.resized_vts
      ((get_active_terminal k n).1 - 1) = some false := by
    unfold resized_read MAX_NR_CONSOLES
    rw [(get_active_terminal_vars k n).2.2.1, if_pos (by omega), hflag]
  have ha : ¬ (get_active_terminal k n).1 < 0 := by omega
  have hb : ¬ (get_active_terminal k n).1 > ((MAX_NR_CONSOLES : Nat) : Int) - 1 := by
    unfold MAX_NR_CONSOLES; omega
  unfold bb_terminal_shrink_current
  simp only [ha, hb, or_self, ↓reduceIte, hr, hne, ne_eq, not_false_eq_true, hre,
    Bool.not_false]

/-- The state with which `bb_terminal_shrink_current` calls `shrink_terminal`
and its result, when the flag of the active terminal is not set and the
terminal is prepared as `n1`. -/
theorem shrink_current_prepared_run {ε : Type} (k : Kernel ε) (fuel : Nat)
    (n n1 : Negotiator ε)
    (h1 : 1 ≤ (get_active_terminal k n).1) (h2 : (get_active_terminal k n).1 ≤ 62)
    (hflag : n.resized_vts ((get_active_terminal k n).1 - 1).toNat = false)
    (hp : shrink_prepared k (get_active_terminal k n) n1) :
    (shrink_terminal (k.tty n1.current_fd) n1.height_factor fuel n1.st = none →
      bb_terminal_shrink_current k fuel n = Run.no_fuel) ∧
    (∀ s1, shrink_terminal (k.tty n1.current_fd) n1.height_factor fuel n1.st = some (false, s1) →
      bb_terminal_shrink_current k fuel n
        = Run.done (ShrinkExit.shrink_failed, { n1 with st := s1 })) ∧
    (∀ s1, shrink_terminal (k.tty n1.current_fd) n1.height_factor fuel n1.st = some (true, s1) →
      bb_terminal_shrink_current k fuel n
        = Run.done (ShrinkExit.resized,
            { n1 with st := s1,
                      resized_vts := fun j =>
                        if j = ((get_active_terminal k n).1 - 1).toNat then true
                        else n.resized_vts j })) := by
  have hr : resized_read (get_active_terminal k n).2.resized_vts
      ((get_active_terminal k n).1 - 1) = some false := by
    unfold resized_read MAX_NR_CONSOLES
    rw [(get_active_terminal_vars k n).2.2.1, if_pos (by omega), hflag]
  have ha : ¬ (get_active_terminal k n).1 < 0 := by omega
  have hb : ¬ (get_active_terminal k n).1 > ((MAX_NR_CONSOLES : Nat) : Int) - 1 := by
    unfold MAX_NR_CONSOLES; omega
  have hv := shrink_prepared_vars k _ n1 hp
  have hw : resized_write n1.resized_vts (n1.current_vt - 1)
      = some (fun j => if j = ((get_active_terminal k n).1 - 1).toNat then true
          else n.resized_vts j) := by
    unfold resized_write MAX_NR_CONSOLES
    rw [hv.1, hv.2.1, (get_active_terminal_vars k n).2.2.1, if_pos (by omega)]
  have hprep : (if (get_active_terminal k n).1 ≠ (get_active_terminal k n).2.current_vt then
          match reopen_current_terminal k (get_active_terminal k n).2 with
          | (false, n1) => (false, n1)
          | (true, n1) => (true, { n1 with current_vt := (get_active_terminal k n).1 })
        else (true, (get_active_terminal k n).2)) = (true, n1) := by
    rcases hp with ⟨e1, e2⟩ | ⟨e1, n0, e2, e3⟩
    · simp only [e1, ne_eq, not_true_eq_false, ↓reduceIte, e2]
    · simp only [e1, ne_eq, not_false_eq_true, ↓reduceIte, e2, e3]
  unfold bb_terminal_shrink_current
  simp only [ha, hb, or_self, ↓reduceIte, hr, hprep, Bool.not_true, Bool.false_eq_true]
  refine ⟨?_, ?_, ?_⟩
  · intro hs
    rw [hs]
  · intro s1 hs
    rw [hs]
  · intro s1 hs
    rw [hs]
    simp only [hw]

/-- Every run of `bb_terminal_shrink_current` takes one of its branches. -/
theorem shrink_current_cases {ε : Type} (k : Kernel ε) (fuel : Nat) (n : Negotiator ε) :
    ((get_active_terminal k n).1 < 0 ∧
      bb_terminal_shrink_current k fuel n
        = Run.done (ShrinkExit.query_failed, (get_active_terminal k n).2)) ∨
    ((get_active_terminal k n).1 > 62 ∧
      bb_terminal_shrink_current k fuel n
        = Run.done (ShrinkExit.index_rejected, (get_active_terminal k n).2)) ∨
    ((get_active_terminal k n).1 = 0 ∧
      bb_terminal_shrink_current k fuel n = Run.fault (-1)) ∨
    (1 ≤ (get_active_terminal k n).1 ∧ (get_active_terminal k n).1 ≤ 62 ∧
      n.resized_vts ((get_active_terminal k n).1 - 1).toNat = true ∧
      bb_terminal_shrink_current k fuel n
        = Run.done (ShrinkExit.already_resized, (get_active_terminal k n).2)) ∨
    (1 ≤ (get_active_terminal k n).1 ∧ (get_active_terminal k n).1 ≤ 62 ∧
      n.resized_vts ((get_active_terminal k n).1 - 1).toNat = false ∧
      (get_active_terminal k n).1 ≠ (get_active_terminal k n).2.current_vt ∧
      ∃ n1, reopen_current_terminal k (get_active_terminal k n).2 = (false, n1) ∧
        bb_terminal_shrink_current k fuel n = Run.done (ShrinkExit.reopen_failed, n1)) ∨
    (1 ≤ (get_active_terminal k n).1 ∧ (get_active_terminal k n).1 ≤ 62 ∧
      n.resized_vts ((get_active_terminal k n).1 - 1).toNat = false ∧
      ∃ n1, shrink_prepared k (get_active_terminal k n) n1 ∧
        ((shrink_terminal (k.tty n1.current_fd) n1.height_factor fuel n1.st = none ∧
            bb_terminal_shrink_current k fuel n = Run.no_fuel) ∨
          (∃ s1, shrink_terminal (k.tty n1.current_fd) n1.height_factor fuel n1.st
              = some (false, s1) ∧
            bb_terminal_shrink_current k fuel n
              = Run.done (ShrinkExit.shrink_failed, { n1 with st := s1 })) ∨
          (∃ s1, shrink_terminal (k.tty n1.current_fd) n1.height_factor fuel n1.st
              = some (true, s1) ∧
            bb_terminal_shrink_current k fuel n
              = Run.done (ShrinkExit.resized,
                  { n1 with st := s1,
                            resized_vts := fun j =>
                              if j = ((get_active_terminal k n).1 - 1).toNat then true
                              else n.resized_vts j })))) := by
  by_cases hneg : (get_active_terminal k n).1 < 0
  · exact Or.inl ⟨hneg, shrink_current_query_failed k fuel n hneg⟩
  by_cases hbig : (get_active_terminal k n).1 > 62
  · exact Or.inr (Or.inl ⟨hbig, shrink_current_index_rejected k fuel n hbig⟩)
  by_cases hzero : (get_active_terminal k n).1 = 0
  · exact Or.inr (Or.inr (Or.inl ⟨hzero, shrink_current_fault k fuel n hzero⟩))
  have h1 : 1 ≤ (get_active_terminal k n).1 := by omega
  have h2 : (get_active_terminal k n).1 ≤ 62 := by omega
  by_cases hflag : n.resized_vts ((get_active_terminal k n).1 - 1).toNat = true
  · exact Or.inr (Or.inr (Or.inr (Or.inl
      ⟨h1, h2, hflag, shrink_current_already k fuel n h1 h2 hflag⟩)))
  · rw [Bool.not_eq_true] at hflag
    have hcases : ((get_active_terminal k n).1 ≠ (get_active_terminal k n).2.current_vt ∧
          ∃ n1, reopen_current_terminal k (get_active_terminal k n).2 = (false, n1)) ∨
        ∃ n1, shrink_prepared k (get_active_terminal k n) n1 := by
      by_cases hcur : (get_active_terminal k n).1 = (get_active_terminal k n).2.current_vt
      · exact Or.inr ⟨_, Or.inl ⟨hcur, rfl⟩⟩
      · cases hre : (reopen_current_terminal k (get_active_terminal k n).2).1 with
        | false => exact Or.inl ⟨hcur, _, Prod.ext hre rfl⟩
        | true => exact Or.inr ⟨_, Or.inr ⟨hcur, _, Prod.ext hre rfl, rfl⟩⟩
    rcases hcases with ⟨hcur, n1, hre⟩ | ⟨n1, hp⟩
    · exact Or.inr (Or.inr (Or.inr (Or.inr (Or.inl ⟨h1, h2, hflag, hcur, n1, hre,
        shrink_current_reopen_failed k fuel n n1 h1 h2 hflag hcur hre⟩))))
    · obtain ⟨r1, r2, r3⟩ := shrink_current_prepared_run k fuel n n1 h1 h2 hflag hp
      refine Or.inr (Or.inr (Or.inr (Or.inr (Or.inr ⟨h1, h2, hflag, n1, hp, ?_⟩))))
      cases hs : shrink_terminal (k.tty n1.current_fd) n1.height_factor fuel n1.st with
      | none => exact Or.inl ⟨rfl, r1 hs⟩
      | some r =>
        obtain ⟨b, s1⟩ := r
        cases b with
        | false => exact Or.inr (Or.inl ⟨s1, rfl, r2 s1 hs⟩)
        | true => exact Or.inr (Or.inr ⟨s1, rfl, r3 s1 hs⟩)

theorem get_active_terminal_ok {ε : Type} (k : Kernel ε) (n : Negotiator ε) (v : Nat) (e : ε)
    (hq : k.vt_getstate n.st.dev.env n.current_fd = (some v, e)) :
    get_active_terminal k n
      = ((v : Int), { n with st := { n.st with dev :=
          { env := e, calls := n.st.dev.calls ++ [Syscall.vt_getstate n.current_fd (some v)] } } }) := by
  unfold get_active_terminal
  rw [hq]

theorem get_active_terminal_failed {ε : Type} (k : Kernel ε) (n : Negotiator ε) (e : ε)
    (hq : k.vt_getstate n.st.dev.env n.current_fd = (none, e)) :
    get_active_terminal k n
      = (-1, { n with st := { n.st with
          dev := { env := e, calls := n.st.dev.calls ++ [Syscall.vt_getstate n.current_fd none] },
          errno := some Errno.EOTHER } }) := by
  unfold get_active_terminal
  rw [hq]

/-- After a run of `bb_terminal_shrink_current` that ended at "resized", the
flag of the current terminal is set and its number is between 1 and 62. -/
theorem shrink_current_resized_flag {ε : Type} (k : Kernel ε) (fuel : Nat)
    (n0 n : Negotiator ε)
    (h : bb_terminal_shrink_current k fuel n0 = Run.done (ShrinkExit.resized, n)) :
    1 ≤ n.current_vt ∧ n.current_vt ≤ 62 ∧ n.resized_vts (n.current_vt - 1).toNat = true := by
  rcases shrink_current_cases k fuel n0 with
    ⟨_, hr⟩ | ⟨_, hr⟩ | ⟨_, hr⟩ | ⟨_, _, _, hr⟩ | ⟨_, _, _, _, _, _, hr⟩ |
    ⟨h1, h2, _, n1, hp, hr⟩
  · rw [hr] at h; cases h
  · rw [hr] at h; cases h
  · rw [hr] at h; cases h
  · rw [hr] at h; cases h
  · rw [hr] at h; cases h
  · have hv := shrink_prepared_vars k _ n1 hp
    rcases hr with ⟨_, hr⟩ | ⟨s1, _, hr⟩ | ⟨s1, _, hr⟩
    · rw [hr] at h; cases h
    · rw [hr] at h; cases h
    · rw [hr] at h
      simp only [Run.done.injEq, Prod.mk.injEq, true_and] at h
      rw [← h]
      simp only [hv.1]
      exact ⟨h1, h2, by simp⟩

/-! ## Claims on Shrink and RestoreAll -/

/-- C12: Shrink is a no-op on a terminal whose flag is set. When the query
answers the active terminal `v` (1 ≤ v ≤ 62) and `resized_vts[v - 1]` is set,
`bb_terminal_shrink_current` returns at "already resized" and leaves the
negotiator as it was but for the record of the query: it makes no get-size or
set-size call, no open or close, and changes no flag, `current_fd`,
`current_vt` or `height_factor`. Hence after a run that ended with the
terminal resized and its flag set, a second run for the same active terminal
is such a no-op: the resize is performed only once. -/
theorem C12_shrink_idempotent {ε : Type} (k : Kernel ε) (fuel : Nat) (n : Negotiator ε)
    (v : Nat) (e : ε)
    (hq : k.vt_getstate n.st.dev.env n.current_fd = (some v, e)) :
    (1 ≤ v → v ≤ 62 → n.resized_vts (v - 1) = true →
      bb_terminal_shrink_current k fuel n
        = Run.done (ShrinkExit.already_resized,
            { n with st := { n.st with dev :=
              { env := e,
                calls := n.st.dev.calls ++ [Syscall.vt_getstate n.current_fd (some v)] } } })) ∧
    (∀ (n0 : Negotiator ε) (fuel0 : Nat),
      bb_terminal_shrink_current k fuel0 n0 = Run.done (ShrinkExit.resized, n) →
      (v : Int) = n.current_vt →
      bb_terminal_shrink_current k fuel n
        = Run.done (ShrinkExit.already_resized,
            { n with st := { n.st with dev :=
              { env := e,
                calls := n.st.dev.calls ++ [Syscall.vt_getstate n.current_fd (some v)] } } })) := by
  have hg := get_active_terminal_ok k n v e hq
  have hrun : 1 ≤ v → v ≤ 62 → n.resized_vts (v - 1) = true →
      bb_terminal_shrink_current k fuel n
        = Run.done (ShrinkExit.already_resized,
            { n with st := { n.st with dev :=
              { env := e,
                calls := n.st.dev.calls ++ [Syscall.vt_getstate n.current_fd (some v)] } } }) := by
    intro h1 h2 hflag
    have := shrink_current_already k fuel n (by rw [hg]; simp only; omega)
      (by rw [hg]; simp only; omega)
      (by
        rw [hg]
        simp only
        have : ((v : Int) - 1).toNat = v - 1 := by omega
        rw [this]
        exact hflag)
    rw [this, hg]
  refine ⟨hrun, ?_⟩
  intro n0 fuel0 hfirst hv
  obtain ⟨f1, f2, f3⟩ := shrink_current_resized_flag k fuel0 n0 n hfirst
  rw [← hv] at f1 f2 f3
  have : ((v : Int) - 1).toNat = v - 1 := by omega
  rw [this] at f3
  exact hrun (by omega) (by omega) f3

/-- C12 on the kernel with terminals of at most 30 rows: after the first
Shrink of terminal 1 the second run returns at "already resized". -/
theorem C12_shrink_idempotent_witness :
    bb_terminal_shrink_current (bounded_kernel 30) USHRT (demo_shrunk 30 30 2 3)
      = Run.done (ShrinkExit.already_resized,
          { demo_shrunk 30 30 2 3 with st := { (demo_shrunk 30 30 2 3).st with dev :=
            { env := (demo_shrunk 30 30 2 3).st.dev.env,
              calls := (demo_shrunk 30 30 2 3).st.dev.calls ++
                [Syscall.vt_getstate (demo_shrunk 30 30 2 3).current_fd (some 1)] } } }) :=
  (C12_shrink_idempotent (bounded_kernel 30) USHRT (demo_shrunk 30 30 2 3) 1
    (demo_shrunk 30 30 2 3).st.dev.env rfl).2 (demo_init 30 30 2 3) USHRT rfl rfl

/-! ## Lemmas on Maximize and Shrink: sizes and requests -/

/-- The downward loop changes only the row count of the size record. -/
theorem reset_down_loop_fields {τ : Type} (tty : Tty τ) :
    ∀ (k : Nat) (size : winsize) (s : TermState τ),
      (reset_down_loop tty k size s).1.ws_col = size.ws_col ∧
      (reset_down_loop tty k size s).1.ws_xpixel = size.ws_xpixel ∧
      (reset_down_loop tty k size s).1.ws_ypixel = size.ws_ypixel := by
  intro k
  induction k with
  | zero => intro size s; exact ⟨rfl, rfl, rfl⟩
  | succ k ih =>
    intro size s
    unfold reset_down_loop
    simp only
    split_ifs
    · exact ⟨rfl, rfl, rfl⟩
    · exact ih _ _
    · exact ⟨rfl, rfl, rfl⟩

/-- The upward loop changes only the row count of the size record. -/
theorem reset_up_loop_fields {τ : Type} (tty : Tty τ) :
    ∀ (fuel : Nat) (size size3 : winsize) (s s3 : TermState τ),
      reset_up_loop tty fuel size s = some (size3, s3) →
      size3.ws_col = size.ws_col ∧ size3.ws_xpixel = size.ws_xpixel ∧
      size3.ws_ypixel = size.ws_ypixel := by
  intro fuel
  induction fuel with
  | zero => intro size size3 s s3 h; simp [reset_up_loop] at h
  | succ fuel ih =>
    intro size size3 s s3 h
    unfold reset_up_loop at h
    simp only at h
    split_ifs at h
    · have h2 := ih _ _ _ _ h
      exact h2
    · simp only [Option.some.injEq, Prod.mk.injEq] at h
      rw [← h.1]
      exact ⟨rfl, rfl, rfl⟩

theorem pair_of_fst {α β : Type} (p : α × β) (a : α) (h : p.1 = a) : p = (a, p.2) := by
  rw [← h]

/-- The size returned by Maximize has the columns and pixel sizes that the
get-size call read. -/
theorem reset_terminal_fields {τ : Type} (tty : Tty τ) (hf : HeightFactor) (fuel : Nat)
    (s s0 s2 : TermState τ) (size size0 M : winsize) (b : Bool)
    (hget : get_terminal_size tty s size = (true, size0, s0))
    (h : reset_terminal tty hf fuel s size = some (b, M, s2)) :
    M.ws_col = size0.ws_col ∧ M.ws_xpixel = size0.ws_xpixel ∧ M.ws_ypixel = size0.ws_ypixel := by
  cases hp : (set_terminal_size tty s0 { size0 with ws_row := (size0.ws_row + 2) % USHRT }).1 with
  | false =>
    rw [reset_terminal_probe_failed tty hf fuel s s0 _ size size0 hget (pair_of_fst _ _ hp)] at h
    simp only [Option.some.injEq, Prod.mk.injEq] at h
    rw [← h.2.1]
    exact ⟨rfl, rfl, rfl⟩
  | true =>
    have hprobe := pair_of_fst _ _ hp
    cases hc : (set_terminal_size tty
        (set_terminal_size tty s0 { size0 with ws_row := (size0.ws_row + 2) % USHRT }).2
        { size0 with ws_row := hf.div_floor ((size0.ws_row + 2) % USHRT) % USHRT }).1 with
    | false =>
      have hcand := pair_of_fst _ _ hc
      by_cases herr : (set_terminal_size tty
          (set_terminal_size tty s0 { size0 with ws_row := (size0.ws_row + 2) % USHRT }).2
          { size0 with ws_row := hf.div_floor ((size0.ws_row + 2) % USHRT) % USHRT }).2.errno
            = some Errno.EINVAL
      · rw [reset_terminal_downward tty hf fuel s s0 _ _ size size0 hget hprobe hcand herr _ rfl]
          at h
        have hd := reset_down_loop_fields tty
          (ushrt_sub (hf.div_floor ((size0.ws_row + 2) % USHRT) % USHRT) 1)
          { size0 with ws_row := hf.div_floor ((size0.ws_row + 2) % USHRT) % USHRT }
          (set_terminal_size tty
            (set_terminal_size tty s0 { size0 with ws_row := (size0.ws_row + 2) % USHRT }).2
            { size0 with ws_row := hf.div_floor ((size0.ws_row + 2) % USHRT) % USHRT }).2
        split_ifs at h <;>
        · simp only [Option.some.injEq, Prod.mk.injEq] at h
          rw [← h.2.1]
          exact hd
      · rw [reset_terminal_candidate_failed tty hf fuel s s0 _ _ size size0 hget hprobe hcand
          herr] at h
        simp only [Option.some.injEq, Prod.mk.injEq] at h
        rw [← h.2.1]
        exact ⟨rfl, rfl, rfl⟩
    | true =>
      have hcand := pair_of_fst _ _ hc
      cases hu : reset_up_loop tty fuel
          { size0 with ws_row := hf.div_floor ((size0.ws_row + 2) % USHRT) % USHRT }
          (set_terminal_size tty
            (set_terminal_size tty s0 { size0 with ws_row := (size0.ws_row + 2) % USHRT }).2
            { size0 with ws_row := hf.div_floor ((size0.ws_row + 2) % USHRT) % USHRT }).2 with
      | none =>
        rw [reset_terminal_upward_none tty hf fuel s s0 _ _ size size0 hget hprobe hcand hu] at h
        cases h
      | some u =>
        obtain ⟨size3, s3⟩ := u
        rw [reset_terminal_upward tty hf fuel s s0 _ _ s3 size size0 size3 hget hprobe hcand hu]
          at h
        have hfu := reset_up_loop_fields tty fuel _ size3 _ s3 hu
        split_ifs at h <;>
        · simp only [Option.some.injEq, Prod.mk.injEq] at h
          rw [← h.2.1]
          exact hfu

/-- Shrink of one terminal after a successful Maximize: exactly one further
set-size call, for the size returned by Maximize with
`floor(rows * height_factor)` rows; its result is the result of Shrink. -/
theorem shrink_terminal_of_maximized {τ : Type} (tty : Tty τ) (hf : HeightFactor) (fuel : Nat)
    (s s1 : TermState τ) (M : winsize)
    (h : reset_terminal tty hf fuel s winsize.zero = some (true, M, s1)) :
    shrink_terminal tty hf fuel s
      = some (set_terminal_size tty s1 { M with ws_row := hf.mul_floor M.ws_row % USHRT }) := by
  unfold shrink_terminal
  unfold winsize.zero at h
  rw [h]
  simp only
  split <;> rename_i heq <;> rw [heq]

/-- Shrink of one terminal after a failed Maximize: no further call. -/
theorem shrink_terminal_of_failed {τ : Type} (tty : Tty τ) (hf : HeightFactor) (fuel : Nat)
    (s s1 : TermState τ) (M : winsize)
    (h : reset_terminal tty hf fuel s winsize.zero = some (false, M, s1)) :
    shrink_terminal tty hf fuel s = some (false, s1) := by
  unfold shrink_terminal
  unfold winsize.zero at h
  rw [h]

/-- Shrink of one terminal when Maximize runs out of fuel. -/
theorem shrink_terminal_of_none {τ : Type} (tty : Tty τ) (hf : HeightFactor) (fuel : Nat)
    (s : TermState τ)
    (h : reset_terminal tty hf fuel s winsize.zero = none) :
    shrink_terminal tty hf fuel s = none := by
  unfold shrink_terminal
  unfold winsize.zero at h
  rw [h]

theorem set_terminal_size_sets {τ : Type} (tty : Tty τ) (s : TermState τ) (size : winsize) :
    (set_terminal_size tty s size).2.sets = s.sets ++ [size] ∧
    (set_terminal_size tty s size).2.gets = s.gets := by
  unfold set_terminal_size
  split <;> exact ⟨rfl, rfl⟩

theorem bb_terminal_init_factor {ε : Type} (k : Kernel ε) (factor : HeightFactor)
    (n0 n : Negotiator ε) (h : bb_terminal_init k factor n0 = (true, n)) :
    n.height_factor = factor := by
  unfold bb_terminal_init at h
  split at h
  · simp at h
  · simp only at h
    split_ifs at h
    · simp at h
    · simp only [Prod.mk.injEq, true_and] at h
      rw [← h]

theorem get_terminal_size_tty_ok {ε : Type} (k : Kernel ε) (fd : Int) (s : TermState (Sys ε))
    (size d : winsize) (e : ε) (h : k.tiocgwinsz s.dev.env fd = (Except.ok d, e)) :
    get_terminal_size (k.tty fd) s size
      = (true, d, { s with dev := { env := e,
                                    calls := s.dev.calls ++ [Syscall.tiocgwinsz fd (Except.ok d)] },
                           gets := s.gets + 1 }) := by
  unfold get_terminal_size Kernel.tty
  simp only [h]

/-- C13: a Shrink of a terminal whose flag is not set first runs Maximize and
then makes exactly one more set-size call. When the query answers the active
terminal (1 to 62, flag not set), the terminal is prepared as `n1`, the
get-size call of Maximize reads the size `d` and Maximize returns success with
the size `M`, then `bb_terminal_shrink_current` returns, and the requests
made are those of Maximize followed by one request of
`floor(M.ws_row * height_factor)` rows (as an unsigned short) with the columns
and pixel sizes of `d`; the factor is the one stored by `bb_terminal_init`. -/
theorem C13_shrink_request {ε : Type} (k : Kernel ε) (fuel : Nat) (n n1 : Negotiator ε)
    (d M : winsize) (e : ε) (s1 : TermState (Sys ε))
    (h1 : 1 ≤ (get_active_terminal k n).1) (h2 : (get_active_terminal k n).1 ≤ 62)
    (hflag : n.resized_vts ((get_active_terminal k n).1 - 1).toNat = false)
    (hp : shrink_prepared k (get_active_terminal k n) n1)
    (hget : k.tiocgwinsz n1.st.dev.env n1.current_fd = (Except.ok d, e))
    (hmax : reset_terminal (k.tty n1.current_fd) n.height_factor fuel n1.st winsize.zero
      = some (true, M, s1)) :
    (∃ x n2, bb_terminal_shrink_current k fuel n = Run.done (x, n2) ∧
      n2.st.sets = s1.sets ++
        [{ ws_row := n.height_factor.mul_floor M.ws_row % USHRT, ws_col := d.ws_col,
           ws_xpixel := d.ws_xpixel, ws_ypixel := d.ws_ypixel }] ∧
      n2.st.gets = s1.gets) ∧
    (∀ (n0 : Negotiator ε) (factor : HeightFactor),
      bb_terminal_init k factor n0 = (true, n) → n.height_factor = factor) := by
  refine ⟨?_, fun n0 factor hi => bb_terminal_init_factor k factor n0 n hi⟩
  have hv := shrink_prepared_vars k _ n1 hp
  have hfac : n1.height_factor = n.height_factor := by
    rw [hv.2.2.1, (get_active_terminal_vars k n).2.2.2.1]
  rw [← hfac] at hmax
  have hfields := reset_terminal_fields (k.tty n1.current_fd) n1.height_factor fuel n1.st _ s1
    winsize.zero d M true (get_terminal_size_tty_ok k n1.current_fd n1.st winsize.zero d e hget)
    hmax
  have hsh := shrink_terminal_of_maximized (k.tty n1.current_fd) n1.height_factor fuel n1.st s1 M
    hmax
  have hreq : ({ M with ws_row := n1.height_factor.mul_floor M.ws_row % USHRT } : winsize)
      = { ws_row := n.height_factor.mul_floor M.ws_row % USHRT, ws_col := d.ws_col,
          ws_xpixel := d.ws_xpixel, ws_ypixel := d.ws_ypixel } := by
    rw [hfac, ← hfields.1, ← hfields.2.1, ← hfields.2.2]
  rw [hreq] at hsh
  obtain ⟨_, r2, r3⟩ := shrink_current_prepared_run k fuel n n1 h1 h2 hflag hp
  have hsets := set_terminal_size_sets (k.tty n1.current_fd) s1
    { ws_row := n.height_factor.mul_floor M.ws_row % USHRT, ws_col := d.ws_col,
      ws_xpixel := d.ws_xpixel, ws_ypixel := d.ws_ypixel }
  cases hb : (set_terminal_size (k.tty n1.current_fd) s1
      { ws_row := n.height_factor.mul_floor M.ws_row % USHRT, ws_col := d.ws_col,
        ws_xpixel := d.ws_xpixel, ws_ypixel := d.ws_ypixel }).1 with
  | false =>
    rw [pair_of_fst _ _ hb] at hsh
    exact ⟨_, _, r2 _ hsh, hsets.1, hsets.2⟩
  | true =>
    rw [pair_of_fst _ _ hb] at hsh
    exact ⟨_, _, r3 _ hsh, hsets.1, hsets.2⟩

/-- C13 on the kernel with terminals of at most 30 rows, terminal 1 at 20
rows, factor 2/3: Maximize returns 30 rows and the last request of Shrink is
20 rows with the 80 columns read from the terminal. -/
theorem C13_shrink_request_witness :
    ∃ x n2, bb_terminal_shrink_current (bounded_kernel 30) USHRT (demo_init 30 20 2 3)
        = Run.done (x, n2) ∧
      n2.st.sets.getLast? = some { ws_row := 20, ws_col := 80, ws_xpixel := 0, ws_ypixel := 0 } :=
  match (C13_shrink_request (bounded_kernel 30) USHRT (demo_init 30 20 2 3)
    (get_active_terminal (bounded_kernel 30) (demo_init 30 20 2 3)).2
    { ws_row := 20, ws_col := 80, ws_xpixel := 0, ws_ypixel := 0 }
    { ws_row := 30, ws_col := 80, ws_xpixel := 0, ws_ypixel := 0 }
    (get_active_terminal (bounded_kernel 30) (demo_init 30 20 2 3)).2.st.dev.env
    ((reset_terminal ((bounded_kernel 30).tty 0) (HeightFactor.exact 2 3) USHRT
      (get_active_terminal (bounded_kernel 30) (demo_init 30 20 2 3)).2.st winsize.zero).getD
        (false, winsize.zero,
          (get_active_terminal (bounded_kernel 30) (demo_init 30 20 2 3)).2.st)).2.2
    (by decide) (by decide) (by decide) (Or.inl ⟨rfl, rfl⟩) rfl rfl).1 with
  | ⟨x, n2, hrun, hsets, _⟩ => ⟨x, n2, hrun, by rw [hsets, List.getLast?_append]; rfl⟩

/-- Shrink of one terminal returns success exactly when Maximize returns
success and the final set-size call succeeds. -/
theorem shrink_terminal_true_iff {τ : Type} (tty : Tty τ) (hf : HeightFactor) (fuel : Nat)
    (s s2 : TermState τ) :
    shrink_terminal tty hf fuel s = some (true, s2) ↔
      ∃ (M : winsize) (s1 : TermState τ),
        reset_terminal tty hf fuel s winsize.zero = some (true, M, s1) ∧
        set_terminal_size tty s1 { M with ws_row := hf.mul_floor M.ws_row % USHRT }
          = (true, s2) := by
  constructor
  · intro h
    cases hr : reset_terminal tty hf fuel s winsize.zero with
    | none =>
      rw [shrink_terminal_of_none tty hf fuel s hr] at h
      cases h
    | some r =>
      obtain ⟨b, M, s1⟩ := r
      cases b with
      | false =>
        rw [shrink_terminal_of_failed tty hf fuel s s1 M hr] at h
        simp at h
      | true =>
        rw [shrink_terminal_of_maximized tty hf fuel s s1 M hr] at h
        exact ⟨M, s1, rfl, Option.some.inj h⟩
  · rintro ⟨M, s1, hr, hset⟩
    rw [shrink_terminal_of_maximized tty hf fuel s s1 M hr, hset]

/-- C14: `bb_terminal_shrink_current` sets the flag of the active terminal if
and only if the whole shrink succeeded. For every run that returns: it ends at
"resized" exactly when the query answered a terminal (1 to 62) whose flag was
not set, the terminal was prepared, Maximize returned success and the final
set-size call succeeded; then the flag with index `current_vt - 1` is set and
no other flag changes. In every other case (query failed, number rejected,
flag already set, reopen failed, Maximize or the final set-size failed) no
flag changes. -/
theorem C14_flag_iff_shrink_succeeded {ε : Type} (k : Kernel ε) (fuel : Nat)
    (n n2 : Negotiator ε) (x : ShrinkExit)
    (h : bb_terminal_shrink_current k fuel n = Run.done (x, n2)) :
    (x = ShrinkExit.resized ↔ shrink_succeeded k fuel n n2.st) ∧
    (x = ShrinkExit.resized →
      n2.resized_vts
        = (fun j => if j = (n2.current_vt - 1).toNat then true else n.resized_vts j) ∧
      n2.current_vt = (get_active_terminal k n).1) ∧
    (x ≠ ShrinkExit.resized → n2.resized_vts = n.resized_vts) := by
  have hgv := get_active_terminal_vars k n
  rcases shrink_current_cases k fuel n with
    ⟨c1, hr⟩ | ⟨c1, hr⟩ | ⟨_, hr⟩ | ⟨c1, c2, c3, hr⟩ | ⟨c1, c2, c3, c4, n1, c5, hr⟩ |
    ⟨c1, c2, c3, n1, hp, hr⟩
  · rw [hr] at h
    simp only [Run.done.injEq, Prod.mk.injEq] at h
    obtain ⟨hx, hn⟩ := h
    subst hx
    refine ⟨⟨fun hx => (by cases hx), fun hs => ?_⟩, fun hx => (by cases hx), fun _ => ?_⟩
    · have := hs.1
      omega
    · rw [← hn]; exact hgv.2.2.1
  · rw [hr] at h
    simp only [Run.done.injEq, Prod.mk.injEq] at h
    obtain ⟨hx, hn⟩ := h
    subst hx
    refine ⟨⟨fun hx => (by cases hx), fun hs => ?_⟩, fun hx => (by cases hx), fun _ => ?_⟩
    · have := hs.2.1
      omega
    · rw [← hn]; exact hgv.2.2.1
  · rw [hr] at h
    cases h
  · rw [hr] at h
    simp only [Run.done.injEq, Prod.mk.injEq] at h
    obtain ⟨hx, hn⟩ := h
    subst hx
    refine ⟨⟨fun hx => (by cases hx), fun hs => ?_⟩, fun hx => (by cases hx), fun _ => ?_⟩
    · have := hs.2.2.1
      rw [c3] at this
      cases this
    · rw [← hn]; exact hgv.2.2.1
  · rw [hr] at h
    simp only [Run.done.injEq, Prod.mk.injEq] at h
    obtain ⟨hx, hn⟩ := h
    subst hx
    have hre := reopen_current_terminal_vars k (get_active_terminal k n).2
    rw [c5] at hre
    refine ⟨⟨fun hx => (by cases hx), fun hs => ?_⟩, fun hx => (by cases hx), fun _ => ?_⟩
    · obtain ⟨_, _, _, m1, M, s1, hpm, _, _⟩ := hs
      rcases hpm with ⟨e1, _⟩ | ⟨_, m0, e2, _⟩
      · exact absurd e1 c4
      · rw [c5] at e2
        simp at e2
    · rw [← hn, hre.2.1]; exact hgv.2.2.1
  · have hv := shrink_prepared_vars k _ n1 hp
    rcases hr with ⟨hnone, hr⟩ | ⟨s1, hs1, hr⟩ | ⟨s1, hs1, hr⟩
    · rw [hr] at h
      cases h
    · rw [hr] at h
      simp only [Run.done.injEq, Prod.mk.injEq] at h
      obtain ⟨hx, hn⟩ := h
      subst hx
      refine ⟨⟨fun hx => (by cases hx), fun hs => ?_⟩, fun hx => (by cases hx), fun _ => ?_⟩
      · obtain ⟨_, _, _, m1, M, t1, hpm, hmax, hset⟩ := hs
        have hsame : m1 = n1 := by
          rcases hpm with ⟨e1, e2⟩ | ⟨e1, m0, e2, e3⟩ <;>
            rcases hp with ⟨f1, f2⟩ | ⟨f1, p0, f2, f3⟩
          · rw [e2, f2]
          · exact absurd e1 f1
          · exact absurd f1 e1
          · rw [e2] at f2
            simp only [Prod.mk.injEq, true_and] at f2
            rw [e3, f3, f2]
        subst hsame
        have := (shrink_terminal_true_iff (k.tty m1.current_fd) m1.height_factor fuel m1.st
          n2.st).2 ⟨M, t1, hmax, hset⟩
        rw [hs1] at this
        simp at this
      · rw [← hn]
        simp only
        rw [hv.2.1]; exact hgv.2.2.1
    · rw [hr] at h
      simp only [Run.done.injEq, Prod.mk.injEq] at h
      obtain ⟨hx, hn⟩ := h
      subst hx
      refine ⟨⟨fun _ => ?_, fun _ => rfl⟩, fun _ => ?_, fun hx => absurd rfl hx⟩
      · obtain ⟨M, t1, hmax, hset⟩ := (shrink_terminal_true_iff (k.tty n1.current_fd)
          n1.height_factor fuel n1.st s1).1 hs1
        refine ⟨c1, c2, c3, n1, M, t1, hp, hmax, ?_⟩
        rw [← hn]
        exact hset
      · rw [← hn]
        simp only [hv.1]
        exact ⟨trivial, trivial⟩

/-- C14 on the kernel with terminals of at most 30 rows: the first Shrink of
terminal 1 succeeds as a whole and sets exactly the flag with index 0. -/
theorem C14_flag_iff_shrink_succeeded_witness :
    shrink_succeeded (bounded_kernel 30) USHRT (demo_init 30 30 2 3) (demo_shrunk 30 30 2 3).st ∧
    (demo_shrunk 30 30 2 3).resized_vts
      = (fun j => if j = ((demo_shrunk 30 30 2 3).current_vt - 1).toNat then true
          else (demo_init 30 30 2 3).resized_vts j) :=
  have h := C14_flag_iff_shrink_succeeded (bounded_kernel 30) USHRT (demo_init 30 30 2 3)
    (demo_shrunk 30 30 2 3) ShrinkExit.resized rfl
  ⟨h.1.1 rfl, (h.2.1 rfl).1⟩

/-! ## Lemmas on Maximize: every run takes one of the branches -/

/-- Every run of `reset_terminal` takes one of its branches. -/
theorem reset_terminal_cases {τ : Type} (tty : Tty τ) (hf : HeightFactor) (fuel : Nat)
    (s : TermState τ) (size : winsize) :
    (∃ size0 s0, get_terminal_size tty s size = (false, size0, s0) ∧
      reset_terminal tty hf fuel s size = some (false, size0, s0)) ∨
    (∃ size0 s0 s1, get_terminal_size tty s size = (true, size0, s0) ∧
      set_terminal_size tty s0 { size0 with ws_row := (size0.ws_row + 2) % USHRT } = (false, s1) ∧
      reset_terminal tty hf fuel s size
        = some (decide (s1.errno = some Errno.EINVAL),
            { size0 with ws_row := ushrt_sub ((size0.ws_row + 2) % USHRT) 2 }, s1)) ∨
    (∃ size0 s0 s1 s2, get_terminal_size tty s size = (true, size0, s0) ∧
      set_terminal_size tty s0 { size0 with ws_row := (size0.ws_row + 2) % USHRT } = (true, s1) ∧
      set_terminal_size tty s1
        { size0 with ws_row := hf.div_floor ((size0.ws_row + 2) % USHRT) % USHRT } = (false, s2) ∧
      s2.errno ≠ some Errno.EINVAL ∧
      reset_terminal tty hf fuel s size
        = some (false,
            { size0 with ws_row := hf.div_floor ((size0.ws_row + 2) % USHRT) % USHRT }, s2)) ∨
    (∃ size0 s0 s1 s2, get_terminal_size tty s size = (true, size0, s0) ∧
      set_terminal_size tty s0 { size0 with ws_row := (size0.ws_row + 2) % USHRT } = (true, s1) ∧
      set_terminal_size tty s1
        { size0 with ws_row := hf.div_floor ((size0.ws_row + 2) % USHRT) % USHRT } = (false, s2) ∧
      s2.errno = some Errno.EINVAL ∧
      reset_terminal tty hf fuel s size
        = (if (reset_down_loop tty
                (ushrt_sub (hf.div_floor ((size0.ws_row + 2) % USHRT) % USHRT) 1)
                { size0 with ws_row := hf.div_floor ((size0.ws_row + 2) % USHRT) % USHRT }
                s2).2.errno ≠ some Errno.EINVAL ∨
              (reset_down_loop tty
                (ushrt_sub (hf.div_floor ((size0.ws_row + 2) % USHRT) % USHRT) 1)
                { size0 with ws_row := hf.div_floor ((size0.ws_row + 2) % USHRT) % USHRT }
                s2).1.ws_row = 0
           then some (false,
              (reset_down_loop tty
                (ushrt_sub (hf.div_floor ((size0.ws_row + 2) % USHRT) % USHRT) 1)
                { size0 with ws_row := hf.div_floor ((size0.ws_row + 2) % USHRT) % USHRT } s2).1,
              (reset_down_loop tty
                (ushrt_sub (hf.div_floor ((size0.ws_row + 2) % USHRT) % USHRT) 1)
                { size0 with ws_row := hf.div_floor ((size0.ws_row + 2) % USHRT) % USHRT } s2).2)
           else some (true,
              (reset_down_loop tty
                (ushrt_sub (hf.div_floor ((size0.ws_row + 2) % USHRT) % USHRT) 1)
                { size0 with ws_row := hf.div_floor ((size0.ws_row + 2) % USHRT) % USHRT } s2).1,
              (reset_down_loop tty
                (ushrt_sub (hf.div_floor ((size0.ws_row + 2) % USHRT) % USHRT) 1)
                { size0 with ws_row := hf.div_floor ((size0.ws_row + 2) % USHRT) % USHRT }
                s2).2))) ∨
    (∃ size0 s0 s1 s2, get_terminal_size tty s size = (true, size0, s0) ∧
      set_terminal_size tty s0 { size0 with ws_row := (size0.ws_row + 2) % USHRT } = (true, s1) ∧
      set_terminal_size tty s1
        { size0 with ws_row := hf.div_floor ((size0.ws_row + 2) % USHRT) % USHRT } = (true, s2) ∧
      reset_up_loop tty fuel
        { size0 with ws_row := hf.div_floor ((size0.ws_row + 2) % USHRT) % USHRT } s2 = none ∧
      reset_terminal tty hf fuel s size = none) ∨
    (∃ size0 s0 s1 s2 size3 s3, get_terminal_size tty s size = (true, size0, s0) ∧
      set_terminal_size tty s0 { size0 with ws_row := (size0.ws_row + 2) % USHRT } = (true, s1) ∧
      set_terminal_size tty s1
        { size0 with ws_row := hf.div_floor ((size0.ws_row + 2) % USHRT) % USHRT } = (true, s2) ∧
      reset_up_loop tty fuel
        { size0 with ws_row := hf.div_floor ((size0.ws_row + 2) % USHRT) % USHRT } s2
          = some (size3, s3) ∧
      reset_terminal tty hf fuel s size
        = (if s3.errno ≠ some Errno.EINVAL then some (false, size3, s3)
           else some (true, { size3 with ws_row := ushrt_sub size3.ws_row 1 }, s3))) := by
  rcases hg : get_terminal_size tty s size with ⟨gb, size0, s0⟩
  cases gb with
  | false =>
    exact Or.inl ⟨size0, s0, rfl, reset_terminal_get_failed tty hf fuel s s0 size size0 hg⟩
  | true =>
    rcases hp : set_terminal_size tty s0 { size0 with ws_row := (size0.ws_row + 2) % USHRT }
      with ⟨pb, s1⟩
    cases pb with
    | false =>
      exact Or.inr (Or.inl ⟨size0, s0, s1, rfl, hp,
        reset_terminal_probe_failed tty hf fuel s s0 s1 size size0 hg hp⟩)
    | true =>
      rcases hc : set_terminal_size tty s1
        { size0 with ws_row := hf.div_floor ((size0.ws_row + 2) % USHRT) % USHRT } with ⟨cb, s2⟩
      cases cb with
      | false =>
        by_cases herr : s2.errno = some Errno.EINVAL
        · exact Or.inr (Or.inr (Or.inr (Or.inl ⟨size0, s0, s1, s2, rfl, hp, hc, herr,
            reset_terminal_downward tty hf fuel s s0 s1 s2 size size0 hg hp hc herr _ rfl⟩)))
        · exact Or.inr (Or.inr (Or.inl ⟨size0, s0, s1, s2, rfl, hp, hc, herr,
            reset_terminal_candidate_failed tty hf fuel s s0 s1 s2 size size0 hg hp hc herr⟩))
      | true =>
        cases hu : reset_up_loop tty fuel
            { size0 with ws_row := hf.div_floor ((size0.ws_row + 2) % USHRT) % USHRT } s2 with
        | none =>
          exact Or.inr (Or.inr (Or.inr (Or.inr (Or.inl ⟨size0, s0, s1, s2, rfl, hp, hc, hu,
            reset_terminal_upward_none tty hf fuel s s0 s1 s2 size size0 hg hp hc hu⟩))))
        | some u =>
          obtain ⟨size3, s3⟩ := u
          exact Or.inr (Or.inr (Or.inr (Or.inr (Or.inr ⟨size0, s0, s1, s2, size3, s3, rfl, hp,
            hc, hu,
            reset_terminal_upward tty hf fuel s s0 s1 s2 s3 size size0 size3 hg hp hc hu⟩))))

/-! ## Lemmas on Maximize: termination -/

theorem set_terminal_size_fst {τ : Type} (tty : Tty τ) (s : TermState τ) (size : winsize) :
    ((set_terminal_size tty s size).1 = true ↔ (tty.tiocswinsz s.dev size).1 = none) ∧
    ((set_terminal_size tty s size).1 = false →
      (set_terminal_size tty s size).2.errno = (tty.tiocswinsz s.dev size).1) ∧
    ((set_terminal_size tty s size).1 = true →
      (set_terminal_size tty s size).2.errno = s.errno) ∧
    (set_terminal_size tty s size).2.dev = (tty.tiocswinsz s.dev size).2 := by
  unfold set_terminal_size
  split <;> rename_i heq <;> simp [heq]

/-- The downward loop makes at most as many set-size calls as its starting
row count. -/
theorem reset_down_loop_sets {τ : Type} (tty : Tty τ) :
    ∀ (k : Nat) (size : winsize) (s : TermState τ),
      (reset_down_loop tty k size s).2.sets.length ≤ s.sets.length + k := by
  intro k
  induction k with
  | zero => intro size s; exact Nat.le_refl _
  | succ k ih =>
    intro size s
    unfold reset_down_loop
    simp only
    have hs := (set_terminal_size_sets tty s { size with ws_row := k + 1 }).1
    split_ifs
    · rw [hs]; simp
    · have := ih { size with ws_row := k + 1 }
        (set_terminal_size tty s { size with ws_row := k + 1 }).2
      rw [hs] at this
      simp only [List.length_append, List.length_singleton] at this
      omega
    · rw [hs]; simp

/-- The upward loop ends when some row count `B` is never accepted: with more
fuel than the number of increments that lead to `B` it returns, after at most
that many set-size calls. -/
theorem reset_up_loop_terminates {τ : Type} (tty : Tty τ) (B : Nat) (hB : B < 65536)
    (hrej : ∀ (d : τ) (sz : winsize), sz.ws_row = B → (tty.tiocswinsz d sz).1 ≠ none) :
    ∀ (fuel : Nat) (size : winsize) (s : TermState τ), size.ws_row < 65536 →
      (B + 65535 - size.ws_row) % 65536 < fuel →
      ∃ u, reset_up_loop tty fuel size s = some u ∧
        u.2.sets.length ≤ s.sets.length + (B + 65535 - size.ws_row) % 65536 + 1 := by
  intro fuel
  induction fuel with
  | zero => intro size s _ h; omega
  | succ fuel ih =>
    intro size s hrow hfuel
    unfold reset_up_loop
    simp only
    have hs := (set_terminal_size_sets tty s
      { size with ws_row := (size.ws_row + 1) % USHRT }).1
    cases hacc : (set_terminal_size tty s { size with ws_row := (size.ws_row + 1) % USHRT }).1 with
    | false =>
      simp only [Bool.false_eq_true, ↓reduceIte]
      refine ⟨_, rfl, ?_⟩
      simp only
      rw [hs]
      simp only [List.length_append, List.length_singleton]
      omega
    | true =>
      simp only [↓reduceIte]
      have hnone := ((set_terminal_size_fst tty s
        { size with ws_row := (size.ws_row + 1) % USHRT }).1).1 hacc
      have hne : (size.ws_row + 1) % 65536 ≠ B := by
        intro hEq
        exact hrej s.dev { size with ws_row := (size.ws_row + 1) % USHRT } hEq hnone
      have hd : (B + 65535 - (size.ws_row + 1) % 65536) % 65536 + 1
          = (B + 65535 - size.ws_row) % 65536 := by
        omega
      have hih := ih { size with ws_row := (size.ws_row + 1) % USHRT }
        (set_terminal_size tty s { size with ws_row := (size.ws_row + 1) % USHRT }).2
      simp only [USHRT] at hih hs
      obtain ⟨u, hu, hlen⟩ := hih (by omega) (by omega)
      refine ⟨u, hu, ?_⟩
      rw [hs] at hlen
      simp only [List.length_append, List.length_singleton] at hlen
      omega

theorem get_terminal_size_sets {τ : Type} (tty : Tty τ) (s : TermState τ) (size : winsize) :
    (get_terminal_size tty s size).2.2.sets = s.sets ∧
    (get_terminal_size tty s size).2.2.gets = s.gets + 1 := by
  unfold get_terminal_size
  split <;> exact ⟨rfl, rfl⟩

/-- Maximize returns when some row count `B` is never accepted by the
set-size call: with fuel 65536 or more it returns after at most 65538 set-size
calls. -/
theorem reset_terminal_terminates {τ : Type} (tty : Tty τ) (B : Nat) (hB : B < 65536)
    (hrej : ∀ (d : τ) (sz : winsize), sz.ws_row = B → (tty.tiocswinsz d sz).1 ≠ none)
    (hf : HeightFactor) (fuel : Nat) (hfuel : 65536 ≤ fuel) (s : TermState τ) (size : winsize) :
    ∃ r, reset_terminal tty hf fuel s size = some r ∧
      r.2.2.sets.length ≤ s.sets.length + 65538 := by
  have hgs := (get_terminal_size_sets tty s size).1
  rcases reset_terminal_cases tty hf fuel s size with
    ⟨size0, s0, hg, hr⟩ | ⟨size0, s0, s1, hg, hp, hr⟩ | ⟨size0, s0, s1, s2, hg, hp, hc, _, hr⟩ |
    ⟨size0, s0, s1, s2, hg, hp, hc, _, hr⟩ | ⟨size0, s0, s1, s2, hg, hp, hc, hu, _⟩ |
    ⟨size0, s0, s1, s2, size3, s3, hg, hp, hc, hu, hr⟩
  · rw [hg] at hgs
    simp only at hgs
    exact ⟨_, hr, by simp only [hgs]; omega⟩
  · rw [hg] at hgs
    simp only at hgs
    have h1 := (set_terminal_size_sets tty s0
      { size0 with ws_row := (size0.ws_row + 2) % USHRT }).1
    rw [hp] at h1
    simp only at h1
    refine ⟨_, hr, ?_⟩
    simp only [h1, hgs, List.length_append, List.length_singleton]
    omega
  · rw [hg] at hgs
    simp only at hgs
    have h1 := (set_terminal_size_sets tty s0
      { size0 with ws_row := (size0.ws_row + 2) % USHRT }).1
    rw [hp] at h1
    have h2 := (set_terminal_size_sets tty s1
      { size0 with ws_row := hf.div_floor ((size0.ws_row + 2) % USHRT) % USHRT }).1
    rw [hc] at h2
    simp only at h1 h2
    refine ⟨_, hr, ?_⟩
    simp only [h2, h1, hgs, List.length_append, List.length_singleton]
    omega
  · rw [hg] at hgs
    simp only at hgs
    have h1 := (set_terminal_size_sets tty s0
      { size0 with ws_row := (size0.ws_row + 2) % USHRT }).1
    rw [hp] at h1
    have h2 := (set_terminal_size_sets tty s1
      { size0 with ws_row := hf.div_floor ((size0.ws_row + 2) % USHRT) % USHRT }).1
    rw [hc] at h2
    simp only at h1 h2
    have h3 := reset_down_loop_sets tty
      (ushrt_sub (hf.div_floor ((size0.ws_row + 2) % USHRT) % USHRT) 1)
      { size0 with ws_row := hf.div_floor ((size0.ws_row + 2) % USHRT) % USHRT } s2
    have hk : ushrt_sub (hf.div_floor ((size0.ws_row + 2) % USHRT) % USHRT) 1 ≤ 65535 := by
      unfold ushrt_sub USHRT
      split_ifs <;> omega
    rw [h2, h1, hgs] at h3
    simp only [List.length_append, List.length_singleton] at h3
    rw [hr]
    split_ifs
    · exact ⟨_, rfl, by simp only; omega⟩
    · exact ⟨_, rfl, by simp only; omega⟩
  · exfalso
    have hrow : ({ size0 with
        ws_row := hf.div_floor ((size0.ws_row + 2) % USHRT) % USHRT } : winsize).ws_row
          < 65536 := by
      show hf.div_floor ((size0.ws_row + 2) % USHRT) % 65536 < 65536
      omega
    obtain ⟨u, hu2, _⟩ := reset_up_loop_terminates tty B hB hrej fuel
      { size0 with ws_row := hf.div_floor ((size0.ws_row + 2) % USHRT) % USHRT } s2 hrow
      (by omega)
    rw [hu] at hu2
    cases hu2
  · rw [hg] at hgs
    simp only at hgs
    have h1 := (set_terminal_size_sets tty s0
      { size0 with ws_row := (size0.ws_row + 2) % USHRT }).1
    rw [hp] at h1
    have h2 := (set_terminal_size_sets tty s1
      { size0 with ws_row := hf.div_floor ((size0.ws_row + 2) % USHRT) % USHRT }).1
    rw [hc] at h2
    simp only at h1 h2
    have hrow : ({ size0 with
        ws_row := hf.div_floor ((size0.ws_row + 2) % USHRT) % USHRT } : winsize).ws_row
          < 65536 := by
      show hf.div_floor ((size0.ws_row + 2) % USHRT) % 65536 < 65536
      omega
    obtain ⟨u, hu2, hlen⟩ := reset_up_loop_terminates tty B hB hrej fuel
      { size0 with ws_row := hf.div_floor ((size0.ws_row + 2) % USHRT) % USHRT } s2 hrow
      (by omega)
    rw [hu] at hu2
    simp only [Option.some.injEq] at hu2
    rw [← hu2, h2, h1, hgs] at hlen
    simp only [List.length_append, List.length_singleton] at hlen
    have hmod : (B + 65535 - hf.div_floor ((size0.ws_row + 2) % USHRT) % USHRT) % 65536
        ≤ 65535 := by omega
    rw [hr]
    split_ifs
    · exact ⟨_, rfl, by simp only; omega⟩
    · exact ⟨_, rfl, by simp only; omega⟩

/-- On a terminal that accepts every size the upward loop never ends. -/
theorem reset_up_loop_accepting :
    ∀ (fuel : Nat) (size : winsize) (s : TermState winsize),
      reset_up_loop accepting_tty fuel size s = none := by
  intro fuel
  induction fuel with
  | zero => intro size s; rfl
  | succ fuel ih =>
    intro size s
    unfold reset_up_loop
    have : (set_terminal_size accepting_tty s
        { size with ws_row := (size.ws_row + 1) % USHRT }).1 = true := by
      simp [set_terminal_size, accepting_tty]
    simp only [this, ↓reduceIte]
    exact ih _ _

/-- On a terminal that accepts every size Maximize does not return, whatever
the fuel. -/
theorem reset_terminal_accepting (hf : HeightFactor) (fuel : Nat) (s : TermState winsize)
    (size : winsize) : reset_terminal accepting_tty hf fuel s size = none := by
  apply reset_terminal_upward_none accepting_tty hf fuel s
    { s with gets := s.gets + 1 }
    { s with dev := { s.dev with ws_row := (s.dev.ws_row + 2) % USHRT }, gets := s.gets + 1,
             sets := s.sets ++ [{ s.dev with ws_row := (s.dev.ws_row + 2) % USHRT }] }
    { s with dev := { s.dev with ws_row := hf.div_floor ((s.dev.ws_row + 2) % USHRT) % USHRT },
             gets := s.gets + 1,
             sets := (s.sets ++ [{ s.dev with ws_row := (s.dev.ws_row + 2) % USHRT }]) ++
               [{ s.dev with ws_row := hf.div_floor ((s.dev.ws_row + 2) % USHRT) % USHRT }] }
    size s.dev
  · simp [get_terminal_size, accepting_tty]
  · simp [set_terminal_size, accepting_tty]
  · simp [set_terminal_size, accepting_tty]
  · exact reset_up_loop_accepting _ _ _

/-! ## Claims on termination and failures of Maximize -/

/-- C16 as stated fails: on a terminal whose set-size call accepts every row
count, Maximize started at 24 rows returns for no amount of fuel: the upward
loop wraps around the unsigned short and goes on. -/
theorem C16_maximize_accepting_counterexample :
    ¬ ∃ fuel : Nat,
      (reset_terminal accepting_tty (HeightFactor.exact 2 3) fuel
        (TermState.start { ws_row := 24, ws_col := 80, ws_xpixel := 0, ws_ypixel := 0 })
        winsize.zero).isSome = true := by
  rintro ⟨fuel, h⟩
  rw [reset_terminal_accepting] at h
  cases h

/-- C16, amended: Maximize returns for every behaviour of the control calls
in which some unsigned short row count `B` is never accepted by set-size (in
particular when every set-size call fails): with fuel 65536 or more
`reset_terminal` returns, having made at most 65538 set-size calls; and when
no set-size call is ever accepted it makes at most one. -/
theorem C16_maximize_terminates {τ : Type} (tty : Tty τ) (B : Nat) (hB : B < 65536)
    (hrej : ∀ (d : τ) (sz : winsize), sz.ws_row = B → (tty.tiocswinsz d sz).1 ≠ none)
    (hf : HeightFactor) (fuel : Nat) (hfuel : 65536 ≤ fuel) (s : TermState τ) (size : winsize) :
    (∃ r, reset_terminal tty hf fuel s size = some r ∧
      r.2.2.sets.length ≤ s.sets.length + 65538) ∧
    ((∀ (d : τ) (sz : winsize), (tty.tiocswinsz d sz).1 ≠ none) →
      ∃ r, reset_terminal tty hf fuel s size = some r ∧
        r.2.2.sets.length ≤ s.sets.length + 1) := by
  refine ⟨reset_terminal_terminates tty B hB hrej hf fuel hfuel s size, ?_⟩
  intro hall
  have hgs := (get_terminal_size_sets tty s size).1
  have hfail : ∀ (t : TermState τ) (sz : winsize), (set_terminal_size tty t sz).1 = false := by
    intro t sz
    cases hb : (set_terminal_size tty t sz).1 with
    | false => rfl
    | true => exact absurd ((set_terminal_size_fst tty t sz).1.1 hb) (hall _ _)
  rcases reset_terminal_cases tty hf fuel s size with
    ⟨size0, s0, hg, hr⟩ | ⟨size0, s0, s1, hg, hp, hr⟩ | ⟨size0, s0, s1, s2, hg, hp, _, _, _⟩ |
    ⟨size0, s0, s1, s2, hg, hp, _, _, _⟩ | ⟨size0, s0, s1, s2, hg, hp, _, _, _⟩ |
    ⟨size0, s0, s1, s2, size3, s3, hg, hp, _, _, _⟩
  · rw [hg] at hgs
    simp only at hgs
    exact ⟨_, hr, by simp only [hgs]; omega⟩
  · rw [hg] at hgs
    simp only at hgs
    have h1 := (set_terminal_size_sets tty s0
      { size0 with ws_row := (size0.ws_row + 2) % USHRT }).1
    rw [hp] at h1
    simp only at h1
    refine ⟨_, hr, ?_⟩
    simp only [h1, hgs, List.length_append, List.length_singleton]
    omega
  all_goals
    have := hfail s0 { size0 with ws_row := (size0.ws_row + 2) % USHRT }
    rw [hp] at this
    cases this

/-- C16, amended, on a terminal with at most 30 rows (31 rows are never
accepted). -/
theorem C16_maximize_terminates_witness :
    ∃ r, reset_terminal (bounded_tty 30) (HeightFactor.exact 2 3) 65536
        (TermState.start { ws_row := 20, ws_col := 80, ws_xpixel := 0, ws_ypixel := 0 })
        winsize.zero = some r ∧
      r.2.2.sets.length
        ≤ (TermState.start { ws_row := 20, ws_col := 80, ws_xpixel := 0, ws_ypixel := 0 }).sets.length
          + 65538 :=
  (C16_maximize_terminates (bounded_tty 30) 31 (by decide)
    (fun d sz h => by simp [bounded_tty, h]) (HeightFactor.exact 2 3) 65536 (by decide)
    (TermState.start { ws_row := 20, ws_col := 80, ws_xpixel := 0, ws_ypixel := 0 })
    winsize.zero).1

/-! ## Lemmas on Maximize: the calls made on a descriptor -/

theorem set_terminal_size_tty {ε : Type} (k : Kernel ε) (fd : Int) (s : TermState (Sys ε))
    (size : winsize) :
    (set_terminal_size (k.tty fd) s size).2.dev.calls
      = s.dev.calls ++ [Syscall.tiocswinsz fd size (k.tiocswinsz s.dev.env fd size).1] ∧
    (set_terminal_size (k.tty fd) s size).2.dev.env = (k.tiocswinsz s.dev.env fd size).2 ∧
    ((set_terminal_size (k.tty fd) s size).1 = false →
      ∃ e, (k.tiocswinsz s.dev.env fd size).1 = some e ∧
        (set_terminal_size (k.tty fd) s size).2.errno = some e) ∧
    ((set_terminal_size (k.tty fd) s size).1 = true →
      (k.tiocswinsz s.dev.env fd size).1 = none ∧
        (set_terminal_size (k.tty fd) s size).2.errno = s.errno) := by
  unfold set_terminal_size Kernel.tty
  simp only
  cases h : (k.tiocswinsz s.dev.env fd size).1 with
  | none => simp
  | some e => simp

theorem get_terminal_size_tty {ε : Type} (k : Kernel ε) (fd : Int) (s : TermState (Sys ε))
    (size : winsize) :
    (get_terminal_size (k.tty fd) s size).2.2.dev.calls
      = s.dev.calls ++ [Syscall.tiocgwinsz fd (k.tiocgwinsz s.dev.env fd).1] ∧
    (get_terminal_size (k.tty fd) s size).2.2.dev.env = (k.tiocgwinsz s.dev.env fd).2 ∧
    ((get_terminal_size (k.tty fd) s size).1 = false →
      ∃ e, (k.tiocgwinsz s.dev.env fd).1 = Except.error e ∧
        (get_terminal_size (k.tty fd) s size).2.2.errno = some e) := by
  unfold get_terminal_size Kernel.tty
  simp only
  cases h : (k.tiocgwinsz s.dev.env fd).1 with
  | ok d => simp
  | error e => simp

/-- The set-size call of `set_terminal_size` on `fd`, as a failing call when
it fails. -/
theorem set_terminal_size_failing {ε : Type} (k : Kernel ε) (fd : Int) (s : TermState (Sys ε))
    (size : winsize) (h : (set_terminal_size (k.tty fd) s size).1 = false) :
    failing_call fd (Syscall.tiocswinsz fd size (k.tiocswinsz s.dev.env fd size).1)
      (set_terminal_size (k.tty fd) s size).2.errno := by
  obtain ⟨e, h1, h2⟩ := (set_terminal_size_tty k fd s size).2.2.1 h
  rw [h1, h2]
  exact Or.inr ⟨size, e, rfl, rfl⟩

/-- The calls of the downward loop on `fd`: set-size calls only; when the
loop ends with an error other than `EINVAL`, the last of them is the failing
one. -/
theorem reset_down_loop_calls {ε : Type} (k : Kernel ε) (fd : Int) :
    ∀ (m : Nat) (size : winsize) (s : TermState (Sys ε)),
      ∃ l, (reset_down_loop (k.tty fd) m size s).2.dev.calls = s.dev.calls ++ l ∧
        (∀ c ∈ l, is_set_call fd c) ∧
        (s.errno = some Errno.EINVAL →
          (reset_down_loop (k.tty fd) m size s).2.errno ≠ some Errno.EINVAL →
          ∃ pre c, l = pre ++ [c] ∧
            failing_call fd c (reset_down_loop (k.tty fd) m size s).2.errno) := by
  intro m
  induction m with
  | zero =>
    intro size s
    refine ⟨[], by simp [reset_down_loop], by simp, ?_⟩
    intro h1 h2
    exact absurd h1 h2
  | succ m ih =>
    intro size s
    have hset := set_terminal_size_tty k fd s { size with ws_row := m + 1 }
    unfold reset_down_loop
    simp only
    cases hb : (set_terminal_size (k.tty fd) s { size with ws_row := m + 1 }).1 with
    | true =>
      simp only [↓reduceIte]
      refine ⟨[Syscall.tiocswinsz fd { size with ws_row := m + 1 }
        (k.tiocswinsz s.dev.env fd { size with ws_row := m + 1 }).1], hset.1, ?_, ?_⟩
      · intro c hc
        rw [List.mem_singleton] at hc
        exact ⟨_, _, hc⟩
      · intro h1 h2
        rw [(hset.2.2.2 hb).2] at h2
        exact absurd h1 h2
    | false =>
      simp only [Bool.false_eq_true, ↓reduceIte]
      by_cases he : (set_terminal_size (k.tty fd) s { size with ws_row := m + 1 }).2.errno
          = some Errno.EINVAL
      · simp only [he, ↓reduceIte]
        obtain ⟨l, hl1, hl2, hl3⟩ := ih { size with ws_row := m + 1 }
          (set_terminal_size (k.tty fd) s { size with ws_row := m + 1 }).2
        refine ⟨Syscall.tiocswinsz fd { size with ws_row := m + 1 }
          (k.tiocswinsz s.dev.env fd { size with ws_row := m + 1 }).1 :: l, ?_, ?_, ?_⟩
        · rw [hl1, hset.1]
          simp
        · intro c hc
          rcases List.mem_cons.1 hc with h | h
          · exact ⟨_, _, h⟩
          · exact hl2 c h
        · intro _ h2
          obtain ⟨pre, c, hpc, hfc⟩ := hl3 he h2
          exact ⟨_ :: pre, c, by rw [hpc]; rfl, hfc⟩
      · simp only [he, ↓reduceIte]
        refine ⟨[Syscall.tiocswinsz fd { size with ws_row := m + 1 }
          (k.tiocswinsz s.dev.env fd { size with ws_row := m + 1 }).1], hset.1, ?_, ?_⟩
        · intro c hc
          rw [List.mem_singleton] at hc
          exact ⟨_, _, hc⟩
        · intro _ _
          exact ⟨[], _, rfl, set_terminal_size_failing k fd s _ hb⟩

/-- The calls of the upward loop on `fd`: set-size calls only, the last of
them the failing one that ends the loop. -/
theorem reset_up_loop_calls {ε : Type} (k : Kernel ε) (fd : Int) :
    ∀ (fuel : Nat) (size size3 : winsize) (s s3 : TermState (Sys ε)),
      reset_up_loop (k.tty fd) fuel size s = some (size3, s3) →
      ∃ pre c, s3.dev.calls = s.dev.calls ++ (pre ++ [c]) ∧
        (∀ x ∈ pre ++ [c], is_set_call fd x) ∧ failing_call fd c s3.errno := by
  intro fuel
  induction fuel with
  | zero => intro size size3 s s3 h; simp [reset_up_loop] at h
  | succ fuel ih =>
    intro size size3 s s3 h
    have hset := set_terminal_size_tty k fd s { size with ws_row := (size.ws_row + 1) % USHRT }
    unfold reset_up_loop at h
    simp only at h
    cases hb : (set_terminal_size (k.tty fd) s
        { size with ws_row := (size.ws_row + 1) % USHRT }).1 with
    | true =>
      simp only [hb, ↓reduceIte] at h
      obtain ⟨pre, c, h1, h2, h3⟩ := ih _ _ _ _ h
      refine ⟨Syscall.tiocswinsz fd { size with ws_row := (size.ws_row + 1) % USHRT }
        (k.tiocswinsz s.dev.env fd { size with ws_row := (size.ws_row + 1) % USHRT }).1 :: pre,
        c, ?_, ?_, h3⟩
      · rw [h1, hset.1]
        simp
      · intro x hx
        rcases List.mem_cons.1 hx with hx1 | hx1
        · exact ⟨_, _, hx1⟩
        · exact h2 x hx1
    | false =>
      simp only [hb, Bool.false_eq_true, ↓reduceIte, Option.some.injEq, Prod.mk.injEq] at h
      refine ⟨[], Syscall.tiocswinsz fd { size with ws_row := (size.ws_row + 1) % USHRT }
        (k.tiocswinsz s.dev.env fd { size with ws_row := (size.ws_row + 1) % USHRT }).1,
        ?_, ?_, ?_⟩
      · rw [← h.2]
        exact hset.1
      · intro x hx
        simp only [List.nil_append, List.mem_singleton] at hx
        exact ⟨_, _, hx⟩
      · rw [← h.2]
        exact set_terminal_size_failing k fd s _ hb

/-- The calls of Maximize on `fd`: one get-size call followed by set-size
calls only; and when Maximize returns failure with an error other than
`EINVAL`, the last call made is the failing one. -/
theorem reset_terminal_calls {ε : Type} (k : Kernel ε) (fd : Int) (hf : HeightFactor)
    (fuel : Nat) (s s2 : TermState (Sys ε)) (size M : winsize) (b : Bool)
    (h : reset_terminal (k.tty fd) hf fuel s size = some (b, M, s2)) :
    ∃ l, s2.dev.calls
        = s.dev.calls ++ Syscall.tiocgwinsz fd (k.tiocgwinsz s.dev.env fd).1 :: l ∧
      (∀ c ∈ l, is_set_call fd c) ∧
      (b = false → s2.errno ≠ some Errno.EINVAL →
        ∃ pre c, Syscall.tiocgwinsz fd (k.tiocgwinsz s.dev.env fd).1 :: l = pre ++ [c] ∧
          failing_call fd c s2.errno) := by
  have hget := get_terminal_size_tty k fd s size
  rcases reset_terminal_cases (k.tty fd) hf fuel s size with
    ⟨size0, s0, hg, hr⟩ | ⟨size0, s0, s1, hg, hp, hr⟩ | ⟨size0, s0, s1, t2, hg, hp, hc, herr, hr⟩ |
    ⟨size0, s0, s1, t2, hg, hp, hc, herr, hr⟩ | ⟨size0, s0, s1, t2, hg, hp, hc, hu, hr⟩ |
    ⟨size0, s0, s1, t2, size3, s3, hg, hp, hc, hu, hr⟩
  · rw [hg] at hget
    simp only at hget
    rw [hr] at h
    simp only [Option.some.injEq, Prod.mk.injEq] at h
    obtain ⟨_, _, h3⟩ := h
    subst h3
    refine ⟨[], hget.1, by simp, ?_⟩
    intro _ _
    obtain ⟨e, he1, he2⟩ := hget.2.2 trivial
    exact ⟨[], _, rfl, Or.inl ⟨e, by rw [he1], he2⟩⟩
  · rw [hg] at hget
    simp only at hget
    have hps := set_terminal_size_tty k fd s0 { size0 with ws_row := (size0.ws_row + 2) % USHRT }
    have hpf := set_terminal_size_failing k fd s0
      { size0 with ws_row := (size0.ws_row + 2) % USHRT }
    rw [hp] at hps hpf
    simp only at hps hpf
    rw [hr] at h
    simp only [Option.some.injEq, Prod.mk.injEq] at h
    obtain ⟨_, _, h3⟩ := h
    subst h3
    refine ⟨[_], by rw [hps.1, hget.1]; simp only [List.append_assoc]; rfl, ?_, ?_⟩
    · intro c hc
      rw [List.mem_singleton] at hc
      exact ⟨_, _, hc⟩
    · intro _ _
      exact ⟨[_], _, rfl, hpf trivial⟩
  · rw [hg] at hget
    simp only at hget
    have hps := set_terminal_size_tty k fd s0 { size0 with ws_row := (size0.ws_row + 2) % USHRT }
    have hcs := set_terminal_size_tty k fd s1
      { size0 with ws_row := hf.div_floor ((size0.ws_row + 2) % USHRT) % USHRT }
    have hcf := set_terminal_size_failing k fd s1
      { size0 with ws_row := hf.div_floor ((size0.ws_row + 2) % USHRT) % USHRT }
    rw [hp] at hps
    rw [hc] at hcs hcf
    simp only at hps hcs hcf
    rw [hr] at h
    simp only [Option.some.injEq, Prod.mk.injEq] at h
    obtain ⟨_, _, h3⟩ := h
    subst h3
    refine ⟨[_, _], by rw [hcs.1, hps.1, hget.1]; simp only [List.append_assoc]; rfl, ?_, ?_⟩
    · intro c hc
      simp only [List.mem_cons, List.mem_singleton, List.not_mem_nil, or_false] at hc
      rcases hc with hc | hc
      · exact ⟨_, _, hc⟩
      · exact ⟨_, _, hc⟩
    · intro _ _
      exact ⟨[_, _], _, rfl, hcf trivial⟩
  · rw [hg] at hget
    simp only at hget
    have hps := set_terminal_size_tty k fd s0 { size0 with ws_row := (size0.ws_row + 2) % USHRT }
    have hcs := set_terminal_size_tty k fd s1
      { size0 with ws_row := hf.div_floor ((size0.ws_row + 2) % USHRT) % USHRT }
    rw [hp] at hps
    rw [hc] at hcs
    simp only at hps hcs
    obtain ⟨l, hl1, hl2, hl3⟩ := reset_down_loop_calls k fd
      (ushrt_sub (hf.div_floor ((size0.ws_row + 2) % USHRT) % USHRT) 1)
      { size0 with ws_row := hf.div_floor ((size0.ws_row + 2) % USHRT) % USHRT } t2
    rw [hr] at h
    have hs2 : s2 = (reset_down_loop (k.tty fd)
        (ushrt_sub (hf.div_floor ((size0.ws_row + 2) % USHRT) % USHRT) 1)
        { size0 with ws_row := hf.div_floor ((size0.ws_row + 2) % USHRT) % USHRT } t2).2 := by
      split_ifs at h <;>
      · simp only [Option.some.injEq, Prod.mk.injEq] at h
        exact h.2.2.symm
    refine ⟨_ :: _ :: l, by rw [hs2, hl1, hcs.1, hps.1, hget.1]; simp only [List.append_assoc]; rfl, ?_, ?_⟩
    · intro c hc
      simp only [List.mem_cons] at hc
      rcases hc with hc | hc | hc
      · exact ⟨_, _, hc⟩
      · exact ⟨_, _, hc⟩
      · exact hl2 c hc
    · intro _ hne
      rw [hs2] at hne
      obtain ⟨pre, c, hpc, hfc⟩ := hl3 herr hne
      rw [hs2]
      exact ⟨_ :: _ :: _ :: pre, c, by rw [hpc]; rfl, hfc⟩
  · rw [hr] at h
    cases h
  · rw [hg] at hget
    simp only at hget
    have hps := set_terminal_size_tty k fd s0 { size0 with ws_row := (size0.ws_row + 2) % USHRT }
    have hcs := set_terminal_size_tty k fd s1
      { size0 with ws_row := hf.div_floor ((size0.ws_row + 2) % USHRT) % USHRT }
    rw [hp] at hps
    rw [hc] at hcs
    simp only at hps hcs
    obtain ⟨pre, c, hl1, hl2, hl3⟩ := reset_up_loop_calls k fd fuel _ size3 t2 s3 hu
    rw [hr] at h
    have hs2 : s2 = s3 := by
      split_ifs at h <;>
      · simp only [Option.some.injEq, Prod.mk.injEq] at h
        exact h.2.2.symm
    refine ⟨_ :: _ :: (pre ++ [c]), by rw [hs2, hl1, hcs.1, hps.1, hget.1]; simp only [List.append_assoc]; rfl, ?_, ?_⟩
    · intro x hx
      simp only [List.mem_cons] at hx
      rcases hx with hx | hx | hx
      · exact ⟨_, _, hx⟩
      · exact ⟨_, _, hx⟩
      · exact hl2 x hx
    · intro _ _
      rw [hs2]
      exact ⟨_ :: _ :: _ :: pre, c, rfl, hl3⟩

/-- The geometry after a Maximize that made at most two calls (the get-size
call and the probe): neither changed the view `rows` of the kernel state,
provided the get-size call and failing set-size calls keep it. -/
theorem reset_terminal_rows_kept {ε : Type} (k : Kernel ε) (fd : Int) (rows : ε → Nat)
    (hgr : ∀ e, rows (k.tiocgwinsz e fd).2 = rows e)
    (hsr : ∀ e sz err, (k.tiocswinsz e fd sz).1 = some err →
      rows (k.tiocswinsz e fd sz).2 = rows e)
    (hf : HeightFactor) (fuel : Nat) (s s2 : TermState (Sys ε)) (size M : winsize) (b : Bool)
    (h : reset_terminal (k.tty fd) hf fuel s size = some (b, M, s2))
    (hlen : s2.dev.calls.length ≤ s.dev.calls.length + 2) :
    rows s2.dev.env = rows s.dev.env := by
  have hget := get_terminal_size_tty k fd s size
  rcases reset_terminal_cases (k.tty fd) hf fuel s size with
    ⟨size0, s0, hg, hr⟩ | ⟨size0, s0, s1, hg, hp, hr⟩ | ⟨size0, s0, s1, t2, hg, hp, hc, herr, hr⟩ |
    ⟨size0, s0, s1, t2, hg, hp, hc, herr, hr⟩ | ⟨size0, s0, s1, t2, hg, hp, hc, hu, hr⟩ |
    ⟨size0, s0, s1, t2, size3, s3, hg, hp, hc, hu, hr⟩
  · rw [hg] at hget
    simp only at hget
    rw [hr] at h
    simp only [Option.some.injEq, Prod.mk.injEq] at h
    obtain ⟨_, _, h3⟩ := h
    subst h3
    rw [hget.2.1, hgr]
  · rw [hg] at hget
    simp only at hget
    have hps := set_terminal_size_tty k fd s0 { size0 with ws_row := (size0.ws_row + 2) % USHRT }
    rw [hp] at hps
    simp only at hps
    rw [hr] at h
    simp only [Option.some.injEq, Prod.mk.injEq] at h
    obtain ⟨_, _, h3⟩ := h
    subst h3
    obtain ⟨e, he, _⟩ := hps.2.2.1 trivial
    rw [hps.2.1, hsr _ _ e he, hget.2.1, hgr]
  · exfalso
    rw [hg] at hget
    simp only at hget
    have hps := set_terminal_size_tty k fd s0 { size0 with ws_row := (size0.ws_row + 2) % USHRT }
    have hcs := set_terminal_size_tty k fd s1
      { size0 with ws_row := hf.div_floor ((size0.ws_row + 2) % USHRT) % USHRT }
    rw [hp] at hps
    rw [hc] at hcs
    simp only at hps hcs
    rw [hr] at h
    simp only [Option.some.injEq, Prod.mk.injEq] at h
    obtain ⟨_, _, h3⟩ := h
    subst h3
    rw [hcs.1, hps.1, hget.1] at hlen
    simp only [List.length_append, List.length_singleton] at hlen
    omega
  · exfalso
    rw [hg] at hget
    simp only at hget
    have hps := set_terminal_size_tty k fd s0 { size0 with ws_row := (size0.ws_row + 2) % USHRT }
    have hcs := set_terminal_size_tty k fd s1
      { size0 with ws_row := hf.div_floor ((size0.ws_row + 2) % USHRT) % USHRT }
    rw [hp] at hps
    rw [hc] at hcs
    simp only at hps hcs
    obtain ⟨l, hl1, _, _⟩ := reset_down_loop_calls k fd
      (ushrt_sub (hf.div_floor ((size0.ws_row + 2) % USHRT) % USHRT) 1)
      { size0 with ws_row := hf.div_floor ((size0.ws_row + 2) % USHRT) % USHRT } t2
    rw [hr] at h
    have hs2 : s2 = (reset_down_loop (k.tty fd)
        (ushrt_sub (hf.div_floor ((size0.ws_row + 2) % USHRT) % USHRT) 1)
        { size0 with ws_row := hf.div_floor ((size0.ws_row + 2) % USHRT) % USHRT } t2).2 := by
      split_ifs at h <;>
      · simp only [Option.some.injEq, Prod.mk.injEq] at h
        exact h.2.2.symm
    rw [hs2, hl1, hcs.1, hps.1, hget.1] at hlen
    simp only [List.length_append, List.length_singleton] at hlen
    omega
  · rw [hr] at h
    cases h
  · exfalso
    rw [hg] at hget
    simp only at hget
    have hps := set_terminal_size_tty k fd s0 { size0 with ws_row := (size0.ws_row + 2) % USHRT }
    have hcs := set_terminal_size_tty k fd s1
      { size0 with ws_row := hf.div_floor ((size0.ws_row + 2) % USHRT) % USHRT }
    rw [hp] at hps
    rw [hc] at hcs
    simp only at hps hcs
    obtain ⟨pre, c, hl1, _, _⟩ := reset_up_loop_calls k fd fuel _ size3 t2 s3 hu
    rw [hr] at h
    have hs2 : s2 = s3 := by
      split_ifs at h <;>
      · simp only [Option.some.injEq, Prod.mk.injEq] at h
        exact h.2.2.symm
    rw [hs2, hl1, hcs.1, hps.1, hget.1] at hlen
    simp only [List.length_append, List.length_singleton] at hlen
    omega

/-! ## C17: a failing control call -/

/-- C17, counterexample: on a terminal with 20 rows whose set-size call fails
with an error other than `EINVAL` when 33 rows are requested, Maximize and
Shrink with the factor 2/3 return failure with that error after the probe of
22 rows was accepted: the terminal is left at 22 rows, not at 20. -/
theorem C17_failure_keeps_geometry_counterexample :
    (TermState.start { ws_row := 20, ws_col := 80, ws_xpixel := 0, ws_ypixel := 0 }).dev.ws_row = 20 ∧
    (reset_terminal (failing_tty 30 33) (HeightFactor.exact 2 3) 8
        (TermState.start { ws_row := 20, ws_col := 80, ws_xpixel := 0, ws_ypixel := 0 })
        winsize.zero).map
      (fun r => (r.1, r.2.2.errno, r.2.2.dev.ws_row, r.2.2.sets.map (fun z => z.ws_row)))
      = some (false, some Errno.EOTHER, 22, [22, 33]) ∧
    (shrink_terminal (failing_tty 30 33) (HeightFactor.exact 2 3) 8
        (TermState.start { ws_row := 20, ws_col := 80, ws_xpixel := 0, ws_ypixel := 0 })).map
      (fun r => (r.1, r.2.errno, r.2.dev.ws_row, r.2.sets.map (fun z => z.ws_row)))
      = some (false, some Errno.EOTHER, 22, [22, 33]) := by
  decide

/-- C17, amended: when Maximize (`reset_terminal`) or Shrink
(`shrink_terminal`) on the descriptor `fd` returns failure with an error other
than `EINVAL`, the last call it made is the failing get-size or set-size call,
so no control call follows the failing one; and if the operation made at most
two calls (the failure is that of the get-size call or of the probe), the
geometry `rows` of the kernel state is the one at the start, given that the
get-size call and failing set-size calls do not change it. Set-size calls
accepted before the failure are not undone. -/
theorem C17_failure_aborts {ε : Type} (k : Kernel ε) (fd : Int) (rows : ε → Nat)
    (hgr : ∀ e, rows (k.tiocgwinsz e fd).2 = rows e)
    (hsr : ∀ e sz err, (k.tiocswinsz e fd sz).1 = some err →
      rows (k.tiocswinsz e fd sz).2 = rows e)
    (hf : HeightFactor) (fuel : Nat) (s : TermState (Sys ε)) :
    (∀ (size M : winsize) (s2 : TermState (Sys ε)),
      reset_terminal (k.tty fd) hf fuel s size = some (false, M, s2) →
      s2.errno ≠ some Errno.EINVAL →
      (∃ pre c, s2.dev.calls = s.dev.calls ++ (pre ++ [c]) ∧ failing_call fd c s2.errno) ∧
      (s2.dev.calls.length ≤ s.dev.calls.length + 2 → rows s2.dev.env = rows s.dev.env)) ∧
    (∀ (s2 : TermState (Sys ε)),
      shrink_terminal (k.tty fd) hf fuel s = some (false, s2) →
      s2.errno ≠ some Errno.EINVAL →
      (∃ pre c, s2.dev.calls = s.dev.calls ++ (pre ++ [c]) ∧ failing_call fd c s2.errno) ∧
      (s2.dev.calls.length ≤ s.dev.calls.length + 2 → rows s2.dev.env = rows s.dev.env)) := by
  have hmax : ∀ (size M : winsize) (s2 : TermState (Sys ε)),
      reset_terminal (k.tty fd) hf fuel s size = some (false, M, s2) →
      s2.errno ≠ some Errno.EINVAL →
      (∃ pre c, s2.dev.calls = s.dev.calls ++ (pre ++ [c]) ∧ failing_call fd c s2.errno) ∧
      (s2.dev.calls.length ≤ s.dev.calls.length + 2 → rows s2.dev.env = rows s.dev.env) := by
    intro size M s2 h hne
    obtain ⟨l, hl1, _, hl3⟩ := reset_terminal_calls k fd hf fuel s s2 size M false h
    obtain ⟨pre, c, hpc, hfc⟩ := hl3 rfl hne
    exact ⟨⟨pre, c, by rw [hl1, hpc], hfc⟩,
      reset_terminal_rows_kept k fd rows hgr hsr hf fuel s s2 size M false h⟩
  refine ⟨hmax, ?_⟩
  intro s2 h hne
  cases hr : reset_terminal (k.tty fd) hf fuel s winsize.zero with
  | none =>
    rw [shrink_terminal_of_none (k.tty fd) hf fuel s hr] at h
    cases h
  | some r =>
    obtain ⟨b, M, s1⟩ := r
    cases b with
    | false =>
      rw [shrink_terminal_of_failed (k.tty fd) hf fuel s s1 M hr] at h
      simp only [Option.some.injEq, Prod.mk.injEq, true_and] at h
      subst h
      exact hmax winsize.zero M s1 hr hne
    | true =>
      rw [shrink_terminal_of_maximized (k.tty fd) hf fuel s s1 M hr] at h
      simp only [Option.some.injEq] at h
      have hcs := set_terminal_size_tty k fd s1
        { M with ws_row := hf.mul_floor M.ws_row % USHRT }
      have hcf := set_terminal_size_failing k fd s1
        { M with ws_row := hf.mul_floor M.ws_row % USHRT }
      rw [h] at hcs hcf
      simp only at hcs hcf
      obtain ⟨l, hl1, _, _⟩ := reset_terminal_calls k fd hf fuel s s1 winsize.zero M true hr
      refine ⟨⟨_ :: l, _, by rw [hcs.1, hl1]; simp only [List.append_assoc]; rfl,
        hcf trivial⟩, ?_⟩
      intro hlen
      obtain ⟨e, he, _⟩ := hcs.2.2.1 trivial
      rw [hcs.2.1, hsr _ _ e he]
      apply reset_terminal_rows_kept k fd rows hgr hsr hf fuel s s1 winsize.zero M true hr
      rw [hcs.1] at hlen
      simp only [List.length_append, List.length_singleton] at hlen
      omega

/-- C17, amended, on the kernel with bounded terminals: Maximize on a
descriptor that is not open fails at the get-size call, which is its only
call, and terminal 1 keeps its 20 rows. -/
theorem C17_failure_aborts_witness :
    reset_terminal ((bounded_kernel 30).tty 5) (HeightFactor.exact 2 3) 8
        (Negotiator.initial (VtWorld.start 1 20)).st winsize.zero
      = some (false, winsize.zero,
          { dev := { env := VtWorld.start 1 20,
                     calls := [Syscall.tiocgwinsz 5 (Except.error Errno.EOTHER)] },
            errno := some Errno.EOTHER, gets := 1, sets := [] }) ∧
    (∃ pre c, [Syscall.tiocgwinsz 5 (Except.error Errno.EOTHER)]
        = (Negotiator.initial (VtWorld.start 1 20)).st.dev.calls ++ (pre ++ [c]) ∧
      failing_call 5 c (some Errno.EOTHER)) ∧
    ([Syscall.tiocgwinsz 5 (Except.error Errno.EOTHER)].length
        ≤ (Negotiator.initial (VtWorld.start 1 20)).st.dev.calls.length + 2 →
      ((VtWorld.start 1 20).size 1).ws_row
        = ((Negotiator.initial (VtWorld.start 1 20)).st.dev.env.size 1).ws_row) :=
  ⟨rfl,
    (C17_failure_aborts (bounded_kernel 30) 5 (fun w => (w.size 1).ws_row)
      (fun e => by
        simp only [bounded_kernel]
        split <;> rfl)
      (fun e sz err h => by
        simp only [bounded_kernel] at h ⊢
        split at h
        · split_ifs at h with hle
          rw [if_neg hle]
        · rfl)
      (HeightFactor.exact 2 3) 8 (Negotiator.initial (VtWorld.start 1 20)).st).1
      winsize.zero winsize.zero _ rfl (by decide)⟩

/-! ## Lemmas on RestoreAll -/

theorem sys_open_cases {ε : Type} (k : Kernel ε) (s : TermState (Sys ε)) (n : Nat) :
    (∃ s1, sys_open k s n = (-1, s1) ∧
      s1.dev.calls = s.dev.calls ++ [Syscall.open_tty n none]) ∨
    (∃ (fd : Nat) (s1 : TermState (Sys ε)), sys_open k s n = ((fd : Int), s1) ∧
      s1.dev.calls = s.dev.calls ++ [Syscall.open_tty n (some fd)]) := by
  unfold sys_open
  split
  · exact Or.inr ⟨_, _, rfl, rfl⟩
  · exact Or.inl ⟨_, rfl, rfl⟩

/-- The loop of RestoreAll over the indices `l`, when every Maximize returns:
it returns, and its calls are one segment per flagged index of `l`, in the
order of `l`; the static variables other than the state are unchanged. -/
theorem reset_all_loop_calls {ε : Type} (k : Kernel ε) (fuel : Nat) (hf : HeightFactor)
    (hret : ∀ (fd : Int) (s : TermState (Sys ε)) (size : winsize),
      (reset_terminal (k.tty fd) hf fuel s size).isSome = true) :
    ∀ (l : List Nat) (n : Negotiator ε) (size : winsize), n.height_factor = hf →
      ∃ (n2 : Negotiator ε) (size2 : winsize) (segs : List (List Syscall)),
        reset_all_loop k fuel l n size = some (n2, size2) ∧
        n2.st.dev.calls = n.st.dev.calls ++ segs.flatten ∧
        List.Forall₂ (fun i seg => restore_segment (i + 1) seg)
          (l.filter (fun i => n.resized_vts i)) segs ∧
        n2.resized_vts = n.resized_vts ∧ n2.current_fd = n.current_fd ∧
        n2.current_vt = n.current_vt ∧ n2.height_factor = n.height_factor := by
  intro l
  induction l with
  | nil =>
    intro n size _
    exact ⟨n, size, [], rfl, by simp, by simp, rfl, rfl, rfl, rfl⟩
  | cons i rest ih =>
    intro n size hn
    unfold reset_all_loop
    by_cases hflag : n.resized_vts i = true
    · simp only [hflag, Bool.not_true, Bool.false_eq_true, ↓reduceIte, List.filter_cons_of_pos]
      rcases sys_open_cases k n.st (i + 1) with ⟨s1, ho, hc⟩ | ⟨fd, s1, ho, hc⟩
      · rw [ho]
        simp only [Int.reduceNeg, Int.reduceLT, ↓reduceIte]
        obtain ⟨n2, size2, segs, h1, h2, h3, h4, h5, h6, h7⟩ :=
          ih { n with st := s1 } size hn
        refine ⟨n2, size2, [Syscall.open_tty (i + 1) none] :: segs, h1, ?_, ?_, h4, h5, h6, h7⟩
        · rw [h2]
          simp only [hc, List.flatten_cons, List.append_assoc]
        · exact List.Forall₂.cons (Or.inl rfl) h3
      · rw [ho]
        have hnn : ¬ ((fd : Int) < 0) := by omega
        simp only [hnn, ↓reduceIte]
        have hsome := hret (fd : Int) s1 size
        rw [← hn] at hsome
        cases hr : reset_terminal (k.tty (fd : Int)) n.height_factor fuel s1 size with
        | none => rw [hr] at hsome; cases hsome
        | some r =>
          obtain ⟨b, size1, t1⟩ := r
          simp only
          obtain ⟨sets, hs1, hs2, _⟩ := reset_terminal_calls k fd n.height_factor fuel s1 t1 size size1 b hr
          obtain ⟨n2, size2, segs, h1, h2, h3, h4, h5, h6, h7⟩ :=
            ih { n with st := t1 } size1 hn
          refine ⟨n2, size2,
            (Syscall.open_tty (i + 1) (some fd) ::
              Syscall.tiocgwinsz (fd : Int) (k.tiocgwinsz s1.dev.env fd).1 :: sets) :: segs,
            h1, ?_, ?_, h4, h5, h6, h7⟩
          · rw [h2]
            simp only [hs1, hc, List.flatten_cons, List.append_assoc, List.cons_append,
              List.nil_append, List.singleton_append]
          · exact List.Forall₂.cons (Or.inr ⟨fd, _, sets, rfl, hs2⟩) h3
    · rw [Bool.not_eq_true] at hflag
      simp only [hflag, Bool.not_false, ↓reduceIte]
      obtain ⟨n2, size2, segs, h1, h2, h3, h4, h5, h6, h7⟩ := ih n size hn
      refine ⟨n2, size2, segs, h1, h2, ?_, h4, h5, h6, h7⟩
      rw [List.filter_cons_of_neg (by simp [hflag])]
      exact h3

/-- On the kernel with bounded terminals every Maximize returns, given fuel
for one round of the unsigned short. -/
theorem bounded_kernel_maximize_returns (R : Nat) (hR : R + 1 < 65536) (fd : Int)
    (hf : HeightFactor) (fuel : Nat) (hfuel : 65536 ≤ fuel) (s : TermState (Sys VtWorld))
    (size : winsize) :
    (reset_terminal ((bounded_kernel R).tty fd) hf fuel s size).isSome = true := by
  obtain ⟨r, hr, _⟩ := reset_terminal_terminates ((bounded_kernel R).tty fd) (R + 1) hR
    (fun d sz h => by
      simp only [Kernel.tty, bounded_kernel]
      split
      · have hgt : ¬ sz.ws_row ≤ R := by omega
        rw [if_neg hgt]
        simp
      · simp)
    hf fuel hfuel s size
  rw [hr]
  rfl

/-! ## C15: RestoreAll is best-effort over the flagged terminals -/

/-- C15: when every Maximize returns, RestoreAll (`bb_terminal_reset_all`)
returns, whatever the flags and whatever the answers of the kernel to the
opens and to the size calls, and the calls it made are one segment per
flagged index `i`, in ascending order of `i`: the open of `/dev/tty<i+1>`
alone when that open failed, and else that open followed by the calls of one
Maximize on the descriptor it returned (one get-size call, then set-size calls
on that descriptor only). No call is made for an unflagged index, and a
failure in one segment does not end the loop; the flags and the current
terminal are unchanged. -/
theorem C15_restore_all_best_effort {ε : Type} (k : Kernel ε) (fuel : Nat) (n : Negotiator ε)
    (hret : ∀ (fd : Int) (s : TermState (Sys ε)) (size : winsize),
      (reset_terminal (k.tty fd) n.height_factor fuel s size).isSome = true) :
    ∃ (n2 : Negotiator ε) (segs : List (List Syscall)),
      bb_terminal_reset_all k fuel n = some n2 ∧
      n2.st.dev.calls = n.st.dev.calls ++ segs.flatten ∧
      List.Forall₂ (fun i seg => restore_segment (i + 1) seg)
        ((List.range MAX_NR_CONSOLES).filter (fun i => n.resized_vts i)) segs ∧
      n2.resized_vts = n.resized_vts ∧ n2.current_fd = n.current_fd ∧
      n2.current_vt = n.current_vt := by
  obtain ⟨n2, size2, segs, h1, h2, h3, h4, h5, h6, _⟩ :=
    reset_all_loop_calls k fuel n.height_factor hret (List.range MAX_NR_CONSOLES) n
      { ws_row := 0, ws_col := 0, ws_xpixel := 0, ws_ypixel := 0 } rfl
  refine ⟨n2, segs, ?_, h2, h3, h4, h5, h6⟩
  unfold bb_terminal_reset_all
  rw [h1]
  rfl

/-- C15 on the kernel with terminals of at most 30 rows, with the flags of
the terminals 1 and 3 set. -/
theorem C15_restore_all_best_effort_witness :
    ∃ (n2 : Negotiator VtWorld) (segs : List (List Syscall)),
      bb_terminal_reset_all (bounded_kernel 30) 65536 (demo_flagged 20) = some n2 ∧
      n2.st.dev.calls = (demo_flagged 20).st.dev.calls ++ segs.flatten ∧
      List.Forall₂ (fun i seg => restore_segment (i + 1) seg)
        ((List.range MAX_NR_CONSOLES).filter (fun i => (demo_flagged 20).resized_vts i)) segs ∧
      n2.resized_vts = (demo_flagged 20).resized_vts ∧
      n2.current_fd = (demo_flagged 20).current_fd ∧
      n2.current_vt = (demo_flagged 20).current_vt :=
  C15_restore_all_best_effort (bounded_kernel 30) 65536 (demo_flagged 20)
    (fun fd s size =>
      bounded_kernel_maximize_returns 30 (by decide) fd _ 65536 (by decide) s size)

/-! ## C11: the round trip of Shrink and RestoreAll -/

/-- C11 fails on the code for `R = 3` and the factor 2/3: on the kernel whose
terminals accept exactly the row counts up to 3, with terminal 1 active at 3
rows and not yet shrunk, `bb_terminal_shrink_current` sets 2 rows, which is
`floor(3 * 2/3)`, and marks the terminal; the following
`bb_terminal_reset_all` requests 4 rows, is rejected, and returns leaving the
terminal at 2 rows, not at 3 (the row counts requested in all are 5, 2, 4). -/
theorem C11_round_trip_one_below_maximum :
    ((demo_init 3 3 2 3).st.dev.env.size 1).ws_row = 3 ∧
    (demo_init 3 3 2 3).resized_vts 0 = false ∧
    ((bb_terminal_shrink_current (bounded_kernel 3) USHRT (demo_init 3 3 2 3)).value
      (ShrinkExit.query_failed, demo_init 3 3 2 3)).1 = ShrinkExit.resized ∧
    ((demo_shrunk 3 3 2 3).st.dev.env.size 1).ws_row = 2 ∧
    (demo_shrunk 3 3 2 3).resized_vts 0 = true ∧
    (bb_terminal_reset_all (bounded_kernel 3) USHRT (demo_shrunk 3 3 2 3)).map
      (fun n => ((n.st.dev.env.size 1).ws_row, n.st.sets.map (fun z => z.ws_row)))
      = some (2, [5, 2, 4]) := by
  decide

/-! ## C29 and C30: index safety and navigation of the catalog -/

/-- C29: in every layer of the catalog the arrays `scancode_idxs` and
`scancode_nums` have one entry per key, and for every key `k` below
`num_keys`: `scancode_nums[k]` is not negative, `scancode_idxs[k]` is `-1`
exactly when `scancode_nums[k]` is 0, and otherwise the slice lies inside the
scancodes array and starts where the slices of the keys before it end (the
sum of their counts); the counts add up to the length of the scancodes array,
so the non-empty slices in key order cover it exactly once. Hence every read
`scancodes[i]`, `i < num_scancodes`, of `emit_key_events` is inside the array,
and the scancodes read for a key are its slice. -/
theorem C29_catalog_index_safety :
    (∀ layout ∈ sq2lv_layouts, ∀ l ∈ layout.layers,
      l.scancode_idxs.length = l.num_keys ∧ l.scancode_nums.length = l.num_keys ∧
      l.scancode_nums.sum = l.scancodes.length ∧
      ∀ k < l.num_keys,
        0 ≤ l.scancode_nums.getD k 0 ∧
        (l.scancode_idxs.getD k (-1) = -1 ↔ l.scancode_nums.getD k 0 = 0) ∧
        (l.scancode_nums.getD k 0 ≠ 0 →
          0 ≤ l.scancode_idxs.getD k (-1) ∧
          l.scancode_idxs.getD k (-1) + l.scancode_nums.getD k 0 ≤ l.scancodes.length ∧
          l.scancode_idxs.getD k (-1) = slice_start l k)) ∧
    (∀ L < layout_terminal_us.num_layers,
      ∀ btn < (current_layer layout_terminal_us (Keyboard.unlatched L)).num_keys,
        (∀ i < (sq2lv_get_scancodes layout_terminal_us (Keyboard.unlatched L) btn).2,
          i < (sq2lv_get_scancodes layout_terminal_us (Keyboard.unlatched L) btn).1.length) ∧
        key_scancodes layout_terminal_us (Keyboard.unlatched L) btn
          = ((current_layer layout_terminal_us (Keyboard.unlatched L)).scancodes.drop
              (slice_start (current_layer layout_terminal_us (Keyboard.unlatched L)) btn).toNat).take
              ((current_layer layout_terminal_us (Keyboard.unlatched L)).scancode_nums.getD btn
                0).toNat) := by
  refine ⟨by decide, by decide⟩

/-- C29 on the key "Q" of the uppercase layer (key 6), whose slice of two
scancodes starts at index 6. -/
theorem C29_catalog_index_safety_witness :
    layout_terminal_us ∈ sq2lv_layouts ∧ layer_upper_terminal_us ∈ layout_terminal_us.layers ∧
    6 < layer_upper_terminal_us.num_keys ∧
    0 ≤ layer_upper_terminal_us.scancode_nums.getD 6 0 ∧
    (layer_upper_terminal_us.scancode_idxs.getD 6 (-1) = -1 ↔
      layer_upper_terminal_us.scancode_nums.getD 6 0 = 0) ∧
    (layer_upper_terminal_us.scancode_nums.getD 6 0 ≠ 0 →
      0 ≤ layer_upper_terminal_us.scancode_idxs.getD 6 (-1) ∧
      layer_upper_terminal_us.scancode_idxs.getD 6 (-1)
        + layer_upper_terminal_us.scancode_nums.getD 6 0
        ≤ layer_upper_terminal_us.scancodes.length ∧
      layer_upper_terminal_us.scancode_idxs.getD 6 (-1) = slice_start layer_upper_terminal_us 6) :=
  ⟨by decide, by decide, by decide,
    (C29_catalog_index_safety.1 layout_terminal_us (by decide) layer_upper_terminal_us
      (by decide)).2.2.2 6 (by decide)⟩

/-- C30: in the layout terminal/us every destination of a layer switch key
is a layer index below `num_layers`, which is 5, and differs from the layer
that holds the key; the destination array has one entry per switch key; every
layer other than layer 0 has a switch key that leads to layer 0; and every
layer is reached from layer 0 with the keyboard unlatched by a sequence of
presses of switch keys, each valid where it is made. -/
theorem C30_layer_navigation :
    layout_terminal_us.num_layers = 5 ∧ layout_terminal_us.layers.length = 5 ∧
    (∀ L < layout_terminal_us.num_layers,
      (layout_terminal_us.layers.getD L empty_layer).switcher_dests.length
        = (layout_terminal_us.layers.getD L empty_layer).num_switchers ∧
      (∀ d ∈ switch_targets layout_terminal_us L, d < layout_terminal_us.num_layers ∧ d ≠ L) ∧
      (L ≠ 0 → 0 ∈ switch_targets layout_terminal_us L)) ∧
    (∀ (w : WriteOracle), ∀ L < layout_terminal_us.num_layers,
      ∃ presses : List Nat,
        valid_presses w layout_terminal_us (Keyboard.unlatched 0, SinkLog.empty) presses ∧
        presses.length ≤ 2 ∧
        (press_sequence w layout_terminal_us (Keyboard.unlatched 0, SinkLog.empty)
          presses).1.layer = L) := by
  refine ⟨rfl, rfl, by decide, ?_⟩
  intro w L hL
  have h5 : L < 5 := hL
  have h25 := press_switcher w layout_terminal_us (Keyboard.unlatched 0) SinkLog.empty 25
    (by decide)
  have h34 := press_switcher w layout_terminal_us (Keyboard.unlatched 0) SinkLog.empty 34
    (by decide)
  have h36 := press_switcher w layout_terminal_us (Keyboard.unlatched 0) SinkLog.empty 36
    (by decide)
  interval_cases L
  · exact ⟨[], trivial, by decide, rfl⟩
  · exact ⟨[25], ⟨by decide, trivial⟩, by decide, by
      simp only [press_sequence, List.foldl]
      rw [h25.1]
      decide⟩
  · exact ⟨[34], ⟨by decide, trivial⟩, by decide, by
      simp only [press_sequence, List.foldl]
      rw [h34.1]
      decide⟩
  · refine ⟨[34, 26], ⟨by decide, ?_, trivial⟩, by decide, ?_⟩
    · have : (current_layer layout_terminal_us
          (on_button_press w layout_terminal_us (Keyboard.unlatched 0) SinkLog.empty 34).1).num_keys
          = 39 := by
        unfold current_layer
        rw [h34.1]
        decide
      rw [this]
      decide
    · simp only [press_sequence, List.foldl]
      have hs : sq2lv_is_layer_switcher layout_terminal_us
          (on_button_press w layout_terminal_us (Keyboard.unlatched 0) SinkLog.empty 34).1 26
          = true := by
        unfold sq2lv_is_layer_switcher current_layer
        rw [h34.1]
        decide
      rw [(press_switcher w layout_terminal_us _ _ 26 hs).1]
      unfold current_layer
      rw [h34.1]
      decide
  · exact ⟨[36], ⟨by decide, trivial⟩, by decide, by
      simp only [press_sequence, List.foldl]
      rw [h36.1]
      decide⟩

/-- C30 on the layer of the symbols (layer 3), reached from layer 0 through
the layer of the numbers. -/
theorem C30_layer_navigation_witness :
    3 < layout_terminal_us.num_layers ∧
    ∃ presses : List Nat,
      valid_presses write_ok layout_terminal_us (Keyboard.unlatched 0, SinkLog.empty) presses ∧
      presses.length ≤ 2 ∧
      (press_sequence write_ok layout_terminal_us (Keyboard.unlatched 0, SinkLog.empty)
        presses).1.layer = 3 :=
  ⟨by decide, C30_layer_navigation.2.2.2 write_ok 3 (by decide)⟩

/-! ## C28 and C27: the table of flags -/

/-- The only access of `bb_terminal_shrink_current` outside the table of
flags is the read at index -1, made when the query answers terminal 0. -/
theorem shrink_current_fault_only {ε : Type} (k : Kernel ε) (fuel : Nat) (n : Negotiator ε)
    (idx : Int) (h : bb_terminal_shrink_current k fuel n = Run.fault idx) :
    (get_active_terminal k n).1 = 0 ∧ idx = -1 := by
  rcases shrink_current_cases k fuel n with
    ⟨_, hr⟩ | ⟨_, hr⟩ | ⟨h0, hr⟩ | ⟨_, _, _, hr⟩ | ⟨_, _, _, _, _, _, hr⟩ |
    ⟨h1, h2, _, n1, hp, hr⟩
  · rw [hr] at h; cases h
  · rw [hr] at h; cases h
  · rw [hr] at h
    cases h
    exact ⟨h0, rfl⟩
  · rw [hr] at h; cases h
  · rw [hr] at h; cases h
  · rcases hr with ⟨_, hr⟩ | ⟨s1, _, hr⟩ | ⟨s1, _, hr⟩ <;>
    · rw [hr] at h; cases h

/-- C28 fails on the code for the terminal number 0: when the query of the
active terminal answers 0, `bb_terminal_init` succeeds and
`bb_terminal_shrink_current` passes the guard `active_vt < 0 || active_vt >
MAX_NR_CONSOLES - 1` and reads `resized_vts[-1]`, outside the table (shown on
the kernel with bounded terminals, terminal 0 active). -/
theorem C28_index_below_table :
    (bb_terminal_init (bounded_kernel 30) (HeightFactor.exact 2 3)
      (Negotiator.initial (VtWorld.start 0 24))).1 = true ∧
    (get_active_terminal (bounded_kernel 30)
      (bb_terminal_init (bounded_kernel 30) (HeightFactor.exact 2 3)
        (Negotiator.initial (VtWorld.start 0 24))).2).1 = 0 ∧
    bb_terminal_shrink_current (bounded_kernel 30) USHRT
      (bb_terminal_init (bounded_kernel 30) (HeightFactor.exact 2 3)
        (Negotiator.initial (VtWorld.start 0 24))).2 = Run.fault (-1) ∧
    resized_read
      (bb_terminal_init (bounded_kernel 30) (HeightFactor.exact 2 3)
        (Negotiator.initial (VtWorld.start 0 24))).2.resized_vts (-1) = none :=
  ⟨by decide, by decide, shrink_current_fault _ _ _ (by decide), by decide⟩

/-- The loop of RestoreAll changes no flag and no other static variable but
the state. -/
theorem reset_all_loop_vars {ε : Type} (k : Kernel ε) (fuel : Nat) :
    ∀ (l : List Nat) (n n2 : Negotiator ε) (size size2 : winsize),
      reset_all_loop k fuel l n size = some (n2, size2) →
      n2.resized_vts = n.resized_vts ∧ n2.current_fd = n.current_fd ∧
      n2.current_vt = n.current_vt ∧ n2.height_factor = n.height_factor := by
  intro l
  induction l with
  | nil =>
    intro n n2 size size2 h
    simp only [reset_all_loop, Option.some.injEq, Prod.mk.injEq] at h
    rw [← h.1]
    exact ⟨rfl, rfl, rfl, rfl⟩
  | cons i rest ih =>
    intro n n2 size size2 h
    unfold reset_all_loop at h
    simp only at h
    split_ifs at h with h1 h2
    · exact ih _ _ _ _ h
    · have h3 := ih _ _ _ _ h
      exact h3
    · split at h
      · cases h
      · have h3 := ih _ _ _ _ h
        exact h3

/-- What a run of `bb_terminal_shrink_current` that returns does to the
flags: a set flag stays set, and no flag changes but the one of the active
terminal. -/
theorem shrink_current_flags {ε : Type} (k : Kernel ε) (fuel : Nat) (n n2 : Negotiator ε)
    (x : ShrinkExit) (h : bb_terminal_shrink_current k fuel n = Run.done (x, n2)) :
    (∀ j, n.resized_vts j = true → n2.resized_vts j = true) ∧
    (∀ j, j ≠ ((get_active_terminal k n).1 - 1).toNat → n2.resized_vts j = n.resized_vts j) := by
  have hgv := (get_active_terminal_vars k n).2.2.1
  have hsame : n2.resized_vts = n.resized_vts →
      (∀ j, n.resized_vts j = true → n2.resized_vts j = true) ∧
      (∀ j, j ≠ ((get_active_terminal k n).1 - 1).toNat →
        n2.resized_vts j = n.resized_vts j) := by
    intro he
    rw [he]
    exact ⟨fun _ hj => hj, fun _ _ => rfl⟩
  rcases shrink_current_cases k fuel n with
    ⟨_, hr⟩ | ⟨_, hr⟩ | ⟨_, hr⟩ | ⟨_, _, _, hr⟩ | ⟨_, _, _, _, n1, hre, hr⟩ |
    ⟨_, _, _, n1, hp, hr⟩
  · rw [hr] at h
    simp only [Run.done.injEq, Prod.mk.injEq] at h
    exact hsame (by rw [← h.2, hgv])
  · rw [hr] at h
    simp only [Run.done.injEq, Prod.mk.injEq] at h
    exact hsame (by rw [← h.2, hgv])
  · rw [hr] at h; cases h
  · rw [hr] at h
    simp only [Run.done.injEq, Prod.mk.injEq] at h
    exact hsame (by rw [← h.2, hgv])
  · rw [hr] at h
    simp only [Run.done.injEq, Prod.mk.injEq] at h
    have hv := (reopen_current_terminal_vars k (get_active_terminal k n).2).2.1
    rw [hre] at hv
    exact hsame (by rw [← h.2, hv, hgv])
  · have hv := (shrink_prepared_vars k _ n1 hp).2.1
    rcases hr with ⟨_, hr⟩ | ⟨s1, _, hr⟩ | ⟨s1, _, hr⟩
    · rw [hr] at h; cases h
    · rw [hr] at h
      simp only [Run.done.injEq, Prod.mk.injEq] at h
      exact hsame (by rw [← h.2]; simp only; rw [hv, hgv])
    · rw [hr] at h
      simp only [Run.done.injEq, Prod.mk.injEq] at h
      rw [← h.2]
      refine ⟨fun j hj => ?_, fun j hj => ?_⟩
      · simp only
        split_ifs
        · rfl
        · exact hj
      · simp only [hj, ↓reduceIte]

theorem bb_terminal_init_flags {ε : Type} (k : Kernel ε) (factor : HeightFactor)
    (n : Negotiator ε) : (bb_terminal_init k factor n).2.resized_vts = n.resized_vts := by
  have hv := (reopen_current_terminal_vars k n).2.1
  unfold bb_terminal_init
  split
  · rename_i n1 heq
    rw [heq] at hv
    exact hv
  · rename_i n1 heq
    rw [heq] at hv
    simp only
    split_ifs <;>
    · simp only
      rw [(get_active_terminal_vars k n1).2.2.1, hv]

/-- C27: no operation of the negotiator clears a flag. `bb_terminal_init`
and `bb_terminal_reset_all` leave every flag as it is; a run of
`bb_terminal_shrink_current` that returns keeps every set flag and changes
no flag but the one of the active terminal; and after a RestoreAll, a Shrink
for an active terminal (1 to 62) whose flag was set before the RestoreAll
returns at "already resized", having made the query of the active terminal
and no other call. -/
theorem C27_flags_monotone {ε : Type} (k : Kernel ε) (fuel : Nat) (n : Negotiator ε) :
    (∀ factor, (bb_terminal_init k factor n).2.resized_vts = n.resized_vts) ∧
    (∀ n2, bb_terminal_reset_all k fuel n = some n2 → n2.resized_vts = n.resized_vts) ∧
    (∀ x n2, bb_terminal_shrink_current k fuel n = Run.done (x, n2) →
      (∀ j, n.resized_vts j = true → n2.resized_vts j = true) ∧
      (∀ j, j ≠ ((get_active_terminal k n).1 - 1).toNat →
        n2.resized_vts j = n.resized_vts j)) ∧
    (∀ (n2 : Negotiator ε) (fuel2 v : Nat) (e : ε),
      bb_terminal_reset_all k fuel n = some n2 →
      k.vt_getstate n2.st.dev.env n2.current_fd = (some v, e) → 1 ≤ v → v ≤ 62 →
      n.resized_vts (v - 1) = true →
      bb_terminal_shrink_current k fuel2 n2
        = Run.done (ShrinkExit.already_resized,
            { n2 with st := { n2.st with dev :=
              { env := e,
                calls := n2.st.dev.calls
                  ++ [Syscall.vt_getstate n2.current_fd (some v)] } } })) := by
  have hreset : ∀ n2, bb_terminal_reset_all k fuel n = some n2 →
      n2.resized_vts = n.resized_vts := by
    intro n2 h
    unfold bb_terminal_reset_all at h
    cases hl : reset_all_loop k fuel (List.range MAX_NR_CONSOLES) n
        { ws_row := 0, ws_col := 0, ws_xpixel := 0, ws_ypixel := 0 } with
    | none => rw [hl] at h; cases h
    | some r =>
      obtain ⟨m, size2⟩ := r
      rw [hl] at h
      simp only [Option.map_some', Option.some.injEq] at h
      rw [← h]
      exact (reset_all_loop_vars k fuel _ n m _ size2 hl).1
  refine ⟨fun factor => bb_terminal_init_flags k factor n, hreset,
    fun x n2 h => shrink_current_flags k fuel n n2 x h, ?_⟩
  intro n2 fuel2 v e hr hq h1 h2 hflag
  have hg := get_active_terminal_ok k n2 v e hq
  have := shrink_current_already k fuel2 n2 (by rw [hg]; simp only; omega)
    (by rw [hg]; simp only; omega)
    (by
      rw [hg]
      simp only
      have hv : ((v : Int) - 1).toNat = v - 1 := by omega
      rw [hv, hreset n2 hr]
      exact hflag)
  rw [this, hg]

/-- C27 on the kernel with terminals of at most 30 rows: after Shrink and
RestoreAll of terminal 1 the flags are those after the Shrink, and the next
Shrink returns at "already resized". -/
theorem C27_flags_monotone_witness :
    bb_terminal_reset_all (bounded_kernel 30) USHRT (demo_shrunk 30 30 2 3)
      = some (demo_restored 30 30 2 3) ∧
    (demo_restored 30 30 2 3).resized_vts = (demo_shrunk 30 30 2 3).resized_vts ∧
    bb_terminal_shrink_current (bounded_kernel 30) USHRT (demo_restored 30 30 2 3)
      = Run.done (ShrinkExit.already_resized,
          { demo_restored 30 30 2 3 with st := { (demo_restored 30 30 2 3).st with dev :=
            { env := (demo_restored 30 30 2 3).st.dev.env,
              calls := (demo_restored 30 30 2 3).st.dev.calls
                ++ [Syscall.vt_getstate (demo_restored 30 30 2 3).current_fd (some 1)] } } }) :=
  have h := C27_flags_monotone (bounded_kernel 30) USHRT (demo_shrunk 30 30 2 3)
  ⟨rfl, h.2.1 _ rfl,
    h.2.2.2 (demo_restored 30 30 2 3) USHRT 1 (demo_restored 30 30 2 3).st.dev.env rfl rfl
      (by decide) (by decide) rfl⟩

/-! ## C21: the early exit of Maximize -/

/-- C21: when the get-size call of `reset_terminal` reads the size `d` (an
unsigned short row count) and the probe of `d.ws_row + 2` rows fails with the
error `err`, then `reset_terminal` returns success exactly when `err` is
`EINVAL`, in both cases it reports the size `d` as read (rows, columns and
pixel sizes), and it has made one get-size call and exactly one set-size
call, the probe; `errno` is `err`. -/
theorem C21_early_exit {τ : Type} (tty : Tty τ) (hf : HeightFactor) (fuel : Nat)
    (s : TermState τ) (size d : winsize) (e1 e2 : τ) (err : Errno)
    (hrow : d.ws_row < 65536)
    (hget : tty.tiocgwinsz s.dev = (Except.ok d, e1))
    (hprobe : tty.tiocswinsz e1 { d with ws_row := (d.ws_row + 2) % USHRT } = (some err, e2)) :
    reset_terminal tty hf fuel s size
      = some (decide (err = Errno.EINVAL), d,
          { dev := e2, errno := some err, gets := s.gets + 1,
            sets := s.sets ++ [{ d with ws_row := (d.ws_row + 2) % USHRT }] }) := by
  have hg : get_terminal_size tty s size = (true, d, { s with dev := e1, gets := s.gets + 1 }) := by
    unfold get_terminal_size
    rw [hget]
  have hp : set_terminal_size tty { s with dev := e1, gets := s.gets + 1 }
      { d with ws_row := (d.ws_row + 2) % USHRT }
      = (false, { dev := e2, errno := some err, gets := s.gets + 1,
                  sets := s.sets ++ [{ d with ws_row := (d.ws_row + 2) % USHRT }] }) := by
    unfold set_terminal_size
    simp only
    rw [hprobe]
  rw [reset_terminal_probe_failed tty hf fuel s _ _ size d hg hp]
  have hback : ushrt_sub ((d.ws_row + 2) % USHRT) 2 = d.ws_row := by
    unfold ushrt_sub USHRT
    split_ifs <;> omega
  simp only [hback, Option.some.injEq, Prod.mk.injEq, and_true]

/-- C21 on a terminal with at most 30 rows that has 30 rows: the probe of 32
rows is rejected as out of range and Maximize returns success with 30 rows
after this one request. -/
theorem C21_early_exit_witness :
    reset_terminal (bounded_tty 30) (HeightFactor.exact 2 3) 8
        (TermState.start { ws_row := 30, ws_col := 80, ws_xpixel := 0, ws_ypixel := 0 })
        winsize.zero
      = some (decide (Errno.EINVAL = Errno.EINVAL),
          { ws_row := 30, ws_col := 80, ws_xpixel := 0, ws_ypixel := 0 },
          { dev := { ws_row := 30, ws_col := 80, ws_xpixel := 0, ws_ypixel := 0 },
            errno := some Errno.EINVAL,
            gets := (TermState.start
              { ws_row := 30, ws_col := 80, ws_xpixel := 0, ws_ypixel := 0 }).gets + 1,
            sets := (TermState.start
              { ws_row := 30, ws_col := 80, ws_xpixel := 0, ws_ypixel := 0 }).sets
              ++ [{ ws_row := (30 + 2) % USHRT, ws_col := 80, ws_xpixel := 0,
                    ws_ypixel := 0 }] }) :=
  C21_early_exit (bounded_tty 30) (HeightFactor.exact 2 3) 8
    (TermState.start { ws_row := 30, ws_col := 80, ws_xpixel := 0, ws_ypixel := 0 })
    winsize.zero { ws_row := 30, ws_col := 80, ws_xpixel := 0, ws_ypixel := 0 }
    { ws_row := 30, ws_col := 80, ws_xpixel := 0, ws_ypixel := 0 }
    { ws_row := 30, ws_col := 80, ws_xpixel := 0, ws_ypixel := 0 } Errno.EINVAL
    (by decide) rfl rfl

/-! ## Lemmas on Maximize over a well-behaved terminal -/

theorem get_view {τ : Type} {tty : Tty τ} {R : Nat} {inv : τ → Prop} {view : τ → winsize}
    (hb : BoundedTerminal tty R inv view) (s : TermState τ) (size : winsize)
    (hi : inv s.dev) :
    ∃ s0, get_terminal_size tty s size = (true, view s.dev, s0) ∧ inv s0.dev ∧
      view s0.dev = view s.dev ∧ s0.errno = s.errno := by
  obtain ⟨h1, h2, h3⟩ := hb.get_ok s.dev hi
  rcases hx : tty.tiocgwinsz s.dev with ⟨a, d⟩
  rw [hx] at h1 h2 h3
  simp only at h1 h2 h3
  subst h1
  unfold get_terminal_size
  rw [hx]
  exact ⟨_, rfl, h2, h3, rfl⟩

theorem set_view_accept {τ : Type} {tty : Tty τ} {R : Nat} {inv : τ → Prop}
    {view : τ → winsize} (hb : BoundedTerminal tty R inv view) (s : TermState τ)
    (sz : winsize) (hi : inv s.dev) (hle : sz.ws_row ≤ R) :
    ∃ s1, set_terminal_size tty s sz = (true, s1) ∧ inv s1.dev ∧ view s1.dev = sz ∧
      s1.errno = s.errno := by
  obtain ⟨h1, h2, h3⟩ := hb.set_accept s.dev sz hi hle
  rcases hx : tty.tiocswinsz s.dev sz with ⟨a, d⟩
  rw [hx] at h1 h2 h3
  simp only at h1 h2 h3
  subst h1
  unfold set_terminal_size
  rw [hx]
  exact ⟨_, rfl, h2, h3, rfl⟩

theorem set_view_reject {τ : Type} {tty : Tty τ} {R : Nat} {inv : τ → Prop}
    {view : τ → winsize} (hb : BoundedTerminal tty R inv view) (s : TermState τ)
    (sz : winsize) (hi : inv s.dev) (hlt : R < sz.ws_row) :
    ∃ s1, set_terminal_size tty s sz = (false, s1) ∧ inv s1.dev ∧ view s1.dev = view s.dev ∧
      s1.errno = some Errno.EINVAL := by
  obtain ⟨h1, h2, h3⟩ := hb.set_reject s.dev sz hi hlt
  rcases hx : tty.tiocswinsz s.dev sz with ⟨a, d⟩
  rw [hx] at h1 h2 h3
  simp only at h1 h2 h3
  subst h1
  unfold set_terminal_size
  rw [hx]
  exact ⟨_, rfl, h2, h3, rfl⟩

/-- The downward loop on a well-behaved terminal stops at the bound. -/
theorem reset_down_loop_view {τ : Type} {tty : Tty τ} {R : Nat} {inv : τ → Prop}
    {view : τ → winsize} (hb : BoundedTerminal tty R inv view) (hR : 1 ≤ R) :
    ∀ (k : Nat) (size : winsize) (s : TermState τ), R ≤ k → inv s.dev →
      s.errno = some Errno.EINVAL →
      (reset_down_loop tty k size s).1 = { size with ws_row := R } ∧
      view (reset_down_loop tty k size s).2.dev = { size with ws_row := R } ∧
      inv (reset_down_loop tty k size s).2.dev ∧
      (reset_down_loop tty k size s).2.errno = some Errno.EINVAL := by
  intro k
  induction k with
  | zero => intro size s hk; omega
  | succ k ih =>
    intro size s hk hi he
    unfold reset_down_loop
    by_cases hle : k + 1 ≤ R
    · have hkR : k + 1 = R := by omega
      obtain ⟨s1, hset, h1, h2, h3⟩ := set_view_accept hb s { size with ws_row := k + 1 } hi hle
      simp only [hset, ↓reduceIte]
      rw [hkR] at h2 ⊢
      exact ⟨rfl, h2, h1, by rw [h3, he]⟩
    · have hlt : R < k + 1 := by omega
      obtain ⟨s1, hset, h1, _, h3⟩ := set_view_reject hb s { size with ws_row := k + 1 } hi hlt
      simp only [hset, Bool.false_eq_true, ↓reduceIte, h3]
      exact ih { size with ws_row := k + 1 } s1 (by omega) h1 h3

/-- The upward loop on a well-behaved terminal stops at the first row count
above the bound, with the terminal at the bound. -/
theorem reset_up_loop_view {τ : Type} {tty : Tty τ} {R : Nat} {inv : τ → Prop}
    {view : τ → winsize} (hb : BoundedTerminal tty R inv view) (hR : R < 65535) :
    ∀ (fuel : Nat) (size : winsize) (s : TermState τ), size.ws_row ≤ R → inv s.dev →
      view s.dev = size → R + 1 - size.ws_row ≤ fuel →
      ∃ s2, reset_up_loop tty fuel size s = some ({ size with ws_row := R + 1 }, s2) ∧
        view s2.dev = { size with ws_row := R } ∧ inv s2.dev ∧
        s2.errno = some Errno.EINVAL := by
  intro fuel
  induction fuel with
  | zero => intro size s hle _ _ hf; omega
  | succ fuel ih =>
    intro size s hle hi hdev hf
    unfold reset_up_loop
    have hmod : (size.ws_row + 1) % USHRT = size.ws_row + 1 := by
      unfold USHRT
      omega
    rw [hmod]
    by_cases hacc : size.ws_row + 1 ≤ R
    · obtain ⟨s1, hset, h1, h2, _⟩ :=
        set_view_accept hb s { size with ws_row := size.ws_row + 1 } hi hacc
      simp only [hset, ↓reduceIte]
      obtain ⟨s2, g1, g2, g3, g4⟩ := ih { size with ws_row := size.ws_row + 1 } s1 hacc h1 h2
        (by simp only; omega)
      exact ⟨s2, g1, g2, g3, g4⟩
    · have hrow : size.ws_row = R := by omega
      obtain ⟨s1, hset, h1, h2, h3⟩ :=
        set_view_reject hb s { size with ws_row := size.ws_row + 1 } hi (by simp only; omega)
      simp only [hset, Bool.false_eq_true, ↓reduceIte]
      refine ⟨s1, by rw [hrow], ?_, h1, h3⟩
      rw [h2, hdev, ← hrow]

/-- Maximize on a well-behaved terminal, in closed form: when the probe of
two more rows is rejected the size is returned as it is, else the terminal
ends at the bound, which is returned. -/
theorem reset_terminal_view {τ : Type} {tty : Tty τ} {R : Nat} {inv : τ → Prop}
    {view : τ → winsize} (hb : BoundedTerminal tty R inv view) (hf : HeightFactor)
    (hR1 : 1 ≤ R) (hR : R < 65534) (fuel : Nat) (hfuel : 65536 ≤ fuel) (s : TermState τ)
    (size : winsize) (hi : inv s.dev) (hrow : (view s.dev).ws_row ≤ R) :
    ∃ s2, reset_terminal tty hf fuel s size
        = some (true,
            (if (view s.dev).ws_row + 2 ≤ R then { view s.dev with ws_row := R }
             else view s.dev), s2) ∧
      view s2.dev = (if (view s.dev).ws_row + 2 ≤ R then { view s.dev with ws_row := R }
        else view s.dev) ∧
      inv s2.dev := by
  obtain ⟨s0, hget, i0, v0, e0⟩ := get_view hb s size hi
  by_cases hp : (view s.dev).ws_row + 2 ≤ R
  · have hmod : ((view s.dev).ws_row + 2) % USHRT = (view s.dev).ws_row + 2 := by
      unfold USHRT
      omega
    obtain ⟨s1, hprobe, i1, v1, e1⟩ := set_view_accept hb s0
      { view s.dev with ws_row := ((view s.dev).ws_row + 2) % USHRT } i0 (by rw [hmod]; exact hp)
    simp only [hp, ↓reduceIte]
    by_cases hc : hf.div_floor (((view s.dev).ws_row + 2) % USHRT) % USHRT ≤ R
    · obtain ⟨s2, hcand, i2, v2, e2⟩ := set_view_accept hb s1
        { view s.dev with ws_row := hf.div_floor (((view s.dev).ws_row + 2) % USHRT) % USHRT }
        i1 hc
      obtain ⟨s3, h1, h2, h3, h4⟩ := reset_up_loop_view hb (by omega) fuel
        { view s.dev with ws_row := hf.div_floor (((view s.dev).ws_row + 2) % USHRT) % USHRT }
        s2 hc i2 v2 (by simp only; omega)
      rw [reset_terminal_upward tty hf fuel s s0 s1 s2 s3 size (view s.dev) _ hget hprobe hcand h1]
      have hsub : ushrt_sub (R + 1) 1 = R := by
        unfold ushrt_sub
        simp
      simp only [h4, ne_eq, not_true_eq_false, ↓reduceIte, hsub]
      exact ⟨s3, rfl, h2, h3⟩
    · have hlt : R < hf.div_floor (((view s.dev).ws_row + 2) % USHRT) % USHRT := by omega
      obtain ⟨s2, hcand, i2, v2, e2⟩ := set_view_reject hb s1
        { view s.dev with ws_row := hf.div_floor (((view s.dev).ws_row + 2) % USHRT) % USHRT }
        i1 hlt
      have hk : R ≤ ushrt_sub (hf.div_floor (((view s.dev).ws_row + 2) % USHRT) % USHRT) 1 := by
        unfold ushrt_sub
        split_ifs <;> omega
      obtain ⟨d1, d2, d3, d4⟩ := reset_down_loop_view hb hR1
        (ushrt_sub (hf.div_floor (((view s.dev).ws_row + 2) % USHRT) % USHRT) 1)
        { view s.dev with ws_row := hf.div_floor (((view s.dev).ws_row + 2) % USHRT) % USHRT }
        s2 hk i2 e2
      rw [reset_terminal_downward tty hf fuel s s0 s1 s2 size (view s.dev) hget hprobe hcand e2
        _ rfl]
      have hne : ¬ (reset_down_loop tty
          (ushrt_sub (hf.div_floor (((view s.dev).ws_row + 2) % USHRT) % USHRT) 1)
          { view s.dev with
            ws_row := hf.div_floor (((view s.dev).ws_row + 2) % USHRT) % USHRT } s2).1.ws_row
          = 0 := by
        rw [d1]
        simp only
        omega
      simp only [d4, ne_eq, not_true_eq_false, hne, or_self, ↓reduceIte]
      rw [d1]
      exact ⟨_, rfl, d2, d3⟩
  · have hmod : ((view s.dev).ws_row + 2) % USHRT = (view s.dev).ws_row + 2 := by
      unfold USHRT
      omega
    obtain ⟨s1, hprobe, i1, v1, e1⟩ := set_view_reject hb s0
      { view s.dev with ws_row := ((view s.dev).ws_row + 2) % USHRT } i0
      (by rw [hmod]; simp only; omega)
    rw [reset_terminal_probe_failed tty hf fuel s s0 s1 size (view s.dev) hget hprobe]
    have hback : ushrt_sub (((view s.dev).ws_row + 2) % USHRT) 2 = (view s.dev).ws_row := by
      unfold ushrt_sub USHRT
      split_ifs <;> omega
    simp only [hp, ↓reduceIte, e1, decide_True, hback]
    exact ⟨s1, rfl, by rw [v1, v0], i1⟩

/-- The terminal `bounded_tty R` is well-behaved with at most `R` rows. -/
theorem bounded_tty_terminal (R : Nat) :
    BoundedTerminal (bounded_tty R) R (fun _ => True) (fun d => d) := by
  refine ⟨fun d _ => ⟨rfl, trivial, rfl⟩, fun d sz _ hle => ?_, fun d sz _ hlt => ?_⟩
  · simp only [bounded_tty, hle, ↓reduceIte]
    exact ⟨trivial, trivial, trivial⟩
  · have hn : ¬ sz.ws_row ≤ R := by omega
    simp only [bounded_tty, hn, ↓reduceIte]
    exact ⟨trivial, trivial, trivial⟩

/-- A descriptor of the kernel with bounded terminals that is open on the
terminal `vt` is a well-behaved terminal with at most `R` rows, whose size is
the size of `vt`; the size calls keep the descriptors and the active
terminal. -/
theorem bounded_kernel_terminal (R : Nat) (F : List (Option Nat)) (a : Nat) (fd : Int)
    (vt : Nat) (hfd : 0 ≤ fd) (hl : F.getD fd.toNat none = some vt) :
    BoundedTerminal ((bounded_kernel R).tty fd) R
      (fun w => w.env.fds = F ∧ w.env.active = a) (fun w => w.env.size vt) := by
  have hlook : ∀ w : VtWorld, w.fds = F → w.lookup fd = some vt := by
    intro w hw
    unfold VtWorld.lookup
    rw [if_neg (by omega), hw, hl]
  refine ⟨fun d hi => ?_, fun d sz hi hle => ?_, fun d sz hi hlt => ?_⟩
  · simp only [Kernel.tty, bounded_kernel, hlook d.env hi.1]
    exact ⟨trivial, hi, trivial⟩
  · simp only [Kernel.tty, bounded_kernel, hlook d.env hi.1, hle, ↓reduceIte]
    exact ⟨trivial, hi, trivial⟩
  · have hn : ¬ sz.ws_row ≤ R := by omega
    simp only [Kernel.tty, bounded_kernel, hlook d.env hi.1, hn, ↓reduceIte]
    exact ⟨trivial, hi, trivial⟩

/-! ## C24: the exact result of Maximize on a well-behaved terminal -/

/-- C24: on a terminal whose set-size call accepts a row count exactly when
it is at most `R` (with `R + 2` still an unsigned short), started at `r` rows
with `1 ≤ r ≤ R`, for every height factor `reset_terminal` with enough fuel
returns success; when `r + 2 ≤ R` it returns `R` rows and leaves the terminal
at `R` rows, and otherwise, which is the case for `r = R` and `r = R - 1`
only, it returns `r` rows and leaves the terminal at `r` rows. -/
theorem C24_maximize_exact {τ : Type} (tty : Tty τ) (R : Nat) (inv : τ → Prop)
    (view : τ → winsize) (hb : BoundedTerminal tty R inv view) (hf : HeightFactor)
    (hR : R < 65534) (fuel : Nat) (hfuel : 65536 ≤ fuel) (s : TermState τ) (size : winsize)
    (hi : inv s.dev) (h1 : 1 ≤ (view s.dev).ws_row) (h2 : (view s.dev).ws_row ≤ R) :
    (∃ s2, reset_terminal tty hf fuel s size
        = some (true,
            (if (view s.dev).ws_row + 2 ≤ R then { view s.dev with ws_row := R }
             else view s.dev), s2) ∧
      view s2.dev = (if (view s.dev).ws_row + 2 ≤ R then { view s.dev with ws_row := R }
        else view s.dev)) ∧
    (¬ (view s.dev).ws_row + 2 ≤ R ↔
      (view s.dev).ws_row = R ∨ (view s.dev).ws_row = R - 1) := by
  obtain ⟨s2, g1, g2, _⟩ := reset_terminal_view hb hf (by omega) hR fuel hfuel s size hi h2
  exact ⟨⟨s2, g1, g2⟩, by omega⟩

/-- C24 on the terminal with at most 30 rows, started at 20 rows: Maximize
returns 30 rows and leaves the terminal at 30 rows. -/
theorem C24_maximize_exact_witness :
    ∃ s2, reset_terminal (bounded_tty 30) (HeightFactor.exact 2 3) 65536
        (TermState.start { ws_row := 20, ws_col := 80, ws_xpixel := 0, ws_ypixel := 0 })
        winsize.zero
        = some (true, { ws_row := 30, ws_col := 80, ws_xpixel := 0, ws_ypixel := 0 }, s2) ∧
      s2.dev = { ws_row := 30, ws_col := 80, ws_xpixel := 0, ws_ypixel := 0 } :=
  (C24_maximize_exact (bounded_tty 30) 30 (fun _ => True) (fun d => d) (bounded_tty_terminal 30)
    (HeightFactor.exact 2 3) (by decide) 65536 (by decide)
    (TermState.start { ws_row := 20, ws_col := 80, ws_xpixel := 0, ws_ypixel := 0 })
    winsize.zero trivial (by decide) (by decide)).1

/-! ## Lemmas on the probe loops: the calls with their answers -/

theorem rejected_down_succ (fd : Int) (size : winsize) (m n : Nat) :
    rejected_down fd size (m + 1) (n + 1)
      = Syscall.tiocswinsz fd { size with ws_row := m + 1 } (some Errno.EINVAL)
        :: rejected_down fd size m n := by
  unfold rejected_down
  rw [List.range_succ_eq_map, List.map_cons, List.map_map]
  congr 1
  apply List.map_congr_left
  intro j _
  simp only [Function.comp, Nat.zero_eq, Nat.succ_eq_add_one, Nat.add_sub_add_right]

theorem mem_rejected_down (fd : Int) (size : winsize) (m n : Nat) (x : Syscall)
    (h : x ∈ rejected_down fd size m n) :
    ∃ row, x = Syscall.tiocswinsz fd { size with ws_row := row } (some Errno.EINVAL) ∧
      m + 1 ≤ row + n ∧ row ≤ m := by
  unfold rejected_down at h
  rw [List.mem_map] at h
  obtain ⟨j, hj, rfl⟩ := h
  rw [List.mem_range] at hj
  exact ⟨m - j, rfl, by omega, by omega⟩

/-- The calls of the downward loop on `fd`, entered with `errno = EINVAL`:
requests of `m`, `m - 1`, ... rows, each rejected as out of range, up to the
first request with another answer (row count `a`, at least 1), or down to 1
row when every request is rejected as out of range. -/
theorem reset_down_loop_trace {ε : Type} (k : Kernel ε) (fd : Int) :
    ∀ (m : Nat) (size : winsize) (s : TermState (Sys ε)), s.errno = some Errno.EINVAL →
      (∃ (a : Nat) (e : ε), 1 ≤ a ∧ a ≤ m ∧
        (k.tiocswinsz e fd { size with ws_row := a }).1 ≠ some Errno.EINVAL ∧
        (reset_down_loop (k.tty fd) m size s).2.dev.calls
          = s.dev.calls ++ (rejected_down fd size m (m - a)
            ++ [Syscall.tiocswinsz fd { size with ws_row := a }
                  (k.tiocswinsz e fd { size with ws_row := a }).1]) ∧
        (reset_down_loop (k.tty fd) m size s).1 = { size with ws_row := a } ∧
        (reset_down_loop (k.tty fd) m size s).2.dev.env
          = (k.tiocswinsz e fd { size with ws_row := a }).2 ∧
        ((k.tiocswinsz e fd { size with ws_row := a }).1 = none →
          (reset_down_loop (k.tty fd) m size s).2.errno = some Errno.EINVAL) ∧
        (∀ err, (k.tiocswinsz e fd { size with ws_row := a }).1 = some err →
          (reset_down_loop (k.tty fd) m size s).2.errno = some err)) ∨
      ((reset_down_loop (k.tty fd) m size s).2.dev.calls
          = s.dev.calls ++ rejected_down fd size m m ∧
        (reset_down_loop (k.tty fd) m size s).1 = { size with ws_row := 0 } ∧
        (reset_down_loop (k.tty fd) m size s).2.errno = some Errno.EINVAL) := by
  intro m
  induction m with
  | zero =>
    intro size s he
    right
    exact ⟨by simp [reset_down_loop, rejected_down], rfl, he⟩
  | succ m ih =>
    intro size s he
    have hset := set_terminal_size_tty k fd s { size with ws_row := m + 1 }
    cases hb : (set_terminal_size (k.tty fd) s { size with ws_row := m + 1 }).1 with
    | true =>
      have hval : reset_down_loop (k.tty fd) (m + 1) size s
          = ({ size with ws_row := m + 1 },
              (set_terminal_size (k.tty fd) s { size with ws_row := m + 1 }).2) := by
        rw [reset_down_loop]
        simp only [hb, ↓reduceIte]
      left
      obtain ⟨hn, herr⟩ := hset.2.2.2 hb
      rw [hval]
      refine ⟨m + 1, s.dev.env, by omega, le_refl _, by rw [hn]; simp, ?_, rfl, hset.2.1,
        fun _ => by rw [herr, he], fun err h => by rw [hn] at h; cases h⟩
      rw [hset.1, Nat.sub_self]
      rfl
    | false =>
      obtain ⟨e1, hn, herr⟩ := hset.2.2.1 hb
      by_cases hinv : (set_terminal_size (k.tty fd) s { size with ws_row := m + 1 }).2.errno
          = some Errno.EINVAL
      · have hval : reset_down_loop (k.tty fd) (m + 1) size s
            = reset_down_loop (k.tty fd) m { size with ws_row := m + 1 }
                (set_terminal_size (k.tty fd) s { size with ws_row := m + 1 }).2 := by
          rw [reset_down_loop]
          simp only [hb, hinv, Bool.false_eq_true, ↓reduceIte]
        have he1 : e1 = Errno.EINVAL := by
          rw [herr] at hinv
          exact Option.some.inj hinv
        subst he1
        rw [hval]
        rcases ih { size with ws_row := m + 1 }
            (set_terminal_size (k.tty fd) s { size with ws_row := m + 1 }).2 hinv with
          ⟨a, e, ha1, ha2, hans, hcalls, hsize, henv, hok, hfail⟩ | ⟨hcalls, hsize, herrno⟩
        · left
          refine ⟨a, e, ha1, by omega, hans, ?_, hsize, henv, hok, hfail⟩
          rw [hcalls, hset.1, hn]
          have hsub : m + 1 - a = (m - a) + 1 := by omega
          rw [hsub, rejected_down_succ, List.append_assoc]
          rfl
        · right
          refine ⟨?_, hsize, herrno⟩
          rw [hcalls, hset.1, hn, rejected_down_succ, List.append_assoc]
          rfl
      · have hval : reset_down_loop (k.tty fd) (m + 1) size s
            = ({ size with ws_row := m + 1 },
                (set_terminal_size (k.tty fd) s { size with ws_row := m + 1 }).2) := by
          rw [reset_down_loop]
          simp only [hb, hinv, Bool.false_eq_true, ↓reduceIte]
        left
        rw [hval]
        refine ⟨m + 1, s.dev.env, by omega, le_refl _, ?_, ?_, rfl, hset.2.1,
          fun h => (by rw [hn] at h; cases h), fun err h => by rw [herr, ← hn, h]⟩
        · rw [hn]
          intro h
          rw [herr, h] at hinv
          exact hinv rfl
        · rw [hset.1, Nat.sub_self]
          rfl

theorem set_terminal_size_tty_none {ε : Type} (k : Kernel ε) (fd : Int)
    (s : TermState (Sys ε)) (sz : winsize) (e : ε)
    (h : k.tiocswinsz s.dev.env fd sz = (none, e)) :
    set_terminal_size (k.tty fd) s sz
      = (true, { s with dev := { env := e,
                                 calls := s.dev.calls ++ [Syscall.tiocswinsz fd sz none] },
                        sets := s.sets ++ [sz] }) := by
  unfold set_terminal_size Kernel.tty
  simp only [h]

theorem set_terminal_size_tty_some {ε : Type} (k : Kernel ε) (fd : Int)
    (s : TermState (Sys ε)) (sz : winsize) (e : ε) (err : Errno)
    (h : k.tiocswinsz s.dev.env fd sz = (some err, e)) :
    set_terminal_size (k.tty fd) s sz
      = (false, { s with dev := { env := e,
                                  calls := s.dev.calls ++ [Syscall.tiocswinsz fd sz (some err)] },
                         errno := some err, sets := s.sets ++ [sz] }) := by
  unfold set_terminal_size Kernel.tty
  simp only [h]

/-- Maximize through the downward loop, on states given by the results of
its first three calls. -/
theorem reset_terminal_down_trace {ε : Type} (k : Kernel ε) (fd : Int) (hf : HeightFactor)
    (fuel : Nat) (s s0 s1 s2 : TermState (Sys ε)) (size d : winsize) (c : Nat)
    (hg : get_terminal_size (k.tty fd) s size = (true, d, s0))
    (hp : set_terminal_size (k.tty fd) s0 { d with ws_row := (d.ws_row + 2) % USHRT }
      = (true, s1))
    (hc : hf.div_floor ((d.ws_row + 2) % USHRT) % USHRT = c) (hpos : 1 ≤ c)
    (hcd : set_terminal_size (k.tty fd) s1 { d with ws_row := c } = (false, s2))
    (he : s2.errno = some Errno.EINVAL) :
    ∃ (b : Bool) (M : winsize) (t : TermState (Sys ε)) (L : List Syscall),
      reset_terminal (k.tty fd) hf fuel s size = some (b, M, t) ∧
      t.dev.calls = s2.dev.calls ++ L ∧
      (∀ x ∈ L, ∃ row ans, x = Syscall.tiocswinsz fd { d with ws_row := row } ans ∧
        1 ≤ row ∧ row < c) ∧
      ((∃ (a : Nat) (ans : Option Errno), 1 ≤ a ∧ a < c ∧ ans ≠ some Errno.EINVAL ∧
          L = rejected_down fd d (c - 1) (c - 1 - a)
            ++ [Syscall.tiocswinsz fd { d with ws_row := a } ans] ∧
          M = { d with ws_row := a } ∧ b = decide (ans = none) ∧
          (ans = none → remembers_size k fd →
            (k.tiocgwinsz t.dev.env fd).1 = Except.ok M)) ∨
       (L = rejected_down fd d (c - 1) (c - 1) ∧ b = false)) := by
  have hsub : ushrt_sub c 1 = c - 1 := by
    unfold ushrt_sub
    rw [if_pos hpos]
  rw [← hc] at hcd
  have hrun := reset_terminal_downward (k.tty fd) hf fuel s s0 s1 s2 size d hg hp hcd he _ rfl
  rw [hc, hsub] at hrun
  rw [hrun]
  rcases reset_down_loop_trace k fd (c - 1) { d with ws_row := c } s2 he with
    ⟨a, e, ha1, ha2, hans, hcalls, hsize, henv, hok, hfail⟩ | ⟨hcalls, hsize, herrno⟩
  · have hmem : ∀ x ∈ rejected_down fd d (c - 1) (c - 1 - a)
          ++ [Syscall.tiocswinsz fd { d with ws_row := a }
                (k.tiocswinsz e fd { d with ws_row := a }).1],
        ∃ row ans, x = Syscall.tiocswinsz fd { d with ws_row := row } ans ∧
          1 ≤ row ∧ row < c := by
      intro x hx
      rcases List.mem_append.1 hx with hx | hx
      · obtain ⟨row, hrow, h1, h2⟩ := mem_rejected_down fd d (c - 1) (c - 1 - a) x hx
        exact ⟨row, _, hrow, by omega, by omega⟩
      · rw [List.mem_singleton] at hx
        exact ⟨a, _, hx, ha1, by omega⟩
    cases hans2 : (k.tiocswinsz e fd { d with ws_row := a }).1 with
    | none =>
      have herr := hok hans2
      have hrow : ¬ (reset_down_loop (k.tty fd) (c - 1) { d with ws_row := c } s2).1.ws_row
          = 0 := by
        rw [hsize]
        simp only
        omega
      simp only [herr, ne_eq, not_true_eq_false, hrow, or_self, ↓reduceIte]
      refine ⟨true, _, _, _, rfl, hcalls, hmem,
        Or.inl ⟨a, _, ha1, by omega, hans, rfl, hsize, ?_, ?_⟩⟩
      · rw [hans2]
        rfl
      · intro _ hrem
        rw [henv, hsize]
        exact hrem.1 e _ hans2
    | some err =>
      have herr := hfail err hans2
      have hne : err ≠ Errno.EINVAL := by
        intro h
        rw [hans2, h] at hans
        exact hans rfl
      have hne2 : (reset_down_loop (k.tty fd) (c - 1) { d with ws_row := c } s2).2.errno
          ≠ some Errno.EINVAL := by
        rw [herr]
        intro h
        exact hne (Option.some.inj h)
      simp only [hne2, ne_eq, not_false_eq_true, true_or, ↓reduceIte]
      refine ⟨false, _, _, _, rfl, hcalls, hmem,
        Or.inl ⟨a, _, ha1, by omega, hans, rfl, hsize, ?_, ?_⟩⟩
      · rw [hans2]
        rfl
      · intro h
        rw [hans2] at h
        cases h
  · have hrow : (reset_down_loop (k.tty fd) (c - 1) { d with ws_row := c } s2).1.ws_row
        = 0 := by
      rw [hsize]
    simp only [hrow, or_true, ↓reduceIte]
    refine ⟨false, _, _, rejected_down fd d (c - 1) (c - 1), rfl, hcalls, ?_,
      Or.inr ⟨rfl, rfl⟩⟩
    intro x hx
    obtain ⟨row, hrow, h1, h2⟩ := mem_rejected_down fd d (c - 1) (c - 1) x hx
    exact ⟨row, _, hrow, by omega, by omega⟩

/-! ## C22: the downward probe of Maximize -/

/-- C22: when the get-size call reads `d`, the probe of `d.ws_row + 2` rows
is accepted and the candidate `c = floor((rows + 2) / factor)` (an unsigned
short, at least 1) is rejected as out of range, `reset_terminal` returns, and
after the get-size call, the probe and the candidate its calls `L` are
set-size requests of row counts between 1 and `c - 1` only (never 0 rows):
either the requests of `c - 1`, `c - 2`, ... rows, each rejected as out of
range, up to the first request `a` with another answer, and then it returns
the row count `a`, with success exactly when that request was accepted (the
terminal then reports that size, if it reports what it was last set to); or
the requests of `c - 1` down to 1 rows, all rejected as out of range, and then
it returns failure. -/
theorem C22_downward_probe {ε : Type} (k : Kernel ε) (fd : Int) (hf : HeightFactor)
    (fuel : Nat) (s : TermState (Sys ε)) (size d : winsize) (e0 e1 e2 : ε) (c : Nat)
    (hget : k.tiocgwinsz s.dev.env fd = (Except.ok d, e0))
    (hprobe : k.tiocswinsz e0 fd { d with ws_row := (d.ws_row + 2) % USHRT } = (none, e1))
    (hc : hf.div_floor ((d.ws_row + 2) % USHRT) % USHRT = c) (hpos : 1 ≤ c)
    (hcand : k.tiocswinsz e1 fd { d with ws_row := c } = (some Errno.EINVAL, e2)) :
    ∃ (b : Bool) (M : winsize) (s2 : TermState (Sys ε)) (L : List Syscall),
      reset_terminal (k.tty fd) hf fuel s size = some (b, M, s2) ∧
      s2.dev.calls
        = s.dev.calls ++
          [Syscall.tiocgwinsz fd (Except.ok d),
           Syscall.tiocswinsz fd { d with ws_row := (d.ws_row + 2) % USHRT } none,
           Syscall.tiocswinsz fd { d with ws_row := c } (some Errno.EINVAL)] ++ L ∧
      (∀ x ∈ L, ∃ row ans, x = Syscall.tiocswinsz fd { d with ws_row := row } ans ∧
        1 ≤ row ∧ row < c) ∧
      ((∃ (a : Nat) (ans : Option Errno), 1 ≤ a ∧ a < c ∧ ans ≠ some Errno.EINVAL ∧
          L = rejected_down fd d (c - 1) (c - 1 - a)
            ++ [Syscall.tiocswinsz fd { d with ws_row := a } ans] ∧
          M = { d with ws_row := a } ∧ b = decide (ans = none) ∧
          (ans = none → remembers_size k fd →
            (k.tiocgwinsz s2.dev.env fd).1 = Except.ok M)) ∨
       (L = rejected_down fd d (c - 1) (c - 1) ∧ b = false)) := by
  have hg := get_terminal_size_tty_ok k fd s size d e0 hget
  have hp := set_terminal_size_tty_none k fd
    { s with dev := { env := e0, calls := s.dev.calls ++ [Syscall.tiocgwinsz fd (Except.ok d)] },
             gets := s.gets + 1 }
    { d with ws_row := (d.ws_row + 2) % USHRT } e1 hprobe
  have hcd := set_terminal_size_tty_some k fd
    { s with dev := { env := e1, calls := (s.dev.calls ++ [Syscall.tiocgwinsz fd (Except.ok d)])
                        ++ [Syscall.tiocswinsz fd
                              { d with ws_row := (d.ws_row + 2) % USHRT } none] },
             gets := s.gets + 1,
             sets := s.sets ++ [{ d with ws_row := (d.ws_row + 2) % USHRT }] }
    { d with ws_row := c } e2 Errno.EINVAL hcand
  obtain ⟨b, M, t, L, h1, h2, h3, h4⟩ :=
    reset_terminal_down_trace k fd hf fuel s _ _ _ size d c hg hp hc hpos hcd rfl
  refine ⟨b, M, t, L, h1, ?_, h3, h4⟩
  rw [h2]
  simp only [List.append_assoc, List.cons_append, List.nil_append]

/-- C22 on the kernel with terminals of at most 30 rows, terminal 1 at 20
rows, factor 2/3: the probe of 22 rows is accepted, the candidate of 33 rows
is rejected as out of range, and the loop requests row counts between 1 and
32 only. -/
theorem C22_downward_probe_witness :
    ∃ (b : Bool) (M : winsize) (s2 : TermState (Sys VtWorld)) (L : List Syscall),
      reset_terminal ((bounded_kernel 30).tty 0) (HeightFactor.exact 2 3) 8
        (demo_init 30 20 2 3).st winsize.zero = some (b, M, s2) ∧
      s2.dev.calls
        = (demo_init 30 20 2 3).st.dev.calls ++
          [Syscall.tiocgwinsz 0
             (Except.ok { ws_row := 20, ws_col := 80, ws_xpixel := 0, ws_ypixel := 0 }),
           Syscall.tiocswinsz 0
             { ws_row := (20 + 2) % USHRT, ws_col := 80, ws_xpixel := 0, ws_ypixel := 0 } none,
           Syscall.tiocswinsz 0 { ws_row := 33, ws_col := 80, ws_xpixel := 0, ws_ypixel := 0 }
             (some Errno.EINVAL)] ++ L ∧
      (∀ x ∈ L, ∃ row ans,
        x = Syscall.tiocswinsz 0 { ws_row := row, ws_col := 80, ws_xpixel := 0, ws_ypixel := 0 }
          ans ∧ 1 ≤ row ∧ row < 33) :=
  match C22_downward_probe (bounded_kernel 30) 0 (HeightFactor.exact 2 3) 8
    (demo_init 30 20 2 3).st winsize.zero
    { ws_row := 20, ws_col := 80, ws_xpixel := 0, ws_ypixel := 0 }
    (demo_init 30 20 2 3).st.dev.env
    ((bounded_kernel 30).tiocswinsz (demo_init 30 20 2 3).st.dev.env 0
      { ws_row := 22, ws_col := 80, ws_xpixel := 0, ws_ypixel := 0 }).2
    ((bounded_kernel 30).tiocswinsz (demo_init 30 20 2 3).st.dev.env 0
      { ws_row := 22, ws_col := 80, ws_xpixel := 0, ws_ypixel := 0 }).2
    33 rfl rfl (by decide) (by decide) rfl with
  | ⟨b, M, s2, L, h1, h2, h3, _⟩ => ⟨b, M, s2, L, h1, h2, h3⟩

theorem accepted_up_succ (fd : Int) (size size1 : winsize) (c n : Nat)
    (h1 : size1.ws_col = size.ws_col) (h2 : size1.ws_xpixel = size.ws_xpixel)
    (h3 : size1.ws_ypixel = size.ws_ypixel) :
    accepted_up fd size c (n + 1)
      = Syscall.tiocswinsz fd { size with ws_row := (c + 1) % USHRT } none
        :: accepted_up fd size1 ((c + 1) % USHRT) n := by
  unfold accepted_up
  rw [List.range_succ_eq_map, List.map_cons, List.map_map]
  congr 1
  apply List.map_congr_left
  intro j _
  have hrow : (c + 1 + (j + 1)) % USHRT = ((c + 1) % USHRT + 1 + j) % USHRT := by
    unfold USHRT
    omega
  simp only [Function.comp, Nat.succ_eq_add_one, hrow, h1, h2, h3]

/-- The calls of the upward loop on `fd`, when it ends: `t - 1` accepted
requests of one more row each, then the rejected request. -/
theorem reset_up_loop_trace {ε : Type} (k : Kernel ε) (fd : Int) :
    ∀ (fuel : Nat) (size size3 : winsize) (s s3 : TermState (Sys ε)),
      reset_up_loop (k.tty fd) fuel size s = some (size3, s3) →
      ∃ (t : Nat) (err : Errno), 1 ≤ t ∧
        s3.dev.calls = s.dev.calls ++ (accepted_up fd size size.ws_row (t - 1)
          ++ [Syscall.tiocswinsz fd { size with ws_row := (size.ws_row + t) % USHRT }
                (some err)]) ∧
        size3 = { size with ws_row := (size.ws_row + t) % USHRT } ∧
        s3.errno = some err := by
  intro fuel
  induction fuel with
  | zero => intro size size3 s s3 h; simp [reset_up_loop] at h
  | succ fuel ih =>
    intro size size3 s s3 h
    have hset := set_terminal_size_tty k fd s { size with ws_row := (size.ws_row + 1) % USHRT }
    rw [reset_up_loop] at h
    cases hb : (set_terminal_size (k.tty fd) s
        { size with ws_row := (size.ws_row + 1) % USHRT }).1 with
    | true =>
      obtain ⟨hn, _⟩ := hset.2.2.2 hb
      simp only [hb, ↓reduceIte] at h
      obtain ⟨t, err, ht, hcalls, hsize, herr⟩ := ih _ _ _ _ h
      refine ⟨t + 1, err, by omega, ?_, ?_, herr⟩
      · rw [hcalls, hset.1, hn]
        have ht1 : t + 1 - 1 = (t - 1) + 1 := by omega
        rw [ht1, accepted_up_succ fd size { size with ws_row := (size.ws_row + 1) % USHRT }
          size.ws_row (t - 1) rfl rfl rfl]
        have hrow : ((size.ws_row + 1) % USHRT + t) % USHRT
            = (size.ws_row + (t + 1)) % USHRT := by
          unfold USHRT
          omega
        simp only [hrow, List.append_assoc, List.cons_append, List.nil_append]
      · rw [hsize]
        have hrow : ((size.ws_row + 1) % USHRT + t) % USHRT
            = (size.ws_row + (t + 1)) % USHRT := by
          unfold USHRT
          omega
        simp only [hrow]
    | false =>
      obtain ⟨e1, hn, herr⟩ := hset.2.2.1 hb
      simp only [hb, Bool.false_eq_true, ↓reduceIte, Option.some.injEq, Prod.mk.injEq] at h
      refine ⟨1, e1, le_refl _, ?_, h.1.symm, by rw [← h.2, herr]⟩
      rw [← h.2, hset.1, hn]
      rfl

/-- What the terminal reports after the upward loop, if it reports the size
it was last set to: the row count before the rejected one. -/
theorem reset_up_loop_reports {ε : Type} (k : Kernel ε) (fd : Int)
    (hrem : remembers_size k fd) :
    ∀ (fuel : Nat) (size size3 : winsize) (s s3 : TermState (Sys ε)),
      size.ws_row < 65536 → (k.tiocgwinsz s.dev.env fd).1 = Except.ok size →
      reset_up_loop (k.tty fd) fuel size s = some (size3, s3) →
      (k.tiocgwinsz s3.dev.env fd).1
        = Except.ok { size3 with ws_row := ushrt_sub size3.ws_row 1 } := by
  intro fuel
  induction fuel with
  | zero => intro size size3 s s3 _ _ h; simp [reset_up_loop] at h
  | succ fuel ih =>
    intro size size3 s s3 hlt hrep h
    have hset := set_terminal_size_tty k fd s { size with ws_row := (size.ws_row + 1) % USHRT }
    rw [reset_up_loop] at h
    cases hb : (set_terminal_size (k.tty fd) s
        { size with ws_row := (size.ws_row + 1) % USHRT }).1 with
    | true =>
      obtain ⟨hn, _⟩ := hset.2.2.2 hb
      simp only [hb, ↓reduceIte] at h
      refine ih _ _ _ _ ?_ ?_ h
      · simp only
        unfold USHRT
        omega
      · rw [hset.2.1]
        exact hrem.1 _ _ hn
    | false =>
      obtain ⟨e1, hn, _⟩ := hset.2.2.1 hb
      simp only [hb, Bool.false_eq_true, ↓reduceIte, Option.some.injEq, Prod.mk.injEq] at h
      rw [← h.2, ← h.1, hset.2.1, hrem.2 _ _ e1 hn, hrep]
      have hback : ushrt_sub ((size.ws_row + 1) % USHRT) 1 = size.ws_row := by
        unfold ushrt_sub USHRT
        split_ifs <;> omega
      simp only [hback]

/-- Maximize through the upward loop, on states given by the results of its
first three calls. -/
theorem reset_terminal_up_trace {ε : Type} (k : Kernel ε) (fd : Int) (hf : HeightFactor)
    (fuel : Nat) (s s0 s1 s2 : TermState (Sys ε)) (size d : winsize) (c : Nat)
    (hg : get_terminal_size (k.tty fd) s size = (true, d, s0))
    (hp : set_terminal_size (k.tty fd) s0 { d with ws_row := (d.ws_row + 2) % USHRT }
      = (true, s1))
    (hc : hf.div_floor ((d.ws_row + 2) % USHRT) % USHRT = c)
    (hcd : set_terminal_size (k.tty fd) s1 { d with ws_row := c } = (true, s2))
    (B : Nat) (hB : B < 65536)
    (hrej : ∀ e sz, sz.ws_row = B → (k.tiocswinsz e fd sz).1 ≠ none)
    (hfuel : 65536 ≤ fuel) :
    ∃ (t : Nat) (err : Errno) (M : winsize) (s3 : TermState (Sys ε)), 1 ≤ t ∧
      reset_terminal (k.tty fd) hf fuel s size = some (decide (err = Errno.EINVAL), M, s3) ∧
      s3.dev.calls = s2.dev.calls ++ (accepted_up fd d c (t - 1)
        ++ [Syscall.tiocswinsz fd { d with ws_row := (c + t) % USHRT } (some err)]) ∧
      s3.errno = some err ∧
      (err = Errno.EINVAL → M = { d with ws_row := (c + (t - 1)) % USHRT } ∧
        (remembers_size k fd → (k.tiocgwinsz s2.dev.env fd).1 = Except.ok { d with ws_row := c } →
          (k.tiocgwinsz s3.dev.env fd).1 = Except.ok M)) := by
  have hclt : c < 65536 := by
    rw [← hc]
    unfold USHRT
    omega
  obtain ⟨r, hr, _⟩ := reset_terminal_terminates (k.tty fd) B hB
    (fun w sz h => hrej w.env sz h) hf fuel hfuel s size
  rw [← hc] at hcd
  cases hu : reset_up_loop (k.tty fd) fuel
      { d with ws_row := hf.div_floor ((d.ws_row + 2) % USHRT) % USHRT } s2 with
  | none =>
    rw [reset_terminal_upward_none (k.tty fd) hf fuel s s0 s1 s2 size d hg hp hcd hu] at hr
    cases hr
  | some p =>
    obtain ⟨size3, s3⟩ := p
    have hrun := reset_terminal_upward (k.tty fd) hf fuel s s0 s1 s2 s3 size d size3 hg hp hcd hu
    rw [hc] at hu
    obtain ⟨t, err, ht, hcalls, hsize, herr⟩ := reset_up_loop_trace k fd fuel _ _ _ _ hu
    rw [hrun]
    by_cases he : err = Errno.EINVAL
    · subst he
      simp only [herr, ne_eq, not_true_eq_false, ↓reduceIte, decide_True]
      refine ⟨t, Errno.EINVAL, _, s3, ht, rfl, hcalls, herr, fun _ => ⟨?_, ?_⟩⟩
      · rw [hsize]
        have hback : ushrt_sub ((c + t) % USHRT) 1 = (c + (t - 1)) % USHRT := by
          unfold ushrt_sub USHRT
          split_ifs <;> omega
        simp only [hback]
      · intro hrem hrep
        exact reset_up_loop_reports k fd hrem fuel _ _ _ _ hclt hrep hu
    · have hne : s3.errno ≠ some Errno.EINVAL := by
        rw [herr]
        intro h
        exact he (Option.some.inj h)
      simp only [hne, ne_eq, not_false_eq_true, ↓reduceIte]
      refine ⟨t, err, size3, s3, ht, ?_, hcalls, herr, fun h => absurd h he⟩
      simp only [he, decide_False]

/-! ## C23: the upward probe of Maximize -/

/-- C23: when the get-size call reads `d`, the probe of `d.ws_row + 2` rows
and the candidate `c = floor((rows + 2) / factor)` (as an unsigned short) are
accepted, and some row count is never accepted on `fd`, `reset_terminal` with
enough fuel returns, and after the get-size call, the probe and the candidate
its calls are the accepted requests of `c + 1`, `c + 2`, ... rows (as unsigned
shorts), `t - 1` of them, followed by the first rejected request, of `c + t`
rows. It returns success exactly when that rejection is `EINVAL`, and then the
row count returned is the last accepted one, `c + t - 1`, which the terminal
reports at return, if it reports what it was last set to. -/
theorem C23_upward_probe {ε : Type} (k : Kernel ε) (fd : Int) (hf : HeightFactor)
    (fuel : Nat) (s : TermState (Sys ε)) (size d : winsize) (e0 e1 e2 : ε) (c : Nat)
    (hget : k.tiocgwinsz s.dev.env fd = (Except.ok d, e0))
    (hprobe : k.tiocswinsz e0 fd { d with ws_row := (d.ws_row + 2) % USHRT } = (none, e1))
    (hc : hf.div_floor ((d.ws_row + 2) % USHRT) % USHRT = c)
    (hcand : k.tiocswinsz e1 fd { d with ws_row := c } = (none, e2))
    (B : Nat) (hB : B < 65536)
    (hrej : ∀ e sz, sz.ws_row = B → (k.tiocswinsz e fd sz).1 ≠ none)
    (hfuel : 65536 ≤ fuel) :
    ∃ (t : Nat) (err : Errno) (M : winsize) (s2 : TermState (Sys ε)), 1 ≤ t ∧
      reset_terminal (k.tty fd) hf fuel s size = some (decide (err = Errno.EINVAL), M, s2) ∧
      s2.dev.calls
        = s.dev.calls ++
          [Syscall.tiocgwinsz fd (Except.ok d),
           Syscall.tiocswinsz fd { d with ws_row := (d.ws_row + 2) % USHRT } none,
           Syscall.tiocswinsz fd { d with ws_row := c } none] ++
          accepted_up fd d c (t - 1) ++
          [Syscall.tiocswinsz fd { d with ws_row := (c + t) % USHRT } (some err)] ∧
      s2.errno = some err ∧
      (err = Errno.EINVAL → M = { d with ws_row := (c + (t - 1)) % USHRT } ∧
        (remembers_size k fd → (k.tiocgwinsz s2.dev.env fd).1 = Except.ok M)) := by
  have hg := get_terminal_size_tty_ok k fd s size d e0 hget
  have hp := set_terminal_size_tty_none k fd
    { s with dev := { env := e0, calls := s.dev.calls ++ [Syscall.tiocgwinsz fd (Except.ok d)] },
             gets := s.gets + 1 }
    { d with ws_row := (d.ws_row + 2) % USHRT } e1 hprobe
  have hcd := set_terminal_size_tty_none k fd
    { s with dev := { env := e1, calls := (s.dev.calls ++ [Syscall.tiocgwinsz fd (Except.ok d)])
                        ++ [Syscall.tiocswinsz fd
                              { d with ws_row := (d.ws_row + 2) % USHRT } none] },
             gets := s.gets + 1,
             sets := s.sets ++ [{ d with ws_row := (d.ws_row + 2) % USHRT }] }
    { d with ws_row := c } e2 hcand
  obtain ⟨t, err, M, s3, ht, h1, h2, h3, h4⟩ :=
    reset_terminal_up_trace k fd hf fuel s _ _ _ size d c hg hp hc hcd B hB hrej hfuel
  refine ⟨t, err, M, s3, ht, h1, ?_, h3, fun he => ⟨(h4 he).1, fun hrem => ?_⟩⟩
  · rw [h2]
    simp only [List.append_assoc, List.cons_append, List.nil_append]
  · refine (h4 he).2 hrem ?_
    have hacc : (k.tiocswinsz e1 fd { d with ws_row := c }).1 = none := by rw [hcand]
    have hstore := hrem.1 e1 { d with ws_row := c } hacc
    rw [hcand] at hstore
    exact hstore

/-- C23 on the kernel with terminals of at most 30 rows, terminal 1 at 10
rows, factor 2/3: the probe of 12 rows and the candidate of 18 rows are
accepted, and Maximize returns after a rejected request. -/
theorem C23_upward_probe_witness :
    ∃ (t : Nat) (err : Errno) (M : winsize) (s2 : TermState (Sys VtWorld)), 1 ≤ t ∧
      reset_terminal ((bounded_kernel 30).tty 0) (HeightFactor.exact 2 3) 65536
        (demo_init 30 10 2 3).st winsize.zero = some (decide (err = Errno.EINVAL), M, s2) ∧
      s2.dev.calls
        = (demo_init 30 10 2 3).st.dev.calls ++
          [Syscall.tiocgwinsz 0
             (Except.ok { ws_row := 10, ws_col := 80, ws_xpixel := 0, ws_ypixel := 0 }),
           Syscall.tiocswinsz 0
             { ws_row := (10 + 2) % USHRT, ws_col := 80, ws_xpixel := 0, ws_ypixel := 0 } none,
           Syscall.tiocswinsz 0 { ws_row := 18, ws_col := 80, ws_xpixel := 0, ws_ypixel := 0 }
             none] ++
          accepted_up 0 { ws_row := 10, ws_col := 80, ws_xpixel := 0, ws_ypixel := 0 } 18
            (t - 1) ++
          [Syscall.tiocswinsz 0
            { ws_row := (18 + t) % USHRT, ws_col := 80, ws_xpixel := 0, ws_ypixel := 0 }
            (some err)] :=
  match C23_upward_probe (bounded_kernel 30) 0 (HeightFactor.exact 2 3) 65536
    (demo_init 30 10 2 3).st winsize.zero
    { ws_row := 10, ws_col := 80, ws_xpixel := 0, ws_ypixel := 0 }
    (demo_init 30 10 2 3).st.dev.env
    ((bounded_kernel 30).tiocswinsz (demo_init 30 10 2 3).st.dev.env 0
      { ws_row := 12, ws_col := 80, ws_xpixel := 0, ws_ypixel := 0 }).2
    ((bounded_kernel 30).tiocswinsz
      ((bounded_kernel 30).tiocswinsz (demo_init 30 10 2 3).st.dev.env 0
        { ws_row := 12, ws_col := 80, ws_xpixel := 0, ws_ypixel := 0 }).2 0
      { ws_row := 18, ws_col := 80, ws_xpixel := 0, ws_ypixel := 0 }).2
    18 rfl rfl (by decide) rfl 31 (by decide)
    (fun e sz h => by
      simp only [bounded_kernel]
      split
      · have hgt : ¬ sz.ws_row ≤ 30 := by omega
        rw [if_neg hgt]
        simp
      · simp)
    (by decide) with
  | ⟨t, err, M, s2, ht, h1, h2, _, _⟩ => ⟨t, err, M, s2, ht, h1, h2⟩

/-! ## Lemmas on the deployed height factor -/

theorem bit_length_le : ∀ (fuel n b : Nat), n < 2 ^ b → bit_length fuel n ≤ b := by
  intro fuel
  induction fuel with
  | zero => intro n b _; simp [bit_length]
  | succ fuel ih =>
    intro n b h
    unfold bit_length
    split_ifs with h0
    · exact Nat.zero_le _
    · cases b with
      | zero => simp at h; exact absurd h h0
      | succ b =>
        have hlt : n / 2 < 2 ^ b := by
          rw [Nat.pow_succ] at h
          omega
        have := ih (n / 2) b hlt
        omega

/-- Rounding to `float` moves a value below `2 ^ 38` to one of the two
neighbouring multiples of `2 ^ s`, for some `s` of at most 14. -/
theorem f32_round_bounds (n : Nat) (hn : n < 2 ^ 38) :
    ∃ s, s ≤ 14 ∧ n / 2 ^ s * 2 ^ s ≤ f32_round n ∧ f32_round n ≤ (n / 2 ^ s + 1) * 2 ^ s := by
  have hb := bit_length_le 64 n 38 hn
  unfold f32_round
  dsimp only
  split_ifs with h1
  · exact ⟨0, by omega, by simp, by simp⟩
  · exact ⟨bit_length 64 n - 24, by omega, Nat.mul_le_mul_right _ (Nat.le_succ _), le_refl _⟩
  · exact ⟨bit_length 64 n - 24, by omega, le_refl _, Nat.mul_le_mul_right _ (Nat.le_succ _)⟩

/-- The constant `2.0f / 3.0f`: a 24-bit significand over `2 ^ 24` that is
nearer to 2/3 than half a unit in the last place. -/
theorem f32_two_thirds_nearest :
    2 ^ 23 ≤ f32_two_thirds ∧ f32_two_thirds < 2 ^ 24 ∧
    3 * f32_two_thirds = 2 * 2 ^ 24 + 1 := by
  decide

/-- With the deployed factor, `floor((float)rows * height_factor)` is
`floor(2 * rows / 3)` for every row count up to 20000. -/
theorem deployed_mul_floor (div : Nat → Nat) (R : Nat) (hR : R ≤ 20000) :
    (deployed_factor div).mul_floor R = 2 * R / 3 := by
  show f32_round (R * f32_two_thirds) / 2 ^ 24 = 2 * R / 3
  unfold f32_two_thirds
  obtain ⟨s, hs, hlo, hhi⟩ := f32_round_bounds (R * 11184811) (by norm_num; omega)
  have hP : 0 < 2 ^ s := Nat.two_pow_pos s
  have hPle : 2 ^ s ≤ 2 ^ 14 := Nat.pow_le_pow_right (by norm_num) hs
  have hsplit : 2 ^ 24 = 2 ^ (24 - s) * 2 ^ s := by
    rw [← Nat.pow_add]
    congr 1
    omega
  have h24 : (2 : Nat) ^ 24 = 16777216 := by norm_num
  have h14 : (2 : Nat) ^ 14 = 16384 := by norm_num
  have hq : 2 * R / 3 * 2 ^ 24 ≤ R * 11184811 := by
    rw [h24]
    omega
  have hlow : 2 * R / 3 * 2 ^ 24 ≤ f32_round (R * 11184811) := by
    refine le_trans ?_ hlo
    rw [hsplit, ← Nat.mul_assoc]
    apply Nat.mul_le_mul_right
    rw [Nat.le_div_iff_mul_le hP, Nat.mul_assoc, ← hsplit]
    exact hq
  have hup : f32_round (R * 11184811) < (2 * R / 3 + 1) * 2 ^ 24 := by
    have h1 : (R * 11184811 / 2 ^ s + 1) * 2 ^ s ≤ R * 11184811 + 2 ^ s := by
      rw [Nat.add_mul, Nat.one_mul]
      exact Nat.add_le_add_right (Nat.div_mul_le_self _ _) _
    have h2 : R * 11184811 + 2 ^ 14 < (2 * R / 3 + 1) * 2 ^ 24 := by
      rw [h24, h14]
      omega
    omega
  exact Nat.div_eq_of_lt_le hlow hup

/-! ## Lemmas on RestoreAll with one flag set -/

theorem reset_all_loop_unflagged {ε : Type} (k : Kernel ε) (fuel : Nat) :
    ∀ (l : List Nat) (n : Negotiator ε) (size : winsize),
      (∀ i ∈ l, n.resized_vts i = false) → reset_all_loop k fuel l n size = some (n, size) := by
  intro l
  induction l with
  | nil => intro n size _; rfl
  | cons i rest ih =>
    intro n size h
    rw [reset_all_loop]
    simp only [h i (List.mem_cons_self _ _), Bool.not_false, ↓reduceIte]
    exact ih n size (fun j hj => h j (List.mem_cons_of_mem _ hj))

/-- When at most the flag `i0` is set among the indexes of a list without
repetition that contains `i0`, the loop of RestoreAll does what its round for
`i0` does. -/
theorem reset_all_loop_single {ε : Type} (k : Kernel ε) (fuel : Nat) (i0 : Nat) :
    ∀ (l : List Nat) (n : Negotiator ε) (size : winsize), l.Nodup → i0 ∈ l →
      (∀ i ∈ l, i ≠ i0 → n.resized_vts i = false) →
      reset_all_loop k fuel l n size = reset_all_loop k fuel [i0] n size := by
  intro l
  induction l with
  | nil => intro n size _ h; cases h
  | cons i rest ih =>
    intro n size hnd hmem h
    rw [List.nodup_cons] at hnd
    by_cases hi : i = i0
    · subst hi
      have hrest : ∀ (n2 : Negotiator ε) (size2 : winsize), n2.resized_vts = n.resized_vts →
          reset_all_loop k fuel rest n2 size2 = reset_all_loop k fuel [] n2 size2 := by
        intro n2 size2 hfl
        rw [reset_all_loop_unflagged k fuel rest n2 size2]
        · rfl
        · intro j hj
          rw [hfl]
          exact h j (List.mem_cons_of_mem _ hj) (fun hji => hnd.1 (hji ▸ hj))
      rw [reset_all_loop, reset_all_loop]
      simp only
      split_ifs
      · exact hrest n size rfl
      · exact hrest _ size rfl
      · split
        · rfl
        · exact hrest _ _ rfl
    · have hmem2 : i0 ∈ rest := by
        rcases List.mem_cons.1 hmem with h1 | h1
        · exact absurd h1.symm hi
        · exact h1
      rw [reset_all_loop]
      simp only [h i (List.mem_cons_self _ _) hi, Bool.not_false, ↓reduceIte]
      exact ih n size hnd.2 hmem2 (fun j hj => h j (List.mem_cons_of_mem _ hj))

/-! ## Lemmas on Shrink and RestoreAll over the kernel with bounded terminals -/

/-- Shrink of the active terminal `v` at its maximum `R`, right after
`bb_terminal_init`: it ends at "resized" with the terminal at
`floor(R * height_factor)` rows and the flag of `v` set, and no other. -/
theorem shrink_current_bounded (R v : Nat) (hf : HeightFactor) (hv1 : 1 ≤ v) (hv2 : v ≤ 62)
    (hR1 : 1 ≤ R) (hR : R < 65534) (hmul : hf.mul_floor R ≤ R) (fuel : Nat)
    (hfuel : 65536 ≤ fuel) :
    ∃ n2 : Negotiator VtWorld,
      bb_terminal_shrink_current (bounded_kernel R) fuel (started R v R hf)
        = Run.done (ShrinkExit.resized, n2) ∧
      n2.st.dev.env.fds = [some v] ∧ n2.st.dev.env.active = v ∧
      n2.st.dev.env.size v
        = { ws_row := hf.mul_floor R, ws_col := 80, ws_xpixel := 0, ws_ypixel := 0 } ∧
      n2.resized_vts = (fun j => if j = v - 1 then true else false) := by
  have hg : get_active_terminal (bounded_kernel R) (started R v R hf)
      = ((v : Int),
          { started R v R hf with st := { (started R v R hf).st with dev :=
            { env := (started R v R hf).st.dev.env,
              calls := (started R v R hf).st.dev.calls
                ++ [Syscall.vt_getstate (started R v R hf).current_fd (some v)] } } }) :=
    get_active_terminal_ok (bounded_kernel R) (started R v R hf) v _ rfl
  have hb := bounded_kernel_terminal R [some v] v 0 v (le_refl _) rfl
  have hidx : ((v : Int) - 1).toNat = v - 1 := by omega
  have h1 : 1 ≤ (get_active_terminal (bounded_kernel R) (started R v R hf)).1 := by
    rw [hg]; simp only; omega
  have h2 : (get_active_terminal (bounded_kernel R) (started R v R hf)).1 ≤ 62 := by
    rw [hg]; simp only; omega
  have hp : shrink_prepared (bounded_kernel R)
      (get_active_terminal (bounded_kernel R) (started R v R hf))
      (get_active_terminal (bounded_kernel R) (started R v R hf)).2 := by
    left
    rw [hg]
    exact ⟨rfl, rfl⟩
  obtain ⟨_, _, r3⟩ := shrink_current_prepared_run (bounded_kernel R) fuel (started R v R hf)
    (get_active_terminal (bounded_kernel R) (started R v R hf)).2 h1 h2 rfl hp
  rw [hg] at r3
  simp only at r3
  obtain ⟨s1, hmax, hview1, hinv1⟩ := reset_terminal_view hb hf hR1 hR fuel hfuel
    ({ (started R v R hf).st with dev :=
        { env := (started R v R hf).st.dev.env,
          calls := (started R v R hf).st.dev.calls
            ++ [Syscall.vt_getstate (started R v R hf).current_fd (some v)] } } :
      TermState (Sys VtWorld))
    winsize.zero ⟨rfl, rfl⟩ (le_refl R)
  have hno : ¬ R + 2 ≤ R := by omega
  have hstart : (started R v R hf).st.dev.env.size v
      = { ws_row := R, ws_col := 80, ws_xpixel := 0, ws_ypixel := 0 } := rfl
  simp only [hstart, hno, ↓reduceIte] at hmax hview1
  have hmod : hf.mul_floor R % USHRT = hf.mul_floor R := by
    unfold USHRT
    omega
  obtain ⟨s2, hset, hinv2, hview2, _⟩ := set_view_accept hb s1
    { ws_row := hf.mul_floor R % USHRT, ws_col := 80, ws_xpixel := 0, ws_ypixel := 0 } hinv1
    (by rw [hmod]; exact hmul)
  have hsh := shrink_terminal_of_maximized ((bounded_kernel R).tty 0) hf fuel _ s1 _ hmax
  simp only at hsh
  rw [hset] at hsh
  refine ⟨_, r3 s2 hsh, hinv2.1, hinv2.2, ?_, ?_⟩
  · rw [hview2, hmod]
  · funext j
    rw [hidx]
    rfl

/-- RestoreAll when the flag of terminal `v` is the one flag set, the
terminal being open once and at `r` rows with `r + 2 ≤ R`: it returns and
leaves the terminal at `R` rows. -/
theorem reset_all_bounded (R v r : Nat) (n2 : Negotiator VtWorld) (hv1 : 1 ≤ v) (hv2 : v ≤ 62)
    (hR : R < 65534) (hfds : n2.st.dev.env.fds = [some v])
    (hsize : (n2.st.dev.env.size v).ws_row = r) (hr : r + 2 ≤ R)
    (hflags : n2.resized_vts = (fun j => if j = v - 1 then true else false))
    (fuel : Nat) (hfuel : 65536 ≤ fuel) :
    ∃ n3 : Negotiator VtWorld,
      bb_terminal_reset_all (bounded_kernel R) fuel n2 = some n3 ∧
      n3.st.dev.env.size v = { n2.st.dev.env.size v with ws_row := R } ∧
      n3.resized_vts = n2.resized_vts := by
  have hvv : v - 1 + 1 = v := by omega
  have hv0 : ¬ v = 0 := by omega
  have hb := bounded_kernel_terminal R [some v, some v] n2.st.dev.env.active 1 v (by decide) rfl
  have ho : sys_open (bounded_kernel R) n2.st (v - 1 + 1)
      = ((1 : Int),
          { n2.st with dev :=
            { env := { n2.st.dev.env with fds := [some v, some v] },
              calls := n2.st.dev.calls ++ [Syscall.open_tty v (some 1)] } }) := by
    rw [hvv]
    unfold sys_open bounded_kernel
    simp only [hfds, hv0, ↓reduceIte, List.length_singleton, List.singleton_append,
      Nat.cast_one]
  obtain ⟨s3, hmax, hview, _⟩ := reset_terminal_view hb n2.height_factor (by omega) hR fuel
    hfuel
    ({ n2.st with dev :=
        { env := { n2.st.dev.env with fds := [some v, some v] },
          calls := n2.st.dev.calls ++ [Syscall.open_tty v (some 1)] } } :
      TermState (Sys VtWorld))
    { ws_row := 0, ws_col := 0, ws_xpixel := 0, ws_ypixel := 0 } ⟨rfl, rfl⟩
    (by simp only; omega)
  have hyes : (n2.st.dev.env.size v).ws_row + 2 ≤ R := by omega
  simp only [hyes, ↓reduceIte] at hmax hview
  have hflag : n2.resized_vts (v - 1) = true := by
    rw [hflags]
    simp
  unfold bb_terminal_reset_all
  rw [reset_all_loop_single (bounded_kernel R) fuel (v - 1) (List.range MAX_NR_CONSOLES) n2 _
    (List.nodup_range _) (List.mem_range.2 (by unfold MAX_NR_CONSOLES; omega))
    (fun i _ hi => by rw [hflags]; simp [hi])]
  rw [reset_all_loop]
  simp only [hflag, Bool.not_true, Bool.false_eq_true, ↓reduceIte, ho, Int.reduceLT, hmax,
    reset_all_loop, Option.map_some']
  exact ⟨_, rfl, hview, rfl⟩

/-! ## C25: the round trip under the deployed configuration -/

/-- C25: with the factor `2.0f / 3.0f` that `main` passes to
`bb_terminal_init` (the product computed in `float`, whatever the `float`
quotient yields), for every `R` from 4 to 20000 and every terminal `v` from 1
to 62: on the kernel whose terminals accept exactly the row counts up to `R`,
with `v` active at `R` rows, `bb_terminal_init` succeeds,
`bb_terminal_shrink_current` ends at "resized" leaving the terminal at
`floor(2 * R / 3)` rows, and a following `bb_terminal_reset_all` returns and
leaves the terminal at `R` rows. -/
theorem C25_round_trip_deployed (R v : Nat) (div : Nat → Nat) (hR4 : 4 ≤ R) (hR : R ≤ 20000)
    (hv1 : 1 ≤ v) (hv2 : v ≤ 62) (fuel : Nat) (hfuel : 65536 ≤ fuel) :
    (bb_terminal_init (bounded_kernel R) (deployed_factor div)
      (Negotiator.initial (VtWorld.start v R))).1 = true ∧
    ((started R v R (deployed_factor div)).st.dev.env.size v).ws_row = R ∧
    ∃ n2 n3 : Negotiator VtWorld,
      bb_terminal_shrink_current (bounded_kernel R) fuel (started R v R (deployed_factor div))
        = Run.done (ShrinkExit.resized, n2) ∧
      (n2.st.dev.env.size v).ws_row = 2 * R / 3 ∧
      bb_terminal_reset_all (bounded_kernel R) fuel n2 = some n3 ∧
      (n3.st.dev.env.size v).ws_row = R := by
  refine ⟨rfl, rfl, ?_⟩
  have hmul := deployed_mul_floor div R hR
  obtain ⟨n2, hrun, hfds, _, hsize, hflags⟩ := shrink_current_bounded R v (deployed_factor div)
    hv1 hv2 (by omega) (by omega) (by rw [hmul]; omega) fuel hfuel
  have hrows : (n2.st.dev.env.size v).ws_row = 2 * R / 3 := by
    rw [hsize]
    exact hmul
  obtain ⟨n3, hreset, hsize3, _⟩ := reset_all_bounded R v (2 * R / 3) n2 hv1 hv2 (by omega) hfds
    hrows (by omega) hflags fuel hfuel
  exact ⟨n2, n3, hrun, hrows, hreset, by rw [hsize3]⟩

/-- C25 for terminals of at most 30 rows, terminal 1 active: Shrink leaves 20
rows and RestoreAll 30 rows. -/
theorem C25_round_trip_deployed_witness :
    ∃ n2 n3 : Negotiator VtWorld,
      bb_terminal_shrink_current (bounded_kernel 30) 65536
          (started 30 1 30 (deployed_factor (fun rows => rows * 3 / 2)))
        = Run.done (ShrinkExit.resized, n2) ∧
      (n2.st.dev.env.size 1).ws_row = 2 * 30 / 3 ∧
      bb_terminal_reset_all (bounded_kernel 30) 65536 n2 = some n3 ∧
      (n3.st.dev.env.size 1).ws_row = 30 :=
  (C25_round_trip_deployed 30 1 (fun rows => rows * 3 / 2) (by decide) (by decide) (by decide)
    (by decide) 65536 (by decide)).2.2

/-! ## Lemmas on the held keys -/

/-- Facts of the catalog used for the held keys: every layer of terminal/us
has the modifier keys 0 and 1, with the scancodes of the left control key
and of the left alt key; they are no layer switch keys, and every layer
switch key leads to one of the five layers. -/
theorem terminal_us_modifiers :
    ∀ L < 5,
      layer_modifiers (layout_terminal_us.layers.getD L empty_layer) = [0, 1] ∧
      key_scancodes layout_terminal_us (Keyboard.unlatched L) 0 = [KEY_LEFTCTRL] ∧
      key_scancodes layout_terminal_us (Keyboard.unlatched L) 1 = [KEY_LEFTALT] ∧
      0 ∉ layer_switchers (layout_terminal_us.layers.getD L empty_layer) ∧
      1 ∉ layer_switchers (layout_terminal_us.layers.getD L empty_layer) ∧
      ∀ b ∈ layer_switchers (layout_terminal_us.layers.getD L empty_layer),
        switcher_destination (layout_terminal_us.layers.getD L empty_layer) b < 5 := by
  decide

theorem held_append (a b : List KeyEvent) (c : Int) :
    held (a ++ b) c = b.foldl (key_state c) (held a c) := by
  unfold held
  rw [List.foldl_append]

theorem foldl_key_state_downs (c : Int) : ∀ (L : List Int) (h : Bool),
    (downs L).foldl (key_state c) h = (decide (c ∈ L) || h) := by
  intro L
  induction L with
  | nil => intro h; simp [downs]
  | cons x xs ih =>
    intro h
    have := ih (key_state c h (KeyEvent.down x))
    unfold downs at this ⊢
    rw [List.map_cons, List.foldl_cons, this]
    unfold key_state
    by_cases hx : x = c
    · subst hx
      simp
    · have hx2 : ¬ c = x := fun h2 => hx h2.symm
      simp [hx, hx2]

theorem foldl_key_state_ups_forward (c : Int) : ∀ (L : List Int) (h : Bool),
    (L.map KeyEvent.up).foldl (key_state c) h = (!decide (c ∈ L) && h) := by
  intro L
  induction L with
  | nil => intro h; simp
  | cons x xs ih =>
    intro h
    rw [List.map_cons, List.foldl_cons, ih]
    unfold key_state
    by_cases hx : x = c
    · subst hx
      simp
    · have hx2 : ¬ c = x := fun h2 => hx h2.symm
      simp [hx, hx2]

theorem foldl_key_state_ups (c : Int) (L : List Int) (h : Bool) :
    (ups L).foldl (key_state c) h = (!decide (c ∈ L) && h) := by
  unfold ups
  rw [foldl_key_state_ups_forward]
  simp

/-- The releases of the latched modifiers on terminal/us: the key-up of the
left control key if button 0 is latched, then the one of the left alt key if
button 1 is latched. -/
theorem releases_terminal_us (kb : Keyboard) (hL : kb.layer < 5) :
    modifier_releases layout_terminal_us kb
      = (if kb.checked 0 then [] else [KeyEvent.up KEY_LEFTCTRL])
        ++ (if kb.checked 1 then [] else [KeyEvent.up KEY_LEFTALT]) := by
  obtain ⟨hm, h0, h1, _⟩ := terminal_us_modifiers kb.layer hL
  have k0 := key_scancodes_of_layer layout_terminal_us (Keyboard.unlatched kb.layer) kb 0 rfl
  have k1 := key_scancodes_of_layer layout_terminal_us (Keyboard.unlatched kb.layer) kb 1 rfl
  rw [h0] at k0
  rw [h1] at k1
  unfold modifier_releases sq2lv_get_modifier_indexes current_layer
  rw [hm]
  have hfo : first_occurrences [0, 1] = [0, 1] := by decide
  rw [hfo]
  cases hc0 : kb.checked 0 <;> cases hc1 : kb.checked 1 <;>
    simp [is_latched, hc0, hc1, k0, k1, ups]

/-- After the releases of the latched modifiers no scancode is held that was
held only as the scancode of a latched modifier. -/
theorem held_after_releases (kb : Keyboard) (hL : kb.layer < 5) (c : Int) (h0 : Bool)
    (h : h0 = true → (c = KEY_LEFTCTRL ∧ kb.checked 0 = false) ∨
      (c = KEY_LEFTALT ∧ kb.checked 1 = false)) :
    (modifier_releases layout_terminal_us kb).foldl (key_state c) h0 = false := by
  rw [releases_terminal_us kb hL]
  cases hh : h0 with
  | false =>
    cases kb.checked 0 <;> cases kb.checked 1 <;> simp [key_state]
  | true =>
    rcases h hh with ⟨hc, hk⟩ | ⟨hc, hk⟩
    · subst hc
      rw [hk]
      cases kb.checked 1 <;> simp [key_state, KEY_LEFTCTRL, KEY_LEFTALT]
    · subst hc
      rw [hk]
      cases kb.checked 0 <;> simp [key_state, KEY_LEFTCTRL, KEY_LEFTALT]

/-- Every button press keeps the invariant behind the held keys. -/
theorem held_invariant_step (w : WriteOracle) (s : Keyboard × SinkLog) (btn : Nat)
    (hinv : held_invariant s) :
    held_invariant (on_button_press w layout_terminal_us s.1 s.2 btn) := by
  obtain ⟨hL, hflags, hheld⟩ := hinv
  obtain ⟨hm, h0, h1, hs0, hs1, hdest⟩ := terminal_us_modifiers s.1.layer hL
  have k0 := key_scancodes_of_layer layout_terminal_us (Keyboard.unlatched s.1.layer) s.1 0 rfl
  have k1 := key_scancodes_of_layer layout_terminal_us (Keyboard.unlatched s.1.layer) s.1 1 rfl
  rw [h0] at k0
  rw [h1] at k1
  have hmods : sq2lv_get_modifier_indexes layout_terminal_us s.1 = [0, 1] := hm
  have hpop : (fun j => decide (j ∈ sq2lv_get_modifier_indexes layout_terminal_us s.1)
      || s.1.checked j) = (fun _ => true) := by
    funext j
    rw [hmods]
    by_cases hj0 : j = 0
    · simp [hj0]
    · by_cases hj1 : j = 1
      · simp [hj1]
      · simp [hflags j hj0 hj1]
  have himp : ∀ c, held s.2.calls c = true →
      (c = KEY_LEFTCTRL ∧ s.1.checked 0 = false) ∨ (c = KEY_LEFTALT ∧ s.1.checked 1 = false) := by
    intro c hc
    rw [hheld c] at hc
    simp only [Bool.or_eq_true, Bool.and_eq_true, decide_eq_true_eq, Bool.not_eq_true'] at hc
    exact hc
  by_cases hs : sq2lv_is_layer_switcher layout_terminal_us s.1 btn = true
  · obtain ⟨p1, p2, p3⟩ := press_switcher w layout_terminal_us s.1 s.2 btn hs
    refine ⟨?_, ?_, ?_⟩
    · rw [p1]
      exact hdest btn (of_decide_eq_true hs)
    · intro j _ _
      rw [p2, hpop]
    · intro c
      rw [p3, held_append, held_after_releases s.1 hL c _ (himp c), p2, hpop]
      simp
  · rw [Bool.not_eq_true] at hs
    by_cases hmod : sq2lv_is_modifier layout_terminal_us s.1 btn = true
    · obtain ⟨p1, p2, p3⟩ := press_modifier w layout_terminal_us s.1 s.2 btn hs hmod
      have hbtn : btn = 0 ∨ btn = 1 := by
        have hmem : btn ∈ [0, 1] := hm ▸ of_decide_eq_true hmod
        simpa using hmem
      refine ⟨by rw [p1]; exact hL, ?_, ?_⟩
      · intro j hj0 hj1
        rw [p2]
        have hne : j ≠ btn := by
          rcases hbtn with h | h <;> rw [h] <;> assumption
        simp only [hne, ↓reduceIte]
        exact hflags j hj0 hj1
      · intro c
        rw [p3, held_append, List.foldl_append, foldl_key_state_downs, p2]
        rcases hbtn with h | h
        · subst h
          rw [k0]
          cases hc0 : s.1.checked 0
          · simp only [Bool.false_eq_true, ↓reduceIte, foldl_key_state_ups, hheld c, hc0]
            by_cases hc : c = KEY_LEFTCTRL
            · simp [hc, KEY_LEFTALT, KEY_LEFTCTRL]
            · simp [hc]
          · simp only [↓reduceIte, List.foldl_nil, hheld c, hc0]
            by_cases hc : c = KEY_LEFTCTRL
            · simp [hc, KEY_LEFTALT, KEY_LEFTCTRL]
            · simp [hc]
        · subst h
          rw [k1]
          cases hc1 : s.1.checked 1
          · simp only [Bool.false_eq_true, ↓reduceIte, foldl_key_state_ups, hheld c, hc1]
            by_cases hc : c = KEY_LEFTALT
            · simp [hc, KEY_LEFTALT, KEY_LEFTCTRL]
            · simp [hc]
          · simp only [↓reduceIte, List.foldl_nil, hheld c, hc1]
            by_cases hc : c = KEY_LEFTALT
            · simp [hc, KEY_LEFTALT, KEY_LEFTCTRL]
            · simp [hc]
    · rw [Bool.not_eq_true] at hmod
      obtain ⟨p1, p2, p3⟩ := press_character w layout_terminal_us s.1 s.2 btn hs hmod
      refine ⟨by rw [p1]; exact hL, ?_, ?_⟩
      · intro j _ _
        rw [p2, hpop]
      · intro c
        rw [p3, held_append, List.foldl_append, List.foldl_append, foldl_key_state_downs,
          foldl_key_state_ups, held_after_releases s.1 hL c _ ?_, p2, hpop]
        · simp
        · intro hh
          apply himp c
          cases hmem : decide (c ∈ key_scancodes layout_terminal_us s.1 btn) <;>
            simp [hmem] at hh
          exact hh

theorem held_invariant_initial : held_invariant (Keyboard.unlatched 0, SinkLog.empty) := by
  refine ⟨by decide, fun _ _ _ => rfl, fun c => ?_⟩
  simp [held, SinkLog.empty, Keyboard.unlatched]

theorem held_invariant_sequence (w : WriteOracle) :
    ∀ (presses : List Nat) (s : Keyboard × SinkLog), held_invariant s →
      held_invariant (press_sequence w layout_terminal_us s presses) := by
  intro presses
  induction presses with
  | nil => intro s h; exact h
  | cons b rest ih =>
    intro s h
    unfold press_sequence
    rw [List.foldl_cons]
    exact ih _ (held_invariant_step w s b h)

/-- Under the invariant, the held scancodes are those of the latched
modifiers of the active layer. -/
theorem held_iff_latched (s : Keyboard × SinkLog) (hinv : held_invariant s) (c : Int) :
    held s.2.calls c = true ↔
      ∃ m ∈ layer_modifiers (current_layer layout_terminal_us s.1),
        is_latched s.1 m = true ∧ c ∈ key_scancodes layout_terminal_us s.1 m := by
  obtain ⟨hL, _, hheld⟩ := hinv
  obtain ⟨hm, h0, h1, _⟩ := terminal_us_modifiers s.1.layer hL
  have k0 := key_scancodes_of_layer layout_terminal_us (Keyboard.unlatched s.1.layer) s.1 0 rfl
  have k1 := key_scancodes_of_layer layout_terminal_us (Keyboard.unlatched s.1.layer) s.1 1 rfl
  rw [h0] at k0
  rw [h1] at k1
  have hmods : layer_modifiers (current_layer layout_terminal_us s.1) = [0, 1] := hm
  rw [hheld c, hmods]
  simp only [Bool.or_eq_true, Bool.and_eq_true, decide_eq_true_eq, Bool.not_eq_true',
    List.mem_cons, List.mem_singleton, List.not_mem_nil, or_false, exists_eq_or_imp,
    exists_eq_left, is_latched, k0, k1]
  constructor
  · rintro (⟨h1, h2⟩ | ⟨h1, h2⟩)
    · exact Or.inl ⟨h2, h1⟩
    · exact Or.inr ⟨h2, h1⟩
  · rintro (⟨h1, h2⟩ | ⟨h1, h2⟩)
    · exact Or.inl ⟨h2, h1⟩
    · exact Or.inr ⟨h2, h1⟩

/-! ## C26: the held keys -/

/-- C26: on the layout terminal/us, from the initial state (layer 0, no
modifier latched, no call made to the output sink) and after any sequence of
valid button presses, whatever the answers of the sink: a scancode is held
(the most recent call for it is a key-down) if and only if it is a scancode of
a modifier of the active layer that is latched; and when no modifier of the
active layer is latched no scancode is held. -/
theorem C26_held_keys (w : WriteOracle) (presses : List Nat)
    (hvalid : valid_presses w layout_terminal_us (Keyboard.unlatched 0, SinkLog.empty) presses) :
    (∀ c : Int,
      held (press_sequence w layout_terminal_us (Keyboard.unlatched 0, SinkLog.empty)
          presses).2.calls c = true ↔
        ∃ m ∈ layer_modifiers (current_layer layout_terminal_us
            (press_sequence w layout_terminal_us (Keyboard.unlatched 0, SinkLog.empty)
              presses).1),
          is_latched (press_sequence w layout_terminal_us (Keyboard.unlatched 0, SinkLog.empty)
              presses).1 m = true ∧
          c ∈ key_scancodes layout_terminal_us
            (press_sequence w layout_terminal_us (Keyboard.unlatched 0, SinkLog.empty)
              presses).1 m) ∧
    ((∀ m ∈ layer_modifiers (current_layer layout_terminal_us
          (press_sequence w layout_terminal_us (Keyboard.unlatched 0, SinkLog.empty)
            presses).1),
        is_latched (press_sequence w layout_terminal_us (Keyboard.unlatched 0, SinkLog.empty)
          presses).1 m = false) →
      ∀ c : Int,
        held (press_sequence w layout_terminal_us (Keyboard.unlatched 0, SinkLog.empty)
          presses).2.calls c = false) := by
  have _ := hvalid
  have hinv := held_invariant_sequence w presses _ held_invariant_initial
  refine ⟨fun c => held_iff_latched _ hinv c, fun hnone c => ?_⟩
  cases hh : held (press_sequence w layout_terminal_us (Keyboard.unlatched 0, SinkLog.empty)
      presses).2.calls c with
  | false => rfl
  | true =>
    obtain ⟨m, hm, hl, _⟩ := (held_iff_latched _ hinv c).1 hh
    rw [hnone m hm] at hl
    cases hl

/-- C26 after the presses of the control key and of the key "q" on a sink
whose writes succeed. -/
theorem C26_held_keys_witness :
    valid_presses write_ok layout_terminal_us (Keyboard.unlatched 0, SinkLog.empty) [0, 6] ∧
    ∀ c : Int,
      held (press_sequence write_ok layout_terminal_us (Keyboard.unlatched 0, SinkLog.empty)
          [0, 6]).2.calls c = true ↔
        ∃ m ∈ layer_modifiers (current_layer layout_terminal_us
            (press_sequence write_ok layout_terminal_us (Keyboard.unlatched 0, SinkLog.empty)
              [0, 6]).1),
          is_latched (press_sequence write_ok layout_terminal_us
              (Keyboard.unlatched 0, SinkLog.empty) [0, 6]).1 m = true ∧
          c ∈ key_scancodes layout_terminal_us
            (press_sequence write_ok layout_terminal_us (Keyboard.unlatched 0, SinkLog.empty)
              [0, 6]).1 m :=
  ⟨⟨by decide, by decide, trivial⟩,
    (C26_held_keys write_ok [0, 6] ⟨by decide, by decide, trivial⟩).1⟩

end Buffyboard
